import Mathlib

/-!
# Optiboot (radio variant): protocol engine

A shallow embedding of `bootloaders/optiboot/optiboot.c`.

The protocol engine talks to the host only through `getch` and `putch`.  In
this part of the development the channel is the Byte Channel of the
specification: `input` holds the bytes that successive `getch` calls return
and `output` collects the arguments of successive `putch` calls.  Every
hardware primitive the engine invokes is also appended to `trace`, in program
order.

Machine integers are natural numbers with explicit reductions modulo `2^8`,
`2^16` or `2^24`; a value that lives in a byte-wide cell is a `Byte`.
-/

namespace Optiboot

/-- One `uint8_t`: a byte on the channel or in a memory cell. -/
abbrev Byte := Fin 256

/-- Truncation of an integer to `uint8_t`. -/
def toByte (n : Nat) : Byte := ⟨n % 256, Nat.mod_lt n (by decide)⟩

/-! ## Build configuration

The preprocessor symbols that select code in `main`, and the per-device
constants that come from `<avr/io.h>`. -/

/-- Build-time parameters of one bootloader image. -/
structure Config where
  /-- Symbol `SUPPORT_EEPROM` is defined -/
  SUPPORT_EEPROM : Bool
  /-- Symbol `RAMPZ` is defined: the device has the extended `Z` register -/
  RAMPZ : Bool
  /-- Symbol `RWWSRE` is defined -/
  RWWSRE : Bool
  /-- First byte address of the no-read-while-write section -/
  NRWWSTART : Nat
  /-- Size of one flash page in bytes -/
  SPM_PAGESIZE : Nat
  SIGNATURE_0 : Byte
  SIGNATURE_1 : Byte
  SIGNATURE_2 : Byte

/-! ## Constants -/

def OPTIBOOT_MAJVER : Byte := 5
def OPTIBOOT_MINVER : Byte := 0

/-- Modelled from the spec: `stk500.h` is not part of the source tree; the
status bytes IN-SYNC and OK, the end-of-command marker and the command codes
of section 4.2 carry their STK500v1 values. -/
def STK_OK : Byte := 0x10
/-- Modelled from the spec: see `STK_OK`. -/
def STK_INSYNC : Byte := 0x14
/-- Modelled from the spec: see `STK_OK`. -/
def CRC_EOP : Byte := 0x20
/-- Modelled from the spec: see `STK_OK`. -/
def STK_GET_PARAMETER : Byte := 0x41
/-- Modelled from the spec: see `STK_OK`. -/
def STK_SET_DEVICE : Byte := 0x42
/-- Modelled from the spec: see `STK_OK`. -/
def STK_SET_DEVICE_EXT : Byte := 0x45
/-- Modelled from the spec: see `STK_OK`. -/
def STK_LEAVE_PROGMODE : Byte := 0x51
/-- Modelled from the spec: see `STK_OK`. -/
def STK_LOAD_ADDRESS : Byte := 0x55
/-- Modelled from the spec: see `STK_OK`. -/
def STK_UNIVERSAL : Byte := 0x56
/-- Modelled from the spec: see `STK_OK`. -/
def STK_PROG_PAGE : Byte := 0x64
/-- Modelled from the spec: see `STK_OK`. -/
def STK_READ_PAGE : Byte := 0x74
/-- Modelled from the spec: see `STK_OK`. -/
def STK_READ_SIGN : Byte := 0x75

/-- Bit numbers of the watchdog control register (`<avr/io.h>`). -/
def WDE : Nat := 3
def WDCE : Nat := 4

/-- Macro `WATCHDOG_16MS`, that is `_BV(WDE)`. -/
def WATCHDOG_16MS : Nat := 2 ^ WDE

/-- The sentinel stored in the Reset Marker. -/
def MARKER_SENTINEL : Nat := 0xdeadbeef

/-! ## Machine state -/

/-- What the engine does to the outside world, in program order. -/
inductive Event where
  /-- Call of `getch()` returned this byte -/
  | rx (b : Byte)
  /-- Call `putch(b)` -/
  | tx (b : Byte)
  /-- Call `__boot_page_erase_short(z)` -/
  | erase (z : Nat)
  /-- Call `__boot_page_fill_short(z, w)` -/
  | fill (z : Nat) (w : Nat)
  /-- Call `__boot_page_write_short(z)` -/
  | write (z : Nat)
  /-- Call `boot_spm_busy_wait()`. -/
  | spmBusyWait
  /-- Call `boot_rww_enable()` -/
  | rwwEnable
  /-- Call `eeprom_write(a, v)` -/
  | eeWrite (a : Nat) (v : Byte)
  /-- Call `eeprom_read(a)` -/
  | eeRead (a : Nat)
  /-- Call `watchdogReset()` -/
  | wdr
  /-- Store to `WDTCSR` -/
  | wdtcsr (v : Nat)
  /-- Call `nrf24_idle_mode(0)` -/
  | radioIdle
  deriving DecidableEq

/-- Everything the protocol engine reads or writes. -/
structure State where
  /-- Bytes the channel will deliver, oldest first -/
  input : List Byte
  /-- Bytes written to the channel, oldest first -/
  output : List Byte
  /-- Variable `register uint16_t address` of `main` -/
  address : Nat
  /-- Register `RAMPZ` (only meaningful when `Config.RAMPZ`) -/
  rampz : Nat
  /-- Page Buffer `buff`, indexed from `buff[0]` -/
  buff : Nat → Byte
  /-- Program memory, one byte per byte address -/
  flash : Nat → Byte
  /-- Temporary write buffer of the device, one 16-bit word per slot -/
  pagebuf : Nat → Nat
  /-- EEPROM cells -/
  eeprom : Nat → Byte
  /-- Reset Marker (`uint32_t` at `RAMEND - 16 - 3`) -/
  marker : Nat
  /-- Watchdog control register `WDTCSR` -/
  wdtcsr : Nat
  /-- Radio has been put in idle mode -/
  radioIdle : Bool
  /-- Log of channel and hardware operations -/
  trace : List Event

/-- How a piece of code ends: it returns, or it never does. -/
inductive Res (α : Type) where
  /-- Normal return -/
  | ok (a : α) (s : State)
  /-- Stuck in the `while (1)` of `wait_timeout` until the watchdog resets -/
  | hang (s : State)
  /-- Stuck in `getch` waiting for a byte that the host never sends -/
  | starve (s : State)

/-- Code acting on the machine state. -/
def M (α : Type) : Type := State → Res α

def M.pure {α : Type} (a : α) : M α := fun s => Res.ok a s

def M.bind {α β : Type} (x : M α) (f : α → M β) : M β := fun s =>
  match x s with
  | Res.ok a s1 => f a s1
  | Res.hang s1 => Res.hang s1
  | Res.starve s1 => Res.starve s1

instance : Monad M where
  pure := M.pure
  bind := M.bind

/-- Read the current state. -/
def current : M State := fun s => Res.ok s s

/-- Apply a state update. -/
def modify (f : State → State) : M Unit := fun s => Res.ok () (f s)

/-- Append one event to the trace. -/
def emit (e : Event) : M Unit :=
  modify fun s => { s with trace := s.trace ++ [e] }

/-- The final state of a run, however it ended. -/
def Res.state {α : Type} : Res α → State
  | Res.ok _ s => s
  | Res.hang s => s
  | Res.starve s => s

/-- The run returned normally. -/
def Res.returned {α : Type} : Res α → Bool
  | Res.ok _ _ => true
  | _ => false

/-! ## Loops on 8-bit counters -/

/-- The C loop `do body while (--n);` for a `uint8_t` counter `n`.
The first argument bounds the number of passes; 256 is always enough. -/
def doWhileDec {σ : Type} (body : σ → M σ) : Nat → Nat → σ → M σ
  | 0, _, x => pure x
  | fuel + 1, n, x => do
    let x ← body x
    let n := (n + 255) % 256
    if n ≠ 0 then doWhileDec body fuel n x else pure x

/-- The C loop `while (n--) body;` for a `uint8_t` counter `n`. -/
def whileDec {σ : Type} (body : σ → M σ) : Nat → σ → M σ
  | 0, x => pure x
  | n + 1, x => do
    let x ← body x
    whileDec body n x

/-! ## Channel -/

/-- Function `getch`, seen from the protocol engine: the next byte of the channel. -/
def getch : M Byte := fun s =>
  match s.input with
  | [] => Res.starve s
  | b :: rest => Res.ok b { s with input := rest, trace := s.trace ++ [Event.rx b] }

/-- Function `putch`, seen from the protocol engine: one more byte on the channel. -/
def putch (ch : Byte) : M Unit :=
  modify fun s => { s with output := s.output ++ [ch], trace := s.trace ++ [Event.tx ch] }

/-! ## Watchdog -/

/-- Function `watchdogReset`: the `wdr` instruction. -/
def watchdogReset : M Unit := emit Event.wdr

/-- Function `watchdogConfig`: the timed sequence of two stores to `WDTCSR`. -/
def watchdogConfig (x : Nat) : M Unit := do
  modify fun s => { s with wdtcsr := 2 ^ WDCE ||| 2 ^ WDE,
                           trace := s.trace ++ [Event.wdtcsr (2 ^ WDCE ||| 2 ^ WDE)] }
  modify fun s => { s with wdtcsr := x, trace := s.trace ++ [Event.wdtcsr x] }

/-- Modelled from the spec: the radio driver (`nrf24.h`) is not part of the
source tree; `nrf24_idle_mode` enters idle / power-down mode. -/
def nrf24_idle_mode : M Unit :=
  modify fun s => { s with radioIdle := true, trace := s.trace ++ [Event.radioIdle] }

/-- The loop `while (1);`. -/
def spin : M Unit := fun s => Res.hang s

/-- Function `wait_timeout`: radio off, watchdog at 16 ms, then loop until reset. -/
def wait_timeout : M Unit := do
  nrf24_idle_mode
  watchdogConfig WATCHDOG_16MS
  spin

/-- Function `verifySpace`: the next byte must be the end-of-command marker. -/
def verifySpace : M Unit := do
  let ch ← getch
  if ch ≠ CRC_EOP then
    wait_timeout
  putch STK_INSYNC

/-- One pass of the loop of `getNch`: `getch();` -/
def dropByte (_ : Unit) : M Unit := do
  let _ ← getch
  pure ()

/-- Function `getNch`: read and drop `count` bytes, then the terminator. -/
def getNch (count : Nat) : M Unit := do
  doWhileDec dropByte 256 count ()
  verifySpace

/-! ## Program memory and EEPROM -/

/-- The byte address the hardware forms from `Z` (and `RAMPZ` where present). -/
def zAddr (cfg : Config) (s : State) (z : Nat) : Nat :=
  if cfg.RAMPZ then s.rampz * 65536 + z else z

/-- Two byte addresses lie in the same flash page. -/
def samePage (cfg : Config) (p q : Nat) : Bool :=
  p / cfg.SPM_PAGESIZE == q / cfg.SPM_PAGESIZE

/-- The byte of a 16-bit word that lands at byte address `p` (low byte at the
even address). -/
def wordByte (w p : Nat) : Byte :=
  if p % 2 = 0 then toByte w else toByte (w / 256)

/-- Modelled from the spec: `boot.h` is not part of the source tree; the
page-erase operation of section 4.3 leaves every byte of the page that
contains the address erased (`0xFF`). -/
def boot_page_erase (cfg : Config) (z : Nat) : M Unit :=
  modify fun s =>
    { s with flash := fun p => if samePage cfg p (zAddr cfg s z) then 0xFF else s.flash p,
             trace := s.trace ++ [Event.erase z] }

/-- Modelled from the spec: `boot.h` is not part of the source tree; a
page-fill puts one word into the slot of the temporary write buffer selected
by the address within the page. -/
def boot_page_fill (cfg : Config) (z w : Nat) : M Unit :=
  modify fun s =>
    { s with pagebuf := fun k => if k = z % cfg.SPM_PAGESIZE / 2 then w else s.pagebuf k,
             trace := s.trace ++ [Event.fill z w] }

/-- Modelled from the spec: `boot.h` is not part of the source tree; the
page-write operation stores the temporary write buffer into the page that
contains the address. -/
def boot_page_write (cfg : Config) (z : Nat) : M Unit :=
  modify fun s =>
    { s with flash := fun p =>
               if samePage cfg p (zAddr cfg s z)
               then wordByte (s.pagebuf (p % cfg.SPM_PAGESIZE / 2)) p
               else s.flash p,
             trace := s.trace ++ [Event.write z] }

/-- Call `boot_spm_busy_wait()`. -/
def boot_spm_busy_wait : M Unit := emit Event.spmBusyWait

/-- Call `boot_rww_enable()` -/
def boot_rww_enable : M Unit := emit Event.rwwEnable

/-- The inline assembly `lpm %0,Z+` / `elpm %0,Z+` on `address`: read one
byte of program memory and post-increment the pointer. -/
def lpm_Zplus (cfg : Config) : M Byte := fun s =>
  if cfg.RAMPZ then
    let e := s.rampz * 65536 + s.address
    let e1 := (e + 1) % 0x1000000
    Res.ok (s.flash e) { s with address := e1 % 65536, rampz := e1 / 65536 }
  else
    Res.ok (s.flash s.address) { s with address := (s.address + 1) % 65536 }

/-- Function `eeprom_write(addr, val)`, once the EEPROM is ready. -/
def eeprom_write (addr : Nat) (val : Byte) : M Unit :=
  modify fun s =>
    { s with eeprom := fun a => if a = addr then val else s.eeprom a,
             trace := s.trace ++ [Event.eeWrite addr val] }

/-- Function `eeprom_read(addr)`, once the EEPROM is ready. -/
def eeprom_read (addr : Nat) : M Byte := fun s =>
  Res.ok (s.eeprom addr) { s with trace := s.trace ++ [Event.eeRead addr] }

/-! ## The command loop of `main` -/

/-- The `STK_GET_PARAMETER` branch. -/
def getParameter : M Unit := do
  let which ← getch
  verifySpace
  if which = 0x82 then
    putch OPTIBOOT_MINVER
  else if which = 0x81 then
    putch OPTIBOOT_MAJVER
  else
    putch 0x03

/-- The `STK_LOAD_ADDRESS` branch. -/
def loadAddress (cfg : Config) : M Unit := do
  let lo ← getch
  let newAddress : Nat := lo.val
  let hi ← getch
  let newAddress := (newAddress ||| hi.val <<< 8) % 65536
  if cfg.RAMPZ then
    modify fun s => { s with rampz := if newAddress &&& 0x8000 ≠ 0 then 1 else 0 }
  let newAddress := (newAddress <<< 1) % 65536
  modify fun s => { s with address := newAddress }
  verifySpace

/-- The `STK_UNIVERSAL` branch. -/
def universal : M Unit := do
  getNch 4
  putch 0x00

/-- One pass of the staging loop: `*bufPtr++ = getch();` -/
def stageByte (bufPtr : Nat) : M Nat := do
  let b ← getch
  modify fun s => { s with buff := fun i => if i = bufPtr then b else s.buff i }
  pure (bufPtr + 1)

/-- One pass of the copy loop: a word from `buff` into the temporary buffer. -/
def fillWord (cfg : Config) (p : Nat × Nat) : M (Nat × Nat) := do
  let bufPtr := p.1
  let addrPtr := p.2
  let s ← current
  let a : Nat := (s.buff bufPtr).val
  let a := (a ||| (s.buff (bufPtr + 1)).val <<< 8) % 65536
  boot_page_fill cfg addrPtr a
  pure (bufPtr + 2, (addrPtr + 2) % 65536)

/-- The flash part of the `STK_PROG_PAGE` branch, after the data is staged. -/
def progPageFlash (cfg : Config) : M Unit := do
  let address := (← current).address
  if address ≥ cfg.NRWWSTART then
    boot_page_erase cfg address
  verifySpace
  boot_spm_busy_wait
  let ch := cfg.SPM_PAGESIZE / 2 % 256
  let _ ← doWhileDec (fillWord cfg) 256 ch (0, address)
  boot_page_write cfg address
  boot_spm_busy_wait
  if cfg.RWWSRE then
    boot_rww_enable

/-- One pass of the EEPROM loop of PROG_PAGE:
`watchdogReset(); eeprom_write(addrPtr++, *bufPtr++);` -/
def writeEepromByte (p : Nat × Nat) : M (Nat × Nat) := do
  let addrPtr := p.1
  let bufPtr := p.2
  watchdogReset
  let v := (← current).buff bufPtr
  eeprom_write addrPtr v
  pure ((addrPtr + 1) % 65536, bufPtr + 1)

/-- The EEPROM part of the `STK_PROG_PAGE` branch, after the data is staged. -/
def progPageEeprom (bufPtr : Nat) : M Unit := do
  verifySpace
  let length := bufPtr % 256
  let address := (← current).address
  let _ ← whileDec writeEepromByte length (address, 0)

/-- The memory-type test that guards the flash code: `type == 'F'` when
`SUPPORT_EEPROM` is defined, no test at all otherwise. -/
def flashType (cfg : Config) (type : Byte) : Bool :=
  !cfg.SUPPORT_EEPROM || type = 0x46

/-- The `STK_PROG_PAGE` branch. -/
def progPage (cfg : Config) : M Unit := do
  let _ ← getch
  let length := (← getch).val
  let type ← getch
  let address := (← current).address
  if flashType cfg type then
    if address < cfg.NRWWSTART then
      boot_page_erase cfg address
  let bufPtr ← doWhileDec stageByte 256 length 0
  if flashType cfg type then
    progPageFlash cfg
  else if type = 0x45 then
    progPageEeprom bufPtr

/-- One pass of the flash loop of READ_PAGE: `lpm` / `elpm`, then `putch(ch);` -/
def readFlashByte (cfg : Config) (_ : Unit) : M Unit := do
  let ch ← lpm_Zplus cfg
  putch ch

/-- One pass of the EEPROM loop of READ_PAGE: `putch(eeprom_read(address++));` -/
def readEepromByte (_ : Unit) : M Unit := do
  let address := (← current).address
  modify fun s => { s with address := (address + 1) % 65536 }
  let ch ← eeprom_read address
  putch ch

/-- The `STK_READ_PAGE` branch. -/
def readPage (cfg : Config) : M Unit := do
  let _ ← getch
  let length := (← getch).val
  let type ← getch
  verifySpace
  if flashType cfg type then
    doWhileDec (readFlashByte cfg) 256 length ()
  else if type = 0x45 then
    whileDec readEepromByte length ()

/-- The `STK_READ_SIGN` branch. -/
def readSign (cfg : Config) : M Unit := do
  verifySpace
  putch cfg.SIGNATURE_0
  putch cfg.SIGNATURE_1
  putch cfg.SIGNATURE_2

/-- The `STK_LEAVE_PROGMODE` branch. -/
def leaveProgmode : M Unit := do
  modify fun s => { s with marker := MARKER_SENTINEL }
  watchdogConfig WATCHDOG_16MS
  verifySpace

/-- The `if` / `else if` chain on the command byte. -/
def dispatch (cfg : Config) (ch : Byte) : M Unit :=
  if ch = STK_GET_PARAMETER then getParameter
  else if ch = STK_SET_DEVICE then getNch 20
  else if ch = STK_SET_DEVICE_EXT then getNch 5
  else if ch = STK_LOAD_ADDRESS then loadAddress cfg
  else if ch = STK_UNIVERSAL then universal
  else if ch = STK_PROG_PAGE then progPage cfg
  else if ch = STK_READ_PAGE then readPage cfg
  else if ch = STK_READ_SIGN then readSign cfg
  else if ch = STK_LEAVE_PROGMODE then leaveProgmode
  else verifySpace

/-- One pass of the forever loop of `main`: one command. -/
def command (cfg : Config) : M Unit := do
  let ch ← getch
  modify fun s => { s with marker := 0 }
  dispatch cfg ch
  putch STK_OK

/-- The forever loop of `main`, cut off after `n` commands. -/
def commands (cfg : Config) : Nat → M Unit
  | 0 => pure ()
  | n + 1 => do
    command cfg
    commands cfg n

/-! ## Sample images and states -/

/-- An ATmega328P image without EEPROM support. -/
def atmega328p : Config :=
  { SUPPORT_EEPROM := false, RAMPZ := false, RWWSRE := true, NRWWSTART := 0x7000,
    SPM_PAGESIZE := 128, SIGNATURE_0 := 0x1E, SIGNATURE_1 := 0x95, SIGNATURE_2 := 0x0F }

/-- The same image built with `SUPPORT_EEPROM`. -/
def atmega328pEeprom : Config :=
  { atmega328p with SUPPORT_EEPROM := true }

/-- The engine at the top of the command loop after power-up: `address` is 0,
the marker was armed by the boot code, the watchdog runs at 2 s, memories are
blank, and the channel is about to deliver `bytes`. -/
def fresh (bytes : List Byte) : State :=
  { input := bytes, output := [], address := 0, rampz := 0,
    buff := fun _ => 0, flash := fun _ => 0xFF, pagebuf := fun _ => 0xFFFF,
    eeprom := fun _ => 0xFF, marker := MARKER_SENTINEL, wdtcsr := 0x0F,
    radioIdle := false, trace := [] }

/-! ## Vocabulary of the statements -/

/-- The state `s` with `bytes` waiting on the channel. -/
def feed (s : State) (bytes : List Byte) : State := { s with input := bytes }

/-- Number of passes of `do body while (--n);` for a `uint8_t` counter. -/
def passes (n : Nat) : Nat := if n = 0 then 256 else n

/-- The registers hold values of their width: `address` 16 bits, `RAMPZ` 8. -/
def State.wf (s : State) : Prop := s.address < 65536 ∧ s.rampz < 256

instance (s : State) : Decidable s.wf := by
  unfold State.wf
  infer_instance

/-- The flash page size is a power of two that a one-byte length can carry
(a length byte of 0 stands for 256). -/
def pageSizeOk (cfg : Config) : Prop :=
  cfg.SPM_PAGESIZE ∈ [2, 4, 8, 16, 32, 64, 128, 256]

instance (cfg : Config) : Decidable (pageSizeOk cfg) := by
  unfold pageSizeOk
  infer_instance

/-- The command codes that have a branch of their own in `main`. -/
def knownCommands : List Byte :=
  [STK_GET_PARAMETER, STK_SET_DEVICE, STK_SET_DEVICE_EXT, STK_LOAD_ADDRESS, STK_UNIVERSAL,
   STK_PROG_PAGE, STK_READ_PAGE, STK_READ_SIGN, STK_LEAVE_PROGMODE]

/-- Address, Page Buffer, program memory and EEPROM of `t` are those of `s`. -/
def sameMemory (s t : State) : Prop :=
  t.address = s.address ∧ t.buff = s.buff ∧ t.flash = s.flash ∧ t.eeprom = s.eeprom

/-- The program-memory address `i` bytes after the one `address` (with
`RAMPZ`, where present) points at, as `lpm Z+` / `elpm Z+` count. -/
def flashAddr (cfg : Config) (s : State) (i : Nat) : Nat :=
  if cfg.RAMPZ then (s.rampz * 65536 + s.address + i) % 0x1000000
  else (s.address + i) % 65536

/-- The Page Buffer after the staging loop has stored `data` from index `j`
upward. -/
def stored : List Byte → Nat → (Nat → Byte) → (Nat → Byte)
  | [], _, buff => buff
  | d :: ds, j, buff => stored ds (j + 1) (fun i => if i = j then d else buff i)

/-- The 16-bit word the copy loop forms from `buff[i]` and `buff[i+1]`. -/
def buffWord (buff : Nat → Byte) (i : Nat) : Nat :=
  ((buff i).val ||| (buff (i + 1)).val <<< 8) % 65536

/-- The temporary write buffer after `n` passes of the copy loop that start
with `bufPtr` and `addrPtr`. -/
def filled (cfg : Config) (buff : Nat → Byte) : Nat → Nat → Nat → (Nat → Nat) → (Nat → Nat)
  | 0, _, _, pb => pb
  | n + 1, bufPtr, addrPtr, pb =>
    filled cfg buff n (bufPtr + 2) ((addrPtr + 2) % 65536)
      (fun k => if k = addrPtr % cfg.SPM_PAGESIZE / 2 then buffWord buff bufPtr else pb k)

/-- The page-fill operations of `n` passes of the copy loop that start with
`bufPtr` and `addrPtr`. -/
def fills (buff : Nat → Byte) : Nat → Nat → Nat → List Event
  | 0, _, _ => []
  | n + 1, bufPtr, addrPtr =>
    Event.fill addrPtr (buffWord buff bufPtr) :: fills buff n (bufPtr + 2) ((addrPtr + 2) % 65536)

/-- The EEPROM after `n` passes of the EEPROM loop of PROG_PAGE that start
with `addrPtr` and `bufPtr`. -/
def eeStored (buff : Nat → Byte) : Nat → Nat → Nat → (Nat → Byte) → (Nat → Byte)
  | 0, _, _, ee => ee
  | n + 1, addrPtr, bufPtr, ee =>
    eeStored buff n ((addrPtr + 1) % 65536) (bufPtr + 1)
      (fun a => if a = addrPtr then buff bufPtr else ee a)

/-- The operations of `n` passes of the EEPROM loop of PROG_PAGE that start
with `addrPtr` and `bufPtr`. -/
def eeWrites (buff : Nat → Byte) : Nat → Nat → Nat → List Event
  | 0, _, _ => []
  | n + 1, addrPtr, bufPtr =>
    Event.wdr :: Event.eeWrite addrPtr (buff bufPtr)
      :: eeWrites buff n ((addrPtr + 1) % 65536) (bufPtr + 1)

/-- Address after `n` passes of the EEPROM loop of READ_PAGE. -/
def eeAddr : Nat → Nat → Nat
  | 0, a => a
  | n + 1, a => eeAddr n ((a + 1) % 65536)

/-- The bytes sent by `n` passes of the EEPROM loop of READ_PAGE that start
at address `a`. -/
def eeReadOut (ee : Nat → Byte) : Nat → Nat → List Byte
  | 0, _ => []
  | n + 1, a => ee a :: eeReadOut ee n ((a + 1) % 65536)

/-- The operations of `n` passes of the EEPROM loop of READ_PAGE that start
at address `a`. -/
def eeReads (ee : Nat → Byte) : Nat → Nat → List Event
  | 0, _ => []
  | n + 1, a => Event.eeRead a :: Event.tx (ee a) :: eeReads ee n ((a + 1) % 65536)

/-- A command code with the parameter and data bytes the protocol attaches to
it, terminator excluded (a PROG_PAGE carries as many data bytes as its length
low byte says, 256 for a low byte of 0). -/
def framed (frame : List Byte) : Bool :=
  match frame with
  | [] => false
  | ch :: args =>
    if ch = STK_GET_PARAMETER then args.length == 1
    else if ch = STK_SET_DEVICE then args.length == 20
    else if ch = STK_SET_DEVICE_EXT then args.length == 5
    else if ch = STK_LOAD_ADDRESS then args.length == 2
    else if ch = STK_UNIVERSAL then args.length == 4
    else if ch = STK_PROG_PAGE then
      match args with
      | _ :: L :: _ :: data => data.length == passes L.val
      | _ => false
    else if ch = STK_READ_PAGE then args.length == 3
    else args.length == 0

/-- The frames for which the PROG_PAGE branch of a `SUPPORT_EEPROM` build
enters neither its flash case nor its EEPROM case: a memory-type byte other
than `'F'` and `'E'`. -/
def strayType (cfg : Config) (frame : List Byte) : Bool :=
  match frame with
  | ch :: _ :: _ :: type :: _ =>
    ch = STK_PROG_PAGE && cfg.SUPPORT_EEPROM && type ≠ 0x46 && type ≠ 0x45
  | _ => false

/-- The state with the flash pointer (`address`, and `RAMPZ` where present)
moved on by `n` bytes. -/
def advance (cfg : Config) (s : State) (n : Nat) : State :=
  { s with address := flashAddr cfg s n % 65536,
           rampz := if cfg.RAMPZ then flashAddr cfg s n / 65536 else s.rampz }

/-! ## Vocabulary of the claims on sequences of commands -/

/-- The address operand of a self-programming operation (page-erase,
page-fill, page-write); `none` for every other event. -/
def spmTarget : Event → Option Nat
  | Event.erase z => some z
  | Event.fill z _ => some z
  | Event.write z => some z
  | _ => none

/-- The frame is a PROG_PAGE that takes the flash case of its branch. -/
def flashProg (cfg : Config) (frame : List Byte) : Bool :=
  match frame with
  | ch :: _ :: _ :: type :: _ => ch = STK_PROG_PAGE && flashType cfg type
  | _ => false

/-- The byte stream of a sequence of commands, each followed by the
terminator `0x20`. -/
def accepted : List (List Byte) → List Byte
  | [] => []
  | frame :: frames => frame ++ CRC_EOP :: accepted frames

/-- The state of the engine after the first `k` commands of the stream
`bytes`, started in `s`. -/
def stateAfter (cfg : Config) (s : State) (bytes : List Byte) (k : Nat) : State :=
  (commands cfg k (feed s bytes)).state

/-- The channel and hardware operations of command number `k` (counted from
0) of the stream `bytes`, started in `s`. -/
def issued (cfg : Config) (s : State) (bytes : List Byte) (k : Nat) : List Event :=
  (stateAfter cfg s bytes (k + 1)).trace.drop (stateAfter cfg s bytes k).trace.length

/-- Total program memory of the ATmega328P in bytes (`FLASHEND + 1`). -/
def atmega328pFlashSize : Nat := 0x8000

/-- No self-programming operation among the events. -/
def noSpm (evs : List Event) : Prop := ∀ e ∈ evs, spmTarget e = none

/-! ## The start of `main`: fast path or protocol engine -/

/-- Bit number of the watchdog reset flag in `MCUSR` (`<avr/io.h>`). -/
def WDRF : Nat := 3

/-- Bit numbers of the watchdog prescaler in `WDTCSR` (`<avr/io.h>`). -/
def WDP0 : Nat := 0
def WDP1 : Nat := 1
def WDP2 : Nat := 2

/-- Macro `WATCHDOG_OFF`. -/
def WATCHDOG_OFF : Nat := 0

/-- Macro `WATCHDOG_2S`. -/
def WATCHDOG_2S : Nat := 2 ^ WDP2 ||| 2 ^ WDP1 ||| 2 ^ WDP0 ||| 2 ^ WDE

/-- The registers and RAM cells that the code of `main` before the forever
loop, and `appStart`, read or write. -/
structure Boot where
  /-- Reset-cause flags -/
  MCUSR : Nat
  /-- Reset Marker (`uint32_t` at `RAMEND - 16 - 3`) -/
  marker : Nat
  /-- Saved reset cause (`uint8_t` at `RAMEND - 16 - 4`) -/
  reset_cause : Nat
  /-- Watchdog control register -/
  WDTCSR : Nat
  /-- Register `r2`, the hand-off register for the reset cause -/
  r2 : Nat
  deriving DecidableEq

/-- Where the boot code ends up. -/
inductive Started where
  /-- Jumped to the reset vector of the application, through `appStart` -/
  | app (b : Boot)
  /-- Reached the forever loop of `main`, the protocol engine -/
  | engine (b : Boot)
  /-- Stuck in the `while (1);` that follows a failed `radio_init()` -/
  | stuck (b : Boot)
  deriving DecidableEq

/-- Registers and RAM at the point the boot code ends up. -/
def Started.state : Started → Boot
  | Started.app b => b
  | Started.engine b => b
  | Started.stuck b => b

/-- The boot ended in the application. -/
def Started.isApp : Started → Bool
  | Started.app _ => true
  | _ => false

/-- The boot ended in the protocol engine. -/
def Started.isEngine : Started → Bool
  | Started.engine _ => true
  | _ => false

/-- Function `watchdogConfig` on the boot registers: the two stores to
`WDTCSR`. -/
def Boot.watchdogConfig (x : Nat) (b : Boot) : Boot :=
  let b := { b with WDTCSR := 2 ^ WDCE ||| 2 ^ WDE }
  { b with WDTCSR := x }

/-- Function `appStart`: watchdog off, reset flags into `r2`, jump to the reset
vector. -/
def appStart (rstFlags : Nat) (b : Boot) : Started :=
  let b := Boot.watchdogConfig WATCHDOG_OFF b
  Started.app { b with r2 := rstFlags }

/-- The code of `main` from its first statement to the forever loop, as built
with `FORCE_WATCHDOG`; `radio` tells whether `radio_init()` finds the radio
chip.  The set-up of the stack, of `.data` and `.bss`, of the UART and of the
LED touches none of the cells of `Boot`. -/
def main_boot (radio : Bool) (b : Boot) : Started :=
  let ch := b.MCUSR
  let b := { b with MCUSR := 0 }
  if ch &&& 2 ^ WDRF ≠ 0 ∧ b.marker = 0xdeadbeef then
    let b := { b with marker := 0 }
    appStart b.reset_cause b
  else
    let b := { b with reset_cause := ch }
    let b := { b with marker := 0xdeadbeef }
    let b := Boot.watchdogConfig WATCHDOG_2S b
    if !radio then Started.stuck b else Started.engine b

/-- Modelled from the spec: the reset-cause flags are latched by the hardware;
a watchdog reset sets the watchdog flag and leaves the RAM (Reset Marker,
saved reset cause) as it was. -/
def watchdogFires (b : Boot) : Boot :=
  { b with MCUSR := b.MCUSR ||| 2 ^ WDRF }

/-- The boot takes the fast path to the application: watchdog flag set and
Reset Marker equal to the sentinel. -/
def fastPath (b : Boot) : Prop :=
  b.MCUSR &&& 2 ^ WDRF ≠ 0 ∧ b.marker = MARKER_SENTINEL

instance (b : Boot) : Decidable (fastPath b) := by
  unfold fastPath
  infer_instance

/-- A device at power-on: only the power-on flag is set, the RAM holds no
marker. -/
def powerOn : Boot :=
  { MCUSR := 1, marker := 0, reset_cause := 0, WDTCSR := 0, r2 := 0 }

/-! ## Radio Reliable Link: `getch` and `putch` over packets -/

/-- A radio packet: the bytes one call of the radio primitive carries. -/
abbrev Packet := List Byte

namespace Radio

/-- Static variable `pkt_max_len`. -/
def pkt_max_len : Nat := 32

/-- The static variables of the radio `getch`, and the number of
`watchdogReset()` calls made so far.  `pkt_buf` is the 32-byte array, as a
function of the index. -/
structure Rx where
  pkt_len : Nat
  pkt_start : Nat
  pkt_buf : Nat → Byte
  seqn : Byte
  wdr : Nat

/-- The initial values of the static variables of `getch`. -/
def Rx.init : Rx :=
  { pkt_len := 0, pkt_start := 0, pkt_buf := fun _ => 0, seqn := 0xff, wdr := 0 }

/-- Modelled from the spec: "read one packet" copies the bytes of the packet at
the head of the receive FIFO into the buffer, from index 0, leaves the other
buffer bytes as they are, and stores the packet length. -/
def nrf24_rx_read (p : Packet) (buf : Nat → Byte) : (Nat → Byte) × Nat :=
  (fun i => if i < p.length then p.getD i 0 else buf i, p.length % 256)

/-- The statements `ch = pkt_buf[pkt_start ++]; pkt_len --;` of `getch`
(`uint8_t` arithmetic). -/
def takeByte (v : Rx) : Byte × Rx :=
  (v.pkt_buf v.pkt_start,
   { v with pkt_start := (v.pkt_start + 1) % 256, pkt_len := (v.pkt_len + 255) % 256 })

/-- Function `getch` of the radio build, over the packets waiting in the radio
(`nrf24_rx_fifo_data()` is true when the list is not empty).  The result is the
byte returned, the static variables and the packets left; `none` when the code
polls an empty radio forever. -/
def getch : List Packet → Rx → Option (Byte × Rx × List Packet)
  | [], v =>
    if v.pkt_len ≠ 0 then
      some ((takeByte v).1, (takeByte v).2, [])
    else none
  | p :: fifo, v =>
    if v.pkt_len ≠ 0 then
      some ((takeByte v).1, (takeByte v).2, p :: fifo)
    else
      let v := { v with wdr := v.wdr + 1 }
      let v := { v with pkt_buf := (nrf24_rx_read p v.pkt_buf).1,
                        pkt_len := (nrf24_rx_read p v.pkt_buf).2 }
      let v := { v with pkt_start := 1 }
      if v.pkt_len = 0 then getch fifo v
      else if v.pkt_buf 0 = v.seqn then getch fifo { v with pkt_len := 0 }
      else
        let v := { v with seqn := v.pkt_buf 0 }
        let v := { v with pkt_len := (v.pkt_len + 255) % 256 }
        some ((takeByte v).1, (takeByte v).2, fifo)

/-- The bytes returned by `n` successive calls of `getch`. -/
def getchN : Nat → List Packet → Rx → Option (List Byte × Rx × List Packet)
  | 0, fifo, v => some ([], v, fifo)
  | n + 1, fifo, v =>
    match getch fifo v with
    | none => none
    | some (b, v1, fifo1) =>
      match getchN n fifo1 v1 with
      | none => none
      | some (bs, v2, fifo2) => some (b :: bs, v2, fifo2)

/-- What the radio `putch` does to the outside: a delay, or a packet handed to
`nrf24_tx`. -/
inductive TxEvent where
  /-- Call `my_delay(ms)` -/
  | delay (ms : Nat)
  /-- Call `nrf24_tx(pkt_buf, pkt_len)`, with the bytes passed -/
  | tx (p : Packet)
  deriving DecidableEq

/-- The static variables of the radio `putch`, the number of calls of
`nrf24_tx_result_wait()` made so far, and the log of delays and
transmissions. -/
structure Tx where
  pkt_len : Nat
  pkt_buf : Nat → Byte
  waits : Nat
  log : List TxEvent

/-- The initial values of the static variables of `putch`. -/
def Tx.init : Tx :=
  { pkt_len := 0, pkt_buf := fun _ => 0, waits := 0, log := [] }

/-- The bytes `nrf24_tx(pkt_buf, pkt_len)` is given. -/
def Tx.packet (t : Tx) : Packet :=
  (List.range t.pkt_len).map t.pkt_buf

/-- The loop `while (--cnt) { my_delay(4); nrf24_tx(pkt_buf, pkt_len);
if (!nrf24_tx_result_wait()) break; }` of `putch`.  `ack k` tells whether the
call number `k` of `nrf24_tx_result_wait()` reports an acknowledgment (returns
0).  `fuel` bounds the passes; 256 is enough for any `uint8_t` counter. -/
def retry (ack : Nat → Bool) : Nat → Nat → Tx → Tx
  | 0, _, t => t
  | fuel + 1, cnt, t =>
    let cnt := (cnt + 255) % 256
    if cnt = 0 then t
    else
      let t := { t with log := t.log ++ [TxEvent.delay 4] }
      let t := { t with log := t.log ++ [TxEvent.tx t.packet] }
      let ok := ack t.waits
      let t := { t with waits := t.waits + 1 }
      if ok then t else retry ack fuel cnt t

/-- Function `putch` of the radio build. -/
def putch (ack : Nat → Bool) (ch : Byte) (t : Tx) : Tx :=
  let t := { t with pkt_buf := fun i => if i = t.pkt_len then ch else t.pkt_buf i,
                    pkt_len := (t.pkt_len + 1) % 256 }
  if ch = STK_OK ∨ t.pkt_len = pkt_max_len then
    let t := retry ack 256 128 t
    let t := { t with pkt_len := 1 }
    { t with pkt_buf := fun i => if i = 0 then toByte ((t.pkt_buf 0).val + 1) else t.pkt_buf i }
  else t

/-- Successive calls of `putch`, one for each byte of the list. -/
def putchs (ack : Nat → Bool) : List Byte → Tx → Tx
  | [], t => t
  | b :: bs, t => putchs ack bs (putch ack b t)

/-- The packets handed to `nrf24_tx`, in order. -/
def sent : List TxEvent → List Packet
  | [] => []
  | TxEvent.tx p :: evs => p :: sent evs
  | TxEvent.delay _ :: evs => sent evs

/-- The log of `n` attempts to transmit packet `p`: each one the delay of 4 ms
followed by the transmission. -/
def attempts : Nat → Packet → List TxEvent
  | 0, _ => []
  | n + 1, p => TxEvent.delay 4 :: TxEvent.tx p :: attempts n p

/-- The packet a flushing `putch ch` transmits: the buffer up to the byte just
stored. -/
def flushed (ch : Byte) (t : Tx) : Packet :=
  Tx.packet { t with pkt_buf := fun i => if i = t.pkt_len then ch else t.pkt_buf i,
                     pkt_len := (t.pkt_len + 1) % 256 }

/-- The call `putch ch` flushes: the byte is `STK_OK` or fills the buffer. -/
def flushes (ch : Byte) (t : Tx) : Prop :=
  ch = STK_OK ∨ (t.pkt_len + 1) % 256 = pkt_max_len

instance (ch : Byte) (t : Tx) : Decidable (flushes ch t) := by
  unfold flushes
  infer_instance

/-- Two states of `getch` that serve the same bytes: the same number of bytes
left and the same recorded sequence byte and, when bytes are left, the same
index and the same bytes from the index on. -/
def agree (v w : Rx) : Prop :=
  v.pkt_len = w.pkt_len ∧ v.seqn = w.seqn
  ∧ (v.pkt_len ≠ 0 →
      v.pkt_start = w.pkt_start ∧ v.pkt_start + v.pkt_len < 256
      ∧ ∀ i, i < v.pkt_len → v.pkt_buf (v.pkt_start + i) = w.pkt_buf (v.pkt_start + i))

/-- Every packet has a sequence byte and 1 to 31 payload bytes. -/
def payloaded (fifo : List Packet) : Prop :=
  ∀ p ∈ fifo, 2 ≤ p.length ∧ p.length ≤ 32

instance (fifo : List Packet) : Decidable (payloaded fifo) := by
  unfold payloaded
  infer_instance

/-- The bytes a run of `getch` calls returned to the caller. -/
def returned (r : Option (List Byte × Rx × List Packet)) : Option (List Byte) :=
  r.map (fun x => x.1)

/-- The payload bytes of a list of packets: all bytes but the first of each
packet, in order. -/
def payloads : List Packet → List Byte
  | [] => []
  | p :: ps => p.tail ++ payloads ps

end Radio

/-! ## Vocabulary of the claims on the page algorithms -/

/-- The page-fill number `i` (counted from 0) of the copy loop that starts at
`address`: the operand is the 16-bit `addrPtr`, the word is `buff[2i]` in the
low byte and `buff[2i+1]` in the high byte. -/
def fillAt (buff : Nat → Byte) (address i : Nat) : Event :=
  Event.fill ((address + 2 * i) % 65536) ((buff (2 * i)).val + 256 * (buff (2 * i + 1)).val)

/-- The self-programming operations (page-erase, page-fill, page-write) among
the events, in order. -/
def spmOps (evs : List Event) : List Event :=
  evs.filter fun e => (spmTarget e).isSome

/-- Registers and RAM at the boot that follows a watchdog reset of the engine
in state `s`: the Reset Marker is the one the engine left, the watchdog flag is
latched on top of the flags `b` held. -/
def resetFrom (s : State) (b : Boot) : Boot :=
  watchdogFires { b with marker := s.marker, WDTCSR := s.wdtcsr }

namespace Radio

/-- The bound on the static variables of `putch` between two calls: at most 31
bytes in the buffer, and no packet of more than 32 bytes handed to the radio so
far. -/
def Tx.bounded (t : Tx) : Prop :=
  t.pkt_len ≤ 31 ∧ ∀ p ∈ sent t.log, p.length ≤ 32

/-- The bound on the static variables of `getch` between two calls: no byte
left to serve, or the bytes left lie at indices 1 to 31 of the buffer. -/
def Rx.bounded (v : Rx) : Prop :=
  v.pkt_len = 0 ∨ (1 ≤ v.pkt_start ∧ v.pkt_start + v.pkt_len ≤ 32)

end Radio

end Optiboot

namespace Optiboot

/-! # Lemmas

## Reasoning about `M` -/

@[simp] theorem bind_apply {α β : Type} (x : M α) (f : α → M β) (s : State) :
    (x >>= f) s = match x s with
      | Res.ok a s1 => f a s1
      | Res.hang s1 => Res.hang s1
      | Res.starve s1 => Res.starve s1 := rfl

@[simp] theorem pure_apply {α : Type} (a : α) (s : State) :
    (pure a : M α) s = Res.ok a s := rfl

@[simp] theorem modify_apply (f : State → State) (s : State) :
    modify f s = Res.ok () (f s) := rfl

@[simp] theorem current_apply (s : State) : current s = Res.ok s s := rfl

theorem getch_apply (s : State) (b : Byte) (rest : List Byte) (h : s.input = b :: rest) :
    getch s = Res.ok b { s with input := rest, trace := s.trace ++ [Event.rx b] } := by
  simp [getch, h]

theorem putch_apply (ch : Byte) (s : State) :
    putch ch s = Res.ok () { s with output := s.output ++ [ch],
                                    trace := s.trace ++ [Event.tx ch] } := rfl

/-- The 16-bit left shift of `loadAddress` doubles the word address modulo
`2^16`. -/
theorem word_shift (lo hi : Nat) :
    ((lo ||| hi <<< 8) % 65536) <<< 1 % 65536 = (hi <<< 8 ||| lo) * 2 % 65536 := by
  rw [Nat.shiftLeft_eq, Nat.lor_comm, pow_one, Nat.mod_mul_mod]

theorem doWhileDec_eq_whileDec {σ : Type} (body : σ → M σ) :
    ∀ (fuel n : Nat) (x : σ), n < 256 → passes n ≤ fuel →
      doWhileDec body fuel n x = whileDec body (passes n) x := by
  intro fuel
  induction fuel with
  | zero =>
    intro n x _ h
    unfold passes at h
    split at h <;> omega
  | succ fuel ih =>
    intro n x hn h
    funext s
    by_cases h1 : n = 1
    · subst h1
      simp [doWhileDec, passes, whileDec]
    · have hne : (n + 255) % 256 ≠ 0 := by omega
      have hp : passes n = passes ((n + 255) % 256) + 1 := by
        unfold passes
        rw [if_neg hne]
        split <;> omega
      have hle : passes ((n + 255) % 256) ≤ fuel := by omega
      have hlt : (n + 255) % 256 < 256 := Nat.mod_lt _ (by decide)
      rw [hp]
      simp only [doWhileDec, whileDec, bind_apply, hne, ne_eq, not_false_eq_true, if_true]
      cases body x s with
      | ok a s1 => simp [ih _ a hlt hle]
      | hang s1 => rfl
      | starve s1 => rfl

theorem drop_bytes (params : List Byte) :
    ∀ (s : State) (rest : List Byte), s.input = params ++ rest →
      whileDec dropByte params.length () s
        = Res.ok () { s with input := rest, trace := s.trace ++ params.map Event.rx } := by
  induction params with
  | nil =>
    intro s rest h
    simp at h
    simp [whileDec, ← h]
  | cons p ps ih =>
    intro s rest h
    simp only [List.length_cons, whileDec, bind_apply, dropByte, getch_apply s p (ps ++ rest) h,
      pure_apply]
    rw [ih _ rest rfl]
    simp

theorem verifySpace_eop (s : State) (rest : List Byte) (h : s.input = CRC_EOP :: rest) :
    verifySpace s = Res.ok () { s with input := rest, output := s.output ++ [STK_INSYNC],
                                       trace := s.trace ++ [Event.rx CRC_EOP, Event.tx STK_INSYNC] } := by
  simp [verifySpace, getch, h, putch]

theorem getNch_ok (n : Nat) (hn0 : 0 < n) (hn : n < 256) (params : List Byte)
    (hl : params.length = n) (s : State) (rest : List Byte)
    (h : s.input = params ++ CRC_EOP :: rest) :
    getNch n s = Res.ok () { s with input := rest, output := s.output ++ [STK_INSYNC],
                                    trace := s.trace ++ params.map Event.rx
                                      ++ [Event.rx CRC_EOP, Event.tx STK_INSYNC] } := by
  have hp : passes n = params.length := by unfold passes; split <;> omega
  unfold getNch
  rw [bind_apply, doWhileDec_eq_whileDec _ 256 n () hn (by unfold passes; split <;> omega), hp,
    drop_bytes params s (CRC_EOP :: rest) h]
  simp only
  rw [verifySpace_eop _ rest rfl]

theorem command_getNch (cfg : Config) (s : State) (ch : Byte) (n : Nat) (params rest : List Byte)
    (hd : dispatch cfg ch = getNch n) (hn0 : 0 < n) (hn : n < 256) (hl : params.length = n) :
    command cfg (feed s (ch :: (params ++ CRC_EOP :: rest)))
      = Res.ok () { s with input := rest, output := s.output ++ [STK_INSYNC, STK_OK], marker := 0,
                           trace := s.trace ++ [Event.rx ch] ++ params.map Event.rx
                                      ++ [Event.rx CRC_EOP, Event.tx STK_INSYNC, Event.tx STK_OK] } := by
  simp only [command, bind_apply, getch, feed, modify_apply, hd]
  rw [getNch_ok n hn0 hn params hl _ rest rfl]
  simp [putch]

theorem advance_zero (cfg : Config) (s : State) (hw : s.wf) : advance cfg s 0 = s := by
  obtain ⟨ha, hr⟩ := hw
  cases hz : cfg.RAMPZ
  · have h0 : s.address % 65536 = s.address := Nat.mod_eq_of_lt ha
    simp [advance, flashAddr, hz, h0]
  · have h0 : (s.rampz * 65536 + s.address) % 16777216 % 65536 = s.address := by omega
    have h1 : (s.rampz * 65536 + s.address) % 16777216 / 65536 = s.rampz := by omega
    simp [advance, flashAddr, hz, h0, h1]

theorem advance_wf (cfg : Config) (s : State) (n : Nat) (hw : s.wf) : (advance cfg s n).wf := by
  obtain ⟨ha, hr⟩ := hw
  refine ⟨Nat.mod_lt _ (by decide), ?_⟩
  cases hz : cfg.RAMPZ
  · simpa [advance, hz] using hr
  · simp [advance, flashAddr, hz]; omega

theorem flashAddr_advance (cfg : Config) (s : State) (n i : Nat) :
    flashAddr cfg (advance cfg s n) i = flashAddr cfg s (n + i) := by
  cases hz : cfg.RAMPZ
  · simp [advance, flashAddr, hz]; omega
  · simp [advance, flashAddr, hz]; omega

theorem advance_advance (cfg : Config) (s : State) (n m : Nat) :
    advance cfg (advance cfg s n) m = advance cfg s (n + m) := by
  have h := flashAddr_advance cfg s n m
  unfold advance at h ⊢
  simp only [h]
  cases hz : cfg.RAMPZ <;> simp

/-- One `lpm Z+` / `elpm Z+`: the byte under the pointer, and the pointer
moved on by one. -/
theorem lpm_Zplus_apply (cfg : Config) (s : State) (hw : s.wf) :
    lpm_Zplus cfg s = Res.ok (s.flash (flashAddr cfg s 0)) (advance cfg s 1) := by
  obtain ⟨ha, hr⟩ := hw
  cases hz : cfg.RAMPZ
  · have h0 : s.address % 65536 = s.address := Nat.mod_eq_of_lt ha
    simp [lpm_Zplus, flashAddr, advance, hz, h0]
  · have h0 : (s.rampz * 65536 + s.address) % 16777216 = s.rampz * 65536 + s.address := by omega
    simp [lpm_Zplus, flashAddr, advance, hz, h0]

/-- The flash loop of READ_PAGE, pass by pass. -/
theorem read_loop (cfg : Config) :
    ∀ (n : Nat) (s : State), s.wf →
      whileDec (readFlashByte cfg) n () s
        = Res.ok ()
            { advance cfg s n with
              output := s.output ++ (List.range n).map (fun i => s.flash (flashAddr cfg s i)),
              trace := s.trace
                ++ (List.range n).map (fun i => Event.tx (s.flash (flashAddr cfg s i))) } := by
  intro n
  induction n with
  | zero =>
    intro s hw
    simp [whileDec, advance_zero cfg s hw]
  | succ n ih =>
    intro s hw
    have hw1 : State.wf { advance cfg s 1 with
        output := (advance cfg s 1).output ++ [s.flash (flashAddr cfg s 0)],
        trace := (advance cfg s 1).trace ++ [Event.tx (s.flash (flashAddr cfg s 0))] } :=
      advance_wf cfg s 1 hw
    simp only [whileDec, bind_apply, readFlashByte, lpm_Zplus_apply cfg s hw, putch_apply]
    rw [ih _ hw1]
    have hsh : ∀ i, flashAddr cfg { advance cfg s 1 with
        output := (advance cfg s 1).output ++ [s.flash (flashAddr cfg s 0)],
        trace := (advance cfg s 1).trace ++ [Event.tx (s.flash (flashAddr cfg s 0))] } i
        = flashAddr cfg s (i + 1) := by
      intro i
      rw [Nat.add_comm, ← flashAddr_advance]
      rfl
    have hadv : advance cfg { advance cfg s 1 with
        output := (advance cfg s 1).output ++ [s.flash (flashAddr cfg s 0)],
        trace := (advance cfg s 1).trace ++ [Event.tx (s.flash (flashAddr cfg s 0))] } n
        = { advance cfg s (n + 1) with
            output := (advance cfg s 1).output ++ [s.flash (flashAddr cfg s 0)],
            trace := (advance cfg s 1).trace ++ [Event.tx (s.flash (flashAddr cfg s 0))] } := by
      rw [Nat.add_comm, ← advance_advance]
      rfl
    simp only [hsh, hadv]
    simp [List.range_succ_eq_map, advance, List.map_map, Function.comp_def]

theorem flashAddr_mod (cfg : Config) (s : State) (n : Nat) :
    flashAddr cfg s n % 65536 = (s.address + n) % 65536 := by
  cases hz : cfg.RAMPZ
  · simp [flashAddr, hz]
  · simp [flashAddr, hz]; omega

theorem dispatch_read_page (cfg : Config) : dispatch cfg STK_READ_PAGE = readPage cfg := by
  simp [dispatch, STK_GET_PARAMETER, STK_SET_DEVICE, STK_SET_DEVICE_EXT, STK_LOAD_ADDRESS,
    STK_UNIVERSAL, STK_PROG_PAGE, STK_READ_PAGE]

/-- A flash READ_PAGE with a correct terminator, in full. -/
theorem read_page_flash_ok (cfg : Config) (s : State) (hs : s.wf) (h L ty : Byte)
    (rest : List Byte) (hty : flashType cfg ty = true) :
    command cfg (feed s (STK_READ_PAGE :: h :: L :: ty :: CRC_EOP :: rest))
      = Res.ok ()
          { advance cfg s (passes L.val) with
            input := rest
            marker := 0
            output := s.output ++ [STK_INSYNC]
              ++ (List.range (passes L.val)).map (fun i => s.flash (flashAddr cfg s i))
              ++ [STK_OK]
            trace := s.trace
              ++ [Event.rx STK_READ_PAGE, Event.rx h, Event.rx L, Event.rx ty, Event.rx CRC_EOP,
                  Event.tx STK_INSYNC]
              ++ (List.range (passes L.val)).map (fun i => Event.tx (s.flash (flashAddr cfg s i)))
              ++ [Event.tx STK_OK] } := by
  have hp : passes L.val ≤ 256 := by
    unfold passes; split <;> omega
  simp only [command, bind_apply, getch, feed, modify_apply, dispatch_read_page, readPage,
    verifySpace, putch_apply, hty, if_true, ne_eq, not_true_eq_false, if_false, pure_apply]
  rw [doWhileDec_eq_whileDec _ 256 L.val () L.isLt hp, read_loop cfg]
  · simp [advance, flashAddr]
  · exact hs

/-- The staging loop of PROG_PAGE, pass by pass. -/
theorem stage_loop (data : List Byte) :
    ∀ (j : Nat) (s : State) (rest : List Byte), s.input = data ++ rest →
      whileDec stageByte data.length j s
        = Res.ok (j + data.length)
            { s with input := rest, buff := stored data j s.buff,
                     trace := s.trace ++ data.map Event.rx } := by
  induction data with
  | nil =>
    intro j s rest h
    simp at h
    simp [whileDec, stored, ← h]
  | cons d ds ih =>
    intro j s rest h
    simp only [List.length_cons, whileDec, bind_apply, stageByte, getch_apply s d (ds ++ rest) h,
      modify_apply, pure_apply]
    rw [ih (j + 1) _ rest rfl]
    simp [stored, Nat.add_assoc, Nat.add_comm 1]

/-- The copy loop of PROG_PAGE, pass by pass. -/
theorem fill_loop (cfg : Config) :
    ∀ (n bufPtr addrPtr : Nat) (s : State),
      ∃ x, whileDec (fillWord cfg) n (bufPtr, addrPtr) s
        = Res.ok x
            { s with pagebuf := filled cfg s.buff n bufPtr addrPtr s.pagebuf,
                     trace := s.trace ++ fills s.buff n bufPtr addrPtr } := by
  intro n
  induction n with
  | zero =>
    intro bufPtr addrPtr s
    exact ⟨(bufPtr, addrPtr), by simp [whileDec, filled, fills]⟩
  | succ n ih =>
    intro bufPtr addrPtr s
    simp only [whileDec, bind_apply, fillWord, current_apply, boot_page_fill, modify_apply,
      pure_apply]
    obtain ⟨x, hx⟩ := ih (bufPtr + 2) ((addrPtr + 2) % 65536)
      { s with pagebuf := fun k => if k = addrPtr % cfg.SPM_PAGESIZE / 2
                                   then buffWord s.buff bufPtr else s.pagebuf k,
               trace := s.trace ++ [Event.fill addrPtr (buffWord s.buff bufPtr)] }
    refine ⟨x, ?_⟩
    simp only [buffWord] at hx ⊢
    rw [hx]
    simp [filled, fills, buffWord]

theorem dispatch_prog_page (cfg : Config) : dispatch cfg STK_PROG_PAGE = progPage cfg := by
  simp [dispatch, STK_GET_PARAMETER, STK_SET_DEVICE, STK_SET_DEVICE_EXT, STK_LOAD_ADDRESS,
    STK_UNIVERSAL, STK_PROG_PAGE]

/-- The flash part of PROG_PAGE from the terminator on, in full. -/
theorem progPageFlash_ok (cfg : Config) (s : State) (rest : List Byte)
    (h : s.input = CRC_EOP :: rest) :
    progPageFlash cfg s = Res.ok ()
      { s with
        input := rest
        output := s.output ++ [STK_INSYNC]
        pagebuf := filled cfg s.buff (passes (cfg.SPM_PAGESIZE / 2 % 256)) 0 s.address s.pagebuf
        flash := fun p =>
          if samePage cfg p (zAddr cfg s s.address)
          then wordByte (filled cfg s.buff (passes (cfg.SPM_PAGESIZE / 2 % 256)) 0 s.address
                  s.pagebuf (p % cfg.SPM_PAGESIZE / 2)) p
          else s.flash p
        trace := s.trace
                 ++ (if cfg.NRWWSTART ≤ s.address then [Event.erase s.address] else [])
                 ++ [Event.rx CRC_EOP, Event.tx STK_INSYNC, Event.spmBusyWait]
                 ++ fills s.buff (passes (cfg.SPM_PAGESIZE / 2 % 256)) 0 s.address
                 ++ [Event.write s.address, Event.spmBusyWait]
                 ++ (if cfg.RWWSRE then [Event.rwwEnable] else []) } := by
  have hp : passes (cfg.SPM_PAGESIZE / 2 % 256) ≤ 256 := by
    unfold passes; split <;> omega
  have hlt : cfg.SPM_PAGESIZE / 2 % 256 < 256 := Nat.mod_lt _ (by decide)
  by_cases hge : cfg.NRWWSTART ≤ s.address
  · simp only [progPageFlash, bind_apply, current_apply, ge_iff_le, hge, if_true, boot_page_erase,
      modify_apply, pure_apply]
    rw [verifySpace_eop _ rest]
    · simp only [boot_spm_busy_wait, emit, modify_apply]
      rw [doWhileDec_eq_whileDec _ 256 _ _ hlt hp]
      obtain ⟨x, hx⟩ := fill_loop cfg (passes (cfg.SPM_PAGESIZE / 2 % 256)) 0 s.address
        { s with
          input := rest
          output := s.output ++ [STK_INSYNC]
          flash := fun p => if samePage cfg p (zAddr cfg s s.address) then 0xFF else s.flash p
          trace := s.trace ++ [Event.erase s.address] ++ [Event.rx CRC_EOP, Event.tx STK_INSYNC]
                     ++ [Event.spmBusyWait] }
      rw [hx]
      cases hrw : cfg.RWWSRE <;>
        simp [boot_page_write, boot_rww_enable, emit, zAddr] <;>
        (funext p; split_ifs <;> rfl)
    · exact h
  · simp only [progPageFlash, bind_apply, current_apply, ge_iff_le, hge, if_false,
      modify_apply, pure_apply]
    rw [verifySpace_eop _ rest h]
    simp only [boot_spm_busy_wait, emit, modify_apply]
    rw [doWhileDec_eq_whileDec _ 256 _ _ hlt hp]
    obtain ⟨x, hx⟩ := fill_loop cfg (passes (cfg.SPM_PAGESIZE / 2 % 256)) 0 s.address
      { s with
        input := rest
        output := s.output ++ [STK_INSYNC]
        trace := s.trace ++ [Event.rx CRC_EOP, Event.tx STK_INSYNC] ++ [Event.spmBusyWait] }
    rw [hx]
    cases hrw : cfg.RWWSRE <;>
      simp [boot_page_write, boot_rww_enable, emit, zAddr]

/-- A flash PROG_PAGE with a correct terminator, in full. -/
theorem prog_page_flash_ok (cfg : Config) (s : State) (h L ty : Byte) (data rest : List Byte)
    (hty : flashType cfg ty = true) (hlen : data.length = passes L.val) :
    command cfg (feed s (STK_PROG_PAGE :: h :: L :: ty :: (data ++ CRC_EOP :: rest)))
      = Res.ok ()
          { s with
            input := rest
            output := s.output ++ [STK_INSYNC, STK_OK]
            marker := 0
            buff := stored data 0 s.buff
            pagebuf := filled cfg (stored data 0 s.buff) (passes (cfg.SPM_PAGESIZE / 2 % 256)) 0
                         s.address s.pagebuf
            flash := fun p =>
              if samePage cfg p (zAddr cfg s s.address)
              then wordByte (filled cfg (stored data 0 s.buff)
                      (passes (cfg.SPM_PAGESIZE / 2 % 256)) 0 s.address s.pagebuf
                      (p % cfg.SPM_PAGESIZE / 2)) p
              else s.flash p
            trace := s.trace
              ++ [Event.rx STK_PROG_PAGE, Event.rx h, Event.rx L, Event.rx ty]
              ++ (if s.address < cfg.NRWWSTART then [Event.erase s.address] else [])
              ++ data.map Event.rx
              ++ (if cfg.NRWWSTART ≤ s.address then [Event.erase s.address] else [])
              ++ [Event.rx CRC_EOP, Event.tx STK_INSYNC, Event.spmBusyWait]
              ++ fills (stored data 0 s.buff) (passes (cfg.SPM_PAGESIZE / 2 % 256)) 0 s.address
              ++ [Event.write s.address, Event.spmBusyWait]
              ++ (if cfg.RWWSRE then [Event.rwwEnable] else [])
              ++ [Event.tx STK_OK] } := by
  have hp : passes L.val ≤ 256 := by
    unfold passes; split <;> omega
  by_cases hlo : s.address < cfg.NRWWSTART
  · have hge : ¬ cfg.NRWWSTART ≤ s.address := by omega
    simp only [command, bind_apply, getch, feed, modify_apply, dispatch_prog_page, progPage,
      current_apply, hty, if_true, pure_apply, hlo, boot_page_erase]
    rw [doWhileDec_eq_whileDec _ 256 L.val 0 L.isLt hp, ← hlen, stage_loop data 0 _ (CRC_EOP :: rest)]
    · simp only
      rw [progPageFlash_ok cfg _ rest]
      · simp only [putch_apply, hge, if_false]
        simp [zAddr]
        funext p
        split_ifs <;> rfl
      · rfl
    · rfl
  · have hge : cfg.NRWWSTART ≤ s.address := by omega
    simp only [command, bind_apply, getch, feed, modify_apply, dispatch_prog_page, progPage,
      current_apply, hty, if_true, pure_apply, hlo, if_false]
    rw [doWhileDec_eq_whileDec _ 256 L.val 0 L.isLt hp, ← hlen, stage_loop data 0 _ (CRC_EOP :: rest)]
    · simp only
      rw [progPageFlash_ok cfg _ rest]
      · simp only [putch_apply, hge, if_true]
        simp [zAddr]
      · rfl
    · rfl

theorem stored_below (data : List Byte) :
    ∀ (j : Nat) (buff : Nat → Byte) (i : Nat), i < j → stored data j buff i = buff i := by
  induction data with
  | nil => intro j buff i _; rfl
  | cons d ds ih =>
    intro j buff i hi
    rw [stored, ih (j + 1) _ i (by omega)]
    simp [Nat.ne_of_lt hi]

/-- The staging loop puts the `t`-th data byte at `buff[j + t]`. -/
theorem stored_get (data : List Byte) :
    ∀ (j : Nat) (buff : Nat → Byte) (t : Nat) (ht : t < data.length),
      stored data j buff (j + t) = data[t] := by
  induction data with
  | nil => intro j buff t ht; simp at ht
  | cons d ds ih =>
    intro j buff t ht
    cases t with
    | zero =>
      rw [stored]
      simp only [Nat.add_zero]
      rw [stored_below ds (j + 1) _ j (by omega)]
      simp
    | succ t =>
      have h1 : j + (t + 1) = (j + 1) + t := by omega
      rw [stored, h1, ih (j + 1) _ t (by simpa using ht)]
      simp

/-- Low byte first: the two bytes of a word of the copy loop. -/
theorem buffWord_bytes (buff : Nat → Byte) (i : Nat) :
    toByte (buffWord buff i) = buff i ∧ toByte (buffWord buff i / 256) = buff (i + 1) := by
  have h0 := (buff i).isLt
  have h1 := (buff (i + 1)).isLt
  have hor : (buff i).val ||| (buff (i + 1)).val <<< 8
      = 2 ^ 8 * (buff (i + 1)).val + (buff i).val := by
    rw [Nat.lor_comm, Nat.shiftLeft_eq, Nat.mul_comm]
    exact (Nat.mul_add_lt_is_or (by simp [h0]) _).symm
  constructor
  · apply Fin.ext
    simp only [toByte, buffWord, hor]
    omega
  · apply Fin.ext
    simp only [toByte, buffWord, hor]
    omega

/-- On an aligned page the copy loop fills slot `k` with the word at
`buff[2k]`. -/
theorem filled_aligned (cfg : Config) (buff : Nat → Byte) (a : Nat)
    (hal : a % cfg.SPM_PAGESIZE = 0) (hfit : a + cfg.SPM_PAGESIZE ≤ 65536) :
    ∀ (n j : Nat) (pb : Nat → Nat) (k : Nat), 2 * (j + n) ≤ cfg.SPM_PAGESIZE →
      filled cfg buff n (2 * j) ((a + 2 * j) % 65536) pb k
        = if j ≤ k ∧ k < j + n then buffWord buff (2 * k) else pb k := by
  intro n
  induction n with
  | zero =>
    intro j pb k _
    have hno : ¬ (j ≤ k ∧ k < j + 0) := by omega
    rw [if_neg hno]
    rfl
  | succ n ih =>
    intro j pb k hle
    have hlt : a + 2 * j < 65536 := by omega
    have hA : (a + 2 * j) % 65536 = a + 2 * j := Nat.mod_eq_of_lt hlt
    have hslot : (a + 2 * j) % cfg.SPM_PAGESIZE / 2 = j := by
      rw [Nat.add_mod, hal, Nat.zero_add, Nat.mod_mod, Nat.mod_eq_of_lt (by omega)]
      omega
    have hnext : ((a + 2 * j) % 65536 + 2) % 65536 = (a + 2 * (j + 1)) % 65536 := by omega
    have hbuf : 2 * j + 2 = 2 * (j + 1) := by omega
    rw [filled, hnext, hbuf, ih (j + 1) _ k (by omega), hA, hslot]
    by_cases hk : k = j
    · subst hk
      have h1 : ¬ (k + 1 ≤ k ∧ k < k + 1 + n) := by omega
      have h2 : k ≤ k ∧ k < k + (n + 1) := by omega
      simp [h1, h2]
    · by_cases hin : j + 1 ≤ k ∧ k < j + 1 + n
      · have h2 : j ≤ k ∧ k < j + (n + 1) := by omega
        simp [hin, h2]
      · have h2 : ¬ (j ≤ k ∧ k < j + (n + 1)) := by omega
        simp [hin, h2, hk]

theorem feed_self (s : State) (l : List Byte) (h : s.input = l) : feed s l = s := by
  cases s
  simp_all [feed]

theorem commands_succ_ok (cfg : Config) (n : Nat) (s s1 : State)
    (h : command cfg s = Res.ok () s1) : commands cfg (n + 1) s = commands cfg n s1 := by
  simp [commands, h]

theorem page_facts (cfg : Config) (hok : pageSizeOk cfg) (a : Nat) (ha : a < 65536)
    (hal : a % cfg.SPM_PAGESIZE = 0) :
    2 ≤ cfg.SPM_PAGESIZE ∧ cfg.SPM_PAGESIZE ≤ 256 ∧ cfg.SPM_PAGESIZE % 2 = 0
      ∧ a + cfg.SPM_PAGESIZE ≤ 65536 ∧ 65536 % cfg.SPM_PAGESIZE = 0 := by
  simp only [pageSizeOk, List.mem_cons, List.mem_singleton, List.not_mem_nil, or_false] at hok
  rcases hok with h | h | h | h | h | h | h | h <;> rw [h] at hal ⊢ <;> omega

/-- After a write of a whole aligned page, the `i`-th byte of the page is the
`i`-th byte staged in the Page Buffer. -/
theorem written_byte (cfg : Config) (buff : Nat → Byte) (a e : Nat) (pb : Nat → Nat) (i : Nat)
    (hps : 2 ≤ cfg.SPM_PAGESIZE) (h256 : cfg.SPM_PAGESIZE ≤ 256)
    (hev : cfg.SPM_PAGESIZE % 2 = 0)
    (hal : a % cfg.SPM_PAGESIZE = 0) (hfit : a + cfg.SPM_PAGESIZE ≤ 65536)
    (he : e % cfg.SPM_PAGESIZE = 0) (hi : i < cfg.SPM_PAGESIZE) :
    samePage cfg (e + i) e = true
      ∧ wordByte (filled cfg buff (passes (cfg.SPM_PAGESIZE / 2 % 256)) 0 a pb
              ((e + i) % cfg.SPM_PAGESIZE / 2)) (e + i) = buff i := by
  have hpos : 0 < cfg.SPM_PAGESIZE := by omega
  have hpass : passes (cfg.SPM_PAGESIZE / 2 % 256) = cfg.SPM_PAGESIZE / 2 := by
    unfold passes
    split <;> omega
  have hmod : (e + i) % cfg.SPM_PAGESIZE = i := by
    rw [Nat.add_mod, he, Nat.zero_add, Nat.mod_mod, Nat.mod_eq_of_lt hi]
  have hdiv : (e + i) / cfg.SPM_PAGESIZE = e / cfg.SPM_PAGESIZE := by
    obtain ⟨q, hq⟩ := Nat.dvd_of_mod_eq_zero he
    rw [hq, Nat.mul_add_div hpos, Nat.mul_div_cancel_left _ hpos, Nat.div_eq_of_lt hi]
    rfl
  have hpar : (e + i) % 2 = i % 2 := by
    obtain ⟨q, hq⟩ := Nat.dvd_of_mod_eq_zero he
    obtain ⟨r, hr⟩ := Nat.dvd_of_mod_eq_zero hev
    rw [hq, hr, Nat.mul_assoc]
    omega
  have hsame : samePage cfg (e + i) e = true := by
    simp [samePage, hdiv]
  have hfill := filled_aligned cfg buff a hal hfit (cfg.SPM_PAGESIZE / 2) 0 pb (i / 2) (by omega)
  simp only [Nat.mul_zero, Nat.add_zero, Nat.zero_add] at hfill
  have ha : a % 65536 = a := Nat.mod_eq_of_lt (by omega)
  rw [ha] at hfill
  have hin : 0 ≤ i / 2 ∧ i / 2 < cfg.SPM_PAGESIZE / 2 := by omega
  rw [if_pos hin] at hfill
  refine ⟨hsame, ?_⟩
  rw [hmod, hpass, hfill]
  unfold wordByte
  rw [hpar]
  by_cases h0 : i % 2 = 0
  · rw [if_pos h0, (buffWord_bytes buff (2 * (i / 2))).1]
    congr 1
    omega
  · rw [if_neg h0, (buffWord_bytes buff (2 * (i / 2))).2]
    congr 1
    omega

/-! ## EEPROM loops and wrong terminators -/

/-- A wrong terminator: `verifySpace` never returns. -/
theorem verifySpace_bad (s : State) (t : Byte) (rest : List Byte) (h : s.input = t :: rest)
    (ht : t ≠ CRC_EOP) :
    verifySpace s = Res.hang
      { s with input := rest, radioIdle := true, wdtcsr := WATCHDOG_16MS,
               trace := s.trace ++ [Event.rx t, Event.radioIdle,
                          Event.wdtcsr (2 ^ WDCE ||| 2 ^ WDE), Event.wdtcsr WATCHDOG_16MS] } := by
  simp [verifySpace, getch, h, ht, wait_timeout, nrf24_idle_mode, watchdogConfig, spin]

/-- The EEPROM loop of PROG_PAGE, pass by pass. -/
theorem ee_write_loop :
    ∀ (n addrPtr bufPtr : Nat) (s : State),
      ∃ x, whileDec writeEepromByte n (addrPtr, bufPtr) s
        = Res.ok x
            { s with eeprom := eeStored s.buff n addrPtr bufPtr s.eeprom,
                     trace := s.trace ++ eeWrites s.buff n addrPtr bufPtr } := by
  intro n
  induction n with
  | zero =>
    intro addrPtr bufPtr s
    exact ⟨(addrPtr, bufPtr), by simp [whileDec, eeStored, eeWrites]⟩
  | succ n ih =>
    intro addrPtr bufPtr s
    simp only [whileDec, bind_apply, writeEepromByte, watchdogReset, emit, current_apply,
      eeprom_write, modify_apply, pure_apply]
    obtain ⟨x, hx⟩ := ih ((addrPtr + 1) % 65536) (bufPtr + 1)
      { s with eeprom := fun a => if a = addrPtr then s.buff bufPtr else s.eeprom a,
               trace := s.trace ++ [Event.wdr] ++ [Event.eeWrite addrPtr (s.buff bufPtr)] }
    refine ⟨x, ?_⟩
    rw [hx]
    simp [eeStored, eeWrites]

/-- The EEPROM loop of READ_PAGE, pass by pass. -/
theorem ee_read_loop :
    ∀ (n : Nat) (s : State),
      whileDec readEepromByte n () s
        = Res.ok ()
            { s with address := eeAddr n s.address,
                     output := s.output ++ eeReadOut s.eeprom n s.address,
                     trace := s.trace ++ eeReads s.eeprom n s.address } := by
  intro n
  induction n with
  | zero =>
    intro s
    simp [whileDec, eeAddr, eeReadOut, eeReads]
  | succ n ih =>
    intro s
    simp only [whileDec, bind_apply, readEepromByte, current_apply, modify_apply, eeprom_read,
      putch_apply]
    rw [ih]
    simp [eeAddr, eeReadOut, eeReads]

/-- An EEPROM PROG_PAGE with a correct terminator, in full. -/
theorem prog_page_eeprom_ok (cfg : Config) (s : State) (h L : Byte) (data rest : List Byte)
    (hee : cfg.SUPPORT_EEPROM = true) (hlen : data.length = passes L.val) :
    command cfg (feed s (STK_PROG_PAGE :: h :: L :: 0x45 :: (data ++ CRC_EOP :: rest)))
      = Res.ok ()
          { s with
            input := rest
            output := s.output ++ [STK_INSYNC, STK_OK]
            marker := 0
            buff := stored data 0 s.buff
            eeprom := eeStored (stored data 0 s.buff) (data.length % 256) s.address 0 s.eeprom
            trace := s.trace
              ++ [Event.rx STK_PROG_PAGE, Event.rx h, Event.rx L, Event.rx 0x45]
              ++ data.map Event.rx
              ++ [Event.rx CRC_EOP, Event.tx STK_INSYNC]
              ++ eeWrites (stored data 0 s.buff) (data.length % 256) s.address 0
              ++ [Event.tx STK_OK] } := by
  have hp : passes L.val ≤ 256 := by
    unfold passes; split <;> omega
  have hty : flashType cfg 0x45 = false := by
    simp [flashType, hee]
  simp only [command, bind_apply, getch, feed, modify_apply, dispatch_prog_page, progPage,
    current_apply, hty, if_true, pure_apply, Bool.false_eq_true, if_false]
  rw [doWhileDec_eq_whileDec _ 256 L.val 0 L.isLt hp, ← hlen, stage_loop data 0 _ (CRC_EOP :: rest)]
  · simp only [progPageEeprom, bind_apply]
    rw [verifySpace_eop _ rest]
    · simp only [current_apply, Nat.zero_add]
      obtain ⟨x, hx⟩ := ee_write_loop (data.length % 256) s.address 0
        { s with
          input := rest
          output := s.output ++ [STK_INSYNC]
          marker := 0
          buff := stored data 0 s.buff
          trace := s.trace ++ [Event.rx STK_PROG_PAGE] ++ [Event.rx h] ++ [Event.rx L]
                     ++ [Event.rx 0x45] ++ data.map Event.rx
                     ++ [Event.rx CRC_EOP, Event.tx STK_INSYNC] }
      rw [hx]
      simp [putch_apply]
    · rfl
  · rfl

/-- An EEPROM READ_PAGE with a correct terminator, in full. -/
theorem read_page_eeprom_ok (cfg : Config) (s : State) (h L : Byte) (rest : List Byte)
    (hee : cfg.SUPPORT_EEPROM = true) :
    command cfg (feed s (STK_READ_PAGE :: h :: L :: 0x45 :: CRC_EOP :: rest))
      = Res.ok ()
          { s with
            input := rest
            marker := 0
            address := eeAddr L.val s.address
            output := s.output ++ [STK_INSYNC] ++ eeReadOut s.eeprom L.val s.address ++ [STK_OK]
            trace := s.trace
              ++ [Event.rx STK_READ_PAGE, Event.rx h, Event.rx L, Event.rx 0x45, Event.rx CRC_EOP,
                  Event.tx STK_INSYNC]
              ++ eeReads s.eeprom L.val s.address
              ++ [Event.tx STK_OK] } := by
  have hty : flashType cfg 0x45 = false := by
    simp [flashType, hee]
  simp only [command, bind_apply, getch, feed, modify_apply, dispatch_read_page, readPage,
    verifySpace, putch_apply, hty, if_true, ne_eq, not_true_eq_false, if_false, pure_apply,
    Bool.false_eq_true]
  rw [ee_read_loop]
  simp

/-- A READ_PAGE of a `SUPPORT_EEPROM` build for a memory type that is neither
flash nor EEPROM, with a correct terminator, in full. -/
theorem read_page_other_ok (cfg : Config) (s : State) (h L ty : Byte) (rest : List Byte)
    (hty : flashType cfg ty = false) (hne : ty ≠ 0x45) :
    command cfg (feed s (STK_READ_PAGE :: h :: L :: ty :: CRC_EOP :: rest))
      = Res.ok ()
          { s with
            input := rest
            marker := 0
            output := s.output ++ [STK_INSYNC, STK_OK]
            trace := s.trace
              ++ [Event.rx STK_READ_PAGE, Event.rx h, Event.rx L, Event.rx ty, Event.rx CRC_EOP,
                  Event.tx STK_INSYNC, Event.tx STK_OK] } := by
  simp [command, getch, feed, dispatch_read_page, readPage, verifySpace, putch_apply, hty, hne]

/-! ## Commands with a correct terminator -/

/-- The byte GET_PARAMETER sends for parameter `which`. -/
theorem get_parameter_ok (cfg : Config) (s : State) (p : Byte) (rest : List Byte) :
    command cfg (feed s (STK_GET_PARAMETER :: p :: CRC_EOP :: rest))
      = Res.ok ()
          { s with
            input := rest
            marker := 0
            output := s.output ++ [STK_INSYNC,
              if p = 0x82 then OPTIBOOT_MINVER else if p = 0x81 then OPTIBOOT_MAJVER else 0x03,
              STK_OK]
            trace := s.trace
              ++ [Event.rx STK_GET_PARAMETER, Event.rx p, Event.rx CRC_EOP, Event.tx STK_INSYNC,
                  Event.tx (if p = 0x82 then OPTIBOOT_MINVER
                            else if p = 0x81 then OPTIBOOT_MAJVER else 0x03),
                  Event.tx STK_OK] } := by
  by_cases hp : p = 0x82 <;> by_cases hq : p = 0x81 <;>
    simp [command, dispatch, getParameter, getch, verifySpace, putch_apply, feed, hp, hq,
      STK_GET_PARAMETER, CRC_EOP]

/-- A LOAD_ADDRESS with a correct terminator, in full. -/
theorem load_address_ok (cfg : Config) (s : State) (lo hi : Byte) (rest : List Byte) :
    command cfg (feed s (STK_LOAD_ADDRESS :: lo :: hi :: CRC_EOP :: rest))
      = Res.ok ()
          { s with
            input := rest
            marker := 0
            address := ((hi.val <<< 8 ||| lo.val) * 2) % 65536
            rampz := if cfg.RAMPZ then
                       (if (lo.val ||| hi.val <<< 8) % 65536 &&& 0x8000 ≠ 0 then 1 else 0)
                     else s.rampz
            output := s.output ++ [STK_INSYNC, STK_OK]
            trace := s.trace
              ++ [Event.rx STK_LOAD_ADDRESS, Event.rx lo, Event.rx hi, Event.rx CRC_EOP,
                  Event.tx STK_INSYNC, Event.tx STK_OK] } := by
  cases hr : cfg.RAMPZ <;>
  simp [command, dispatch, loadAddress, getch, verifySpace, putch_apply, feed, STK_LOAD_ADDRESS,
    STK_GET_PARAMETER, STK_SET_DEVICE, STK_SET_DEVICE_EXT, CRC_EOP, hr, word_shift]

/-- A READ_SIGN with a correct terminator, in full. -/
theorem read_sign_ok (cfg : Config) (s : State) (rest : List Byte) :
    command cfg (feed s (STK_READ_SIGN :: CRC_EOP :: rest))
      = Res.ok ()
          { s with
            input := rest
            marker := 0
            output := s.output
              ++ [STK_INSYNC, cfg.SIGNATURE_0, cfg.SIGNATURE_1, cfg.SIGNATURE_2, STK_OK]
            trace := s.trace
              ++ [Event.rx STK_READ_SIGN, Event.rx CRC_EOP, Event.tx STK_INSYNC,
                  Event.tx cfg.SIGNATURE_0, Event.tx cfg.SIGNATURE_1, Event.tx cfg.SIGNATURE_2,
                  Event.tx STK_OK] } := by
  simp [command, dispatch, readSign, getch, verifySpace, putch_apply, feed,
      STK_GET_PARAMETER, STK_SET_DEVICE, STK_SET_DEVICE_EXT, STK_LOAD_ADDRESS, STK_UNIVERSAL,
      STK_PROG_PAGE, STK_READ_PAGE, STK_READ_SIGN, CRC_EOP]

/-- A LEAVE_PROGMODE with a correct terminator, in full. -/
theorem leave_progmode_ok (cfg : Config) (s : State) (rest : List Byte) :
    command cfg (feed s (STK_LEAVE_PROGMODE :: CRC_EOP :: rest))
      = Res.ok ()
          { s with
            input := rest
            marker := MARKER_SENTINEL
            wdtcsr := WATCHDOG_16MS
            output := s.output ++ [STK_INSYNC, STK_OK]
            trace := s.trace
              ++ [Event.rx STK_LEAVE_PROGMODE, Event.wdtcsr (2 ^ WDCE ||| 2 ^ WDE),
                  Event.wdtcsr WATCHDOG_16MS, Event.rx CRC_EOP, Event.tx STK_INSYNC,
                  Event.tx STK_OK] } := by
  simp [command, dispatch, leaveProgmode, watchdogConfig, getch, verifySpace, putch_apply, feed,
      STK_GET_PARAMETER, STK_SET_DEVICE, STK_SET_DEVICE_EXT, STK_LOAD_ADDRESS, STK_UNIVERSAL,
      STK_PROG_PAGE, STK_READ_PAGE, STK_READ_SIGN, STK_LEAVE_PROGMODE, CRC_EOP]

/-- A command code without a branch of its own, with a correct terminator, in
full. -/
theorem unknown_command_ok (cfg : Config) (s : State) (ch : Byte) (rest : List Byte)
    (h : ch ∉ knownCommands) :
    command cfg (feed s (ch :: CRC_EOP :: rest))
      = Res.ok ()
          { s with
            input := rest
            marker := 0
            output := s.output ++ [STK_INSYNC, STK_OK]
            trace := s.trace
              ++ [Event.rx ch, Event.rx CRC_EOP, Event.tx STK_INSYNC, Event.tx STK_OK] } := by
  simp only [knownCommands, List.mem_cons, List.mem_singleton, not_or, List.not_mem_nil,
    not_false_eq_true, and_true] at h
  obtain ⟨h1, h2, h3, h4, h5, h6, h7, h8, h9⟩ := h
  simp [command, dispatch, getch, verifySpace, putch_apply, feed, CRC_EOP,
    h1, h2, h3, h4, h5, h6, h7, h8, h9]

/-- A UNIVERSAL with a correct terminator, in full. -/
theorem universal_ok (cfg : Config) (s : State) (params rest : List Byte)
    (hl : params.length = 4) :
    command cfg (feed s (STK_UNIVERSAL :: (params ++ CRC_EOP :: rest)))
      = Res.ok ()
          { s with
            input := rest
            marker := 0
            output := s.output ++ [STK_INSYNC, 0x00, STK_OK]
            trace := s.trace ++ [Event.rx STK_UNIVERSAL] ++ params.map Event.rx
              ++ [Event.rx CRC_EOP, Event.tx STK_INSYNC, Event.tx 0x00, Event.tx STK_OK] } := by
  have hd : dispatch cfg STK_UNIVERSAL = universal := by
    simp [dispatch, STK_UNIVERSAL, STK_LOAD_ADDRESS, STK_SET_DEVICE_EXT, STK_SET_DEVICE,
      STK_GET_PARAMETER]
  simp only [command, bind_apply, getch, feed, modify_apply, hd, universal]
  rw [getNch_ok 4 (by decide) (by decide) params hl _ rest rfl]
  simp [putch_apply]

/-- Every well-framed command with the terminator `0x20`, except a PROG_PAGE
of a `SUPPORT_EEPROM` build with a memory type other than `'F'` and `'E'`, is
consumed up to and including its terminator and answered with INSYNC, some
payload, OK. -/
theorem framed_reply (cfg : Config) (s : State) (frame rest : List Byte) (hw : s.wf)
    (hf : framed frame = true) (hs : strayType cfg frame = false) :
    ∃ (s1 : State) (payload : List Byte),
      command cfg (feed s (frame ++ CRC_EOP :: rest)) = Res.ok () s1
      ∧ s1.input = rest
      ∧ s1.output = s.output ++ STK_INSYNC :: (payload ++ [STK_OK]) := by
  cases frame with
  | nil => simp [framed] at hf
  | cons ch args =>
    simp only [framed] at hf
    by_cases h1 : ch = STK_GET_PARAMETER
    · subst h1
      simp only [if_true, beq_iff_eq] at hf
      obtain ⟨p, rfl⟩ := List.length_eq_one.mp hf
      exact ⟨_, [if p = 0x82 then OPTIBOOT_MINVER else if p = 0x81 then OPTIBOOT_MAJVER else 0x03],
        get_parameter_ok cfg s p rest, rfl, by simp⟩
    rw [if_neg h1] at hf
    by_cases h2 : ch = STK_SET_DEVICE
    · subst h2
      simp only [if_true, beq_iff_eq] at hf
      refine ⟨_, [], command_getNch cfg s STK_SET_DEVICE 20 args rest ?_ (by decide) (by decide) hf,
        rfl, by simp⟩
      simp [dispatch, STK_SET_DEVICE, STK_GET_PARAMETER]
    rw [if_neg h2] at hf
    by_cases h3 : ch = STK_SET_DEVICE_EXT
    · subst h3
      simp only [if_true, beq_iff_eq] at hf
      refine ⟨_, [], command_getNch cfg s STK_SET_DEVICE_EXT 5 args rest ?_ (by decide)
        (by decide) hf, rfl, by simp⟩
      simp [dispatch, STK_SET_DEVICE_EXT, STK_SET_DEVICE, STK_GET_PARAMETER]
    rw [if_neg h3] at hf
    by_cases h4 : ch = STK_LOAD_ADDRESS
    · subst h4
      simp only [if_true, beq_iff_eq] at hf
      obtain ⟨lo, hi, rfl⟩ := List.length_eq_two.mp hf
      exact ⟨_, [], load_address_ok cfg s lo hi rest, rfl, by simp⟩
    rw [if_neg h4] at hf
    by_cases h5 : ch = STK_UNIVERSAL
    · subst h5
      simp only [if_true, beq_iff_eq] at hf
      exact ⟨_, [0x00], universal_ok cfg s args rest hf, rfl, by simp⟩
    rw [if_neg h5] at hf
    by_cases h6 : ch = STK_PROG_PAGE
    · subst h6
      simp only [if_true] at hf
      match args, hf, hs with
      | h :: L :: ty :: data, hf, hs =>
        simp only [beq_iff_eq] at hf
        by_cases hty : flashType cfg ty = true
        · exact ⟨_, [], prog_page_flash_ok cfg s h L ty data rest hty hf, rfl, by simp⟩
        · have hee : cfg.SUPPORT_EEPROM = true ∧ ty = 0x45 := by
            cases hse : cfg.SUPPORT_EEPROM
            · simp [flashType, hse] at hty
            · have hF : ty ≠ 0x46 := by simpa [flashType, hse] using hty
              simpa [strayType, hse, hF] using hs
          obtain ⟨hee, rfl⟩ := hee
          exact ⟨_, [], prog_page_eeprom_ok cfg s h L data rest hee hf, rfl, by simp⟩
    rw [if_neg h6] at hf
    by_cases h7 : ch = STK_READ_PAGE
    · subst h7
      simp only [if_true, beq_iff_eq] at hf
      obtain ⟨h, L, ty, rfl⟩ := List.length_eq_three.mp hf
      by_cases hty : flashType cfg ty = true
      · exact ⟨_, (List.range (passes L.val)).map (fun i => s.flash (flashAddr cfg s i)),
          read_page_flash_ok cfg s hw h L ty rest hty, rfl, by simp⟩
      · by_cases hE : ty = 0x45
        · subst hE
          have hee : cfg.SUPPORT_EEPROM = true := by
            simp only [flashType, Bool.or_eq_true, Bool.not_eq_true', decide_eq_true_eq,
              not_or] at hty
            simpa using hty.1
          exact ⟨_, eeReadOut s.eeprom L.val s.address,
            read_page_eeprom_ok cfg s h L rest hee, rfl, by simp⟩
        · exact ⟨_, [], read_page_other_ok cfg s h L ty rest (by simpa using hty) hE, rfl,
            by simp⟩
    rw [if_neg h7] at hf
    simp only [beq_iff_eq, List.length_eq_zero] at hf
    subst hf
    by_cases h8 : ch = STK_READ_SIGN
    · subst h8
      exact ⟨_, [cfg.SIGNATURE_0, cfg.SIGNATURE_1, cfg.SIGNATURE_2],
        read_sign_ok cfg s rest, rfl, by simp⟩
    by_cases h9 : ch = STK_LEAVE_PROGMODE
    · subst h9
      exact ⟨_, [], leave_progmode_ok cfg s rest, rfl, by simp⟩
    have hk : ch ∉ knownCommands := by
      simp [knownCommands, h1, h2, h3, h4, h5, h6, h7, h8, h9]
    exact ⟨_, [], unknown_command_ok cfg s ch rest hk, rfl, by simp⟩

/-! ## Commands with a wrong terminator -/

/-- Function `getNch` with a wrong terminator never returns. -/
theorem getNch_bad (n : Nat) (hn0 : 0 < n) (hn : n < 256) (params : List Byte)
    (hl : params.length = n) (s : State) (t : Byte) (rest : List Byte)
    (h : s.input = params ++ t :: rest) (ht : t ≠ CRC_EOP) :
    getNch n s = Res.hang
      { s with input := rest, radioIdle := true, wdtcsr := WATCHDOG_16MS,
               trace := s.trace ++ params.map Event.rx
                 ++ [Event.rx t, Event.radioIdle, Event.wdtcsr (2 ^ WDCE ||| 2 ^ WDE),
                     Event.wdtcsr WATCHDOG_16MS] } := by
  have hp : passes n = params.length := by unfold passes; split <;> omega
  unfold getNch
  rw [bind_apply, doWhileDec_eq_whileDec _ 256 n () hn (by unfold passes; split <;> omega), hp,
    drop_bytes params s (t :: rest) h]
  simp only
  rw [verifySpace_bad _ t rest rfl ht]

/-- A flash PROG_PAGE with a wrong terminator, in full: the data is staged,
the page is erased, and the engine never returns. -/
theorem prog_page_flash_bad (cfg : Config) (s : State) (h L ty t : Byte)
    (data rest : List Byte) (hty : flashType cfg ty = true) (hlen : data.length = passes L.val)
    (ht : t ≠ CRC_EOP) :
    command cfg (feed s (STK_PROG_PAGE :: h :: L :: ty :: (data ++ t :: rest)))
      = Res.hang
          { s with
            input := rest
            marker := 0
            buff := stored data 0 s.buff
            flash := fun p => if samePage cfg p (zAddr cfg s s.address) then 0xFF else s.flash p
            radioIdle := true
            wdtcsr := WATCHDOG_16MS
            trace := s.trace
              ++ [Event.rx STK_PROG_PAGE, Event.rx h, Event.rx L, Event.rx ty]
              ++ (if s.address < cfg.NRWWSTART then [Event.erase s.address] else [])
              ++ data.map Event.rx
              ++ (if cfg.NRWWSTART ≤ s.address then [Event.erase s.address] else [])
              ++ [Event.rx t, Event.radioIdle, Event.wdtcsr (2 ^ WDCE ||| 2 ^ WDE),
                  Event.wdtcsr WATCHDOG_16MS] } := by
  have hp : passes L.val ≤ 256 := by
    unfold passes; split <;> omega
  by_cases hlo : s.address < cfg.NRWWSTART
  · have hge : ¬ cfg.NRWWSTART ≤ s.address := by omega
    simp only [command, bind_apply, getch, feed, modify_apply, dispatch_prog_page, progPage,
      current_apply, hty, if_true, pure_apply, hlo, boot_page_erase]
    rw [doWhileDec_eq_whileDec _ 256 L.val 0 L.isLt hp, ← hlen, stage_loop data 0 _ (t :: rest)]
    · simp only [progPageFlash, bind_apply, current_apply, ge_iff_le, hge, if_false, pure_apply]
      rw [verifySpace_bad _ t rest rfl ht]
      simp [zAddr]
    · rfl
  · have hge : cfg.NRWWSTART ≤ s.address := by omega
    simp only [command, bind_apply, getch, feed, modify_apply, dispatch_prog_page, progPage,
      current_apply, hty, if_true, pure_apply, hlo, if_false]
    rw [doWhileDec_eq_whileDec _ 256 L.val 0 L.isLt hp, ← hlen, stage_loop data 0 _ (t :: rest)]
    · simp only [progPageFlash, bind_apply, current_apply, ge_iff_le, hge, if_true,
        boot_page_erase, modify_apply]
      rw [verifySpace_bad _ t rest rfl ht]
      simp [zAddr]
    · rfl

/-- An EEPROM PROG_PAGE with a wrong terminator, in full. -/
theorem prog_page_eeprom_bad (cfg : Config) (s : State) (h L t : Byte) (data rest : List Byte)
    (hee : cfg.SUPPORT_EEPROM = true) (hlen : data.length = passes L.val) (ht : t ≠ CRC_EOP) :
    command cfg (feed s (STK_PROG_PAGE :: h :: L :: 0x45 :: (data ++ t :: rest)))
      = Res.hang
          { s with
            input := rest
            marker := 0
            buff := stored data 0 s.buff
            radioIdle := true
            wdtcsr := WATCHDOG_16MS
            trace := s.trace
              ++ [Event.rx STK_PROG_PAGE, Event.rx h, Event.rx L, Event.rx 0x45]
              ++ data.map Event.rx
              ++ [Event.rx t, Event.radioIdle, Event.wdtcsr (2 ^ WDCE ||| 2 ^ WDE),
                  Event.wdtcsr WATCHDOG_16MS] } := by
  have hp : passes L.val ≤ 256 := by
    unfold passes; split <;> omega
  have hty : flashType cfg 0x45 = false := by
    simp [flashType, hee]
  simp only [command, bind_apply, getch, feed, modify_apply, dispatch_prog_page, progPage,
    current_apply, hty, if_true, pure_apply, Bool.false_eq_true, if_false]
  rw [doWhileDec_eq_whileDec _ 256 L.val 0 L.isLt hp, ← hlen, stage_loop data 0 _ (t :: rest)]
  · simp only [progPageEeprom, bind_apply]
    rw [verifySpace_bad _ t rest rfl ht]
    simp
  · rfl

/-- A GET_PARAMETER with a wrong terminator, in full. -/
theorem get_parameter_bad (cfg : Config) (s : State) (p t : Byte) (rest : List Byte)
    (ht : t ≠ CRC_EOP) :
    command cfg (feed s (STK_GET_PARAMETER :: p :: t :: rest))
      = Res.hang
          { s with
            input := rest
            marker := 0
            radioIdle := true
            wdtcsr := WATCHDOG_16MS
            trace := s.trace
              ++ [Event.rx STK_GET_PARAMETER, Event.rx p, Event.rx t, Event.radioIdle,
                  Event.wdtcsr (2 ^ WDCE ||| 2 ^ WDE), Event.wdtcsr WATCHDOG_16MS] } := by
  simp only [command, dispatch, getParameter, getch, feed, bind_apply, modify_apply, if_true]
  rw [verifySpace_bad _ t rest rfl ht]
  simp

/-- A command that is a call of `getNch` (SET_DEVICE, SET_DEVICE_EXT), with a
wrong terminator, in full. -/
theorem command_getNch_bad (cfg : Config) (s : State) (ch t : Byte) (n : Nat)
    (params rest : List Byte) (hd : dispatch cfg ch = getNch n) (hn0 : 0 < n) (hn : n < 256)
    (hl : params.length = n) (ht : t ≠ CRC_EOP) :
    command cfg (feed s (ch :: (params ++ t :: rest)))
      = Res.hang
          { s with
            input := rest
            marker := 0
            radioIdle := true
            wdtcsr := WATCHDOG_16MS
            trace := s.trace ++ [Event.rx ch] ++ params.map Event.rx
              ++ [Event.rx t, Event.radioIdle, Event.wdtcsr (2 ^ WDCE ||| 2 ^ WDE),
                  Event.wdtcsr WATCHDOG_16MS] } := by
  simp only [command, bind_apply, getch, feed, modify_apply, hd]
  rw [getNch_bad n hn0 hn params hl _ t rest rfl ht]

/-- A UNIVERSAL with a wrong terminator, in full. -/
theorem universal_bad (cfg : Config) (s : State) (t : Byte) (params rest : List Byte)
    (hl : params.length = 4) (ht : t ≠ CRC_EOP) :
    command cfg (feed s (STK_UNIVERSAL :: (params ++ t :: rest)))
      = Res.hang
          { s with
            input := rest
            marker := 0
            radioIdle := true
            wdtcsr := WATCHDOG_16MS
            trace := s.trace ++ [Event.rx STK_UNIVERSAL] ++ params.map Event.rx
              ++ [Event.rx t, Event.radioIdle, Event.wdtcsr (2 ^ WDCE ||| 2 ^ WDE),
                  Event.wdtcsr WATCHDOG_16MS] } := by
  have hd : dispatch cfg STK_UNIVERSAL = universal := by
    simp [dispatch, STK_UNIVERSAL, STK_LOAD_ADDRESS, STK_SET_DEVICE_EXT, STK_SET_DEVICE,
      STK_GET_PARAMETER]
  simp only [command, bind_apply, getch, feed, modify_apply, hd, universal]
  rw [getNch_bad 4 (by decide) (by decide) params hl _ t rest rfl ht]

/-- A LOAD_ADDRESS with a wrong terminator, in full: Address is already
set. -/
theorem load_address_bad (cfg : Config) (s : State) (lo hi t : Byte) (rest : List Byte)
    (ht : t ≠ CRC_EOP) :
    command cfg (feed s (STK_LOAD_ADDRESS :: lo :: hi :: t :: rest))
      = Res.hang
          { s with
            input := rest
            marker := 0
            address := ((hi.val <<< 8 ||| lo.val) * 2) % 65536
            rampz := if cfg.RAMPZ then
                       (if (lo.val ||| hi.val <<< 8) % 65536 &&& 0x8000 ≠ 0 then 1 else 0)
                     else s.rampz
            radioIdle := true
            wdtcsr := WATCHDOG_16MS
            trace := s.trace
              ++ [Event.rx STK_LOAD_ADDRESS, Event.rx lo, Event.rx hi, Event.rx t,
                  Event.radioIdle, Event.wdtcsr (2 ^ WDCE ||| 2 ^ WDE),
                  Event.wdtcsr WATCHDOG_16MS] } := by
  have hd : dispatch cfg STK_LOAD_ADDRESS = loadAddress cfg := by
    simp [dispatch, STK_LOAD_ADDRESS, STK_SET_DEVICE_EXT, STK_SET_DEVICE, STK_GET_PARAMETER]
  cases hr : cfg.RAMPZ
  · simp only [command, hd, loadAddress, getch, feed, bind_apply, modify_apply, hr,
      Bool.false_eq_true, if_false, pure_apply]
    rw [verifySpace_bad _ t rest rfl ht]
    simp [word_shift]
  · simp only [command, hd, loadAddress, getch, feed, bind_apply, modify_apply, hr,
      if_true]
    rw [verifySpace_bad _ t rest rfl ht]
    simp [word_shift]

/-- A READ_PAGE with a wrong terminator, in full: nothing is read. -/
theorem read_page_bad (cfg : Config) (s : State) (h L ty t : Byte) (rest : List Byte)
    (ht : t ≠ CRC_EOP) :
    command cfg (feed s (STK_READ_PAGE :: h :: L :: ty :: t :: rest))
      = Res.hang
          { s with
            input := rest
            marker := 0
            radioIdle := true
            wdtcsr := WATCHDOG_16MS
            trace := s.trace
              ++ [Event.rx STK_READ_PAGE, Event.rx h, Event.rx L, Event.rx ty, Event.rx t,
                  Event.radioIdle, Event.wdtcsr (2 ^ WDCE ||| 2 ^ WDE),
                  Event.wdtcsr WATCHDOG_16MS] } := by
  simp only [command, dispatch_read_page, readPage, getch, feed, bind_apply, modify_apply]
  rw [verifySpace_bad _ t rest rfl ht]
  simp

/-- A READ_SIGN with a wrong terminator, in full. -/
theorem read_sign_bad (cfg : Config) (s : State) (t : Byte) (rest : List Byte)
    (ht : t ≠ CRC_EOP) :
    command cfg (feed s (STK_READ_SIGN :: t :: rest))
      = Res.hang
          { s with
            input := rest
            marker := 0
            radioIdle := true
            wdtcsr := WATCHDOG_16MS
            trace := s.trace
              ++ [Event.rx STK_READ_SIGN, Event.rx t, Event.radioIdle,
                  Event.wdtcsr (2 ^ WDCE ||| 2 ^ WDE), Event.wdtcsr WATCHDOG_16MS] } := by
  have hd : dispatch cfg STK_READ_SIGN = readSign cfg := by
    simp [dispatch, STK_GET_PARAMETER, STK_SET_DEVICE, STK_SET_DEVICE_EXT, STK_LOAD_ADDRESS,
      STK_UNIVERSAL, STK_PROG_PAGE, STK_READ_PAGE, STK_READ_SIGN]
  simp only [command, hd, readSign, getch, feed, bind_apply, modify_apply]
  rw [verifySpace_bad _ t rest rfl ht]
  simp

/-- A LEAVE_PROGMODE with a wrong terminator, in full: the Reset Marker is
already the sentinel. -/
theorem leave_progmode_bad (cfg : Config) (s : State) (t : Byte) (rest : List Byte)
    (ht : t ≠ CRC_EOP) :
    command cfg (feed s (STK_LEAVE_PROGMODE :: t :: rest))
      = Res.hang
          { s with
            input := rest
            marker := MARKER_SENTINEL
            radioIdle := true
            wdtcsr := WATCHDOG_16MS
            trace := s.trace
              ++ [Event.rx STK_LEAVE_PROGMODE, Event.wdtcsr (2 ^ WDCE ||| 2 ^ WDE),
                  Event.wdtcsr WATCHDOG_16MS, Event.rx t, Event.radioIdle,
                  Event.wdtcsr (2 ^ WDCE ||| 2 ^ WDE), Event.wdtcsr WATCHDOG_16MS] } := by
  have hd : dispatch cfg STK_LEAVE_PROGMODE = leaveProgmode := by
    simp [dispatch, STK_GET_PARAMETER, STK_SET_DEVICE, STK_SET_DEVICE_EXT, STK_LOAD_ADDRESS,
      STK_UNIVERSAL, STK_PROG_PAGE, STK_READ_PAGE, STK_READ_SIGN, STK_LEAVE_PROGMODE]
  simp only [command, hd, leaveProgmode, watchdogConfig, getch, feed, bind_apply, modify_apply]
  rw [verifySpace_bad _ t rest rfl ht]
  simp

/-- A command code without a branch of its own, with a wrong terminator, in
full. -/
theorem unknown_command_bad (cfg : Config) (s : State) (ch t : Byte) (rest : List Byte)
    (h : ch ∉ knownCommands) (ht : t ≠ CRC_EOP) :
    command cfg (feed s (ch :: t :: rest))
      = Res.hang
          { s with
            input := rest
            marker := 0
            radioIdle := true
            wdtcsr := WATCHDOG_16MS
            trace := s.trace
              ++ [Event.rx ch, Event.rx t, Event.radioIdle,
                  Event.wdtcsr (2 ^ WDCE ||| 2 ^ WDE), Event.wdtcsr WATCHDOG_16MS] } := by
  simp only [knownCommands, List.mem_cons, List.mem_singleton, not_or, List.not_mem_nil,
    not_false_eq_true, and_true] at h
  obtain ⟨h1, h2, h3, h4, h5, h6, h7, h8, h9⟩ := h
  have hd : dispatch cfg ch = verifySpace := by
    simp [dispatch, h1, h2, h3, h4, h5, h6, h7, h8, h9]
  simp only [command, hd, getch, feed, bind_apply, modify_apply]
  rw [verifySpace_bad _ t rest rfl ht]
  simp

/-- Every well-framed command followed by a byte other than the terminator,
except a PROG_PAGE of a `SUPPORT_EEPROM` build with a memory type other than
`'F'` and `'E'`, ends in the endless loop of `wait_timeout`: nothing has been
written to the channel, the radio is idle and the watchdog runs at 16 ms.  The
Reset Marker is then 0, or the sentinel if the command was LEAVE_PROGMODE. -/
theorem framed_bad_terminator (cfg : Config) (s : State) (frame rest : List Byte) (t : Byte)
    (hf : framed frame = true) (hs : strayType cfg frame = false) (ht : t ≠ CRC_EOP) :
    ∃ s1 : State,
      command cfg (feed s (frame ++ t :: rest)) = Res.hang s1
      ∧ s1.input = rest ∧ s1.output = s.output
      ∧ s1.radioIdle = true ∧ s1.wdtcsr = WATCHDOG_16MS
      ∧ s1.marker = (if frame.head? = some STK_LEAVE_PROGMODE then MARKER_SENTINEL else 0) := by
  cases frame with
  | nil => simp [framed] at hf
  | cons ch args =>
    simp only [framed] at hf
    simp only [List.head?_cons, Option.some.injEq]
    by_cases h1 : ch = STK_GET_PARAMETER
    · subst h1
      simp only [if_true, beq_iff_eq] at hf
      obtain ⟨p, rfl⟩ := List.length_eq_one.mp hf
      exact ⟨_, get_parameter_bad cfg s p t rest ht, rfl, rfl, rfl, rfl, rfl⟩
    rw [if_neg h1] at hf
    by_cases h2 : ch = STK_SET_DEVICE
    · subst h2
      simp only [if_true, beq_iff_eq] at hf
      refine ⟨_, command_getNch_bad cfg s STK_SET_DEVICE t 20 args rest ?_ (by decide)
        (by decide) hf ht, rfl, rfl, rfl, rfl, rfl⟩
      simp [dispatch, STK_SET_DEVICE, STK_GET_PARAMETER]
    rw [if_neg h2] at hf
    by_cases h3 : ch = STK_SET_DEVICE_EXT
    · subst h3
      simp only [if_true, beq_iff_eq] at hf
      refine ⟨_, command_getNch_bad cfg s STK_SET_DEVICE_EXT t 5 args rest ?_ (by decide)
        (by decide) hf ht, rfl, rfl, rfl, rfl, rfl⟩
      simp [dispatch, STK_SET_DEVICE_EXT, STK_SET_DEVICE, STK_GET_PARAMETER]
    rw [if_neg h3] at hf
    by_cases h4 : ch = STK_LOAD_ADDRESS
    · subst h4
      simp only [if_true, beq_iff_eq] at hf
      obtain ⟨lo, hi, rfl⟩ := List.length_eq_two.mp hf
      exact ⟨_, load_address_bad cfg s lo hi t rest ht, rfl, rfl, rfl, rfl, rfl⟩
    rw [if_neg h4] at hf
    by_cases h5 : ch = STK_UNIVERSAL
    · subst h5
      simp only [if_true, beq_iff_eq] at hf
      exact ⟨_, universal_bad cfg s t args rest hf ht, rfl, rfl, rfl, rfl, rfl⟩
    rw [if_neg h5] at hf
    by_cases h6 : ch = STK_PROG_PAGE
    · subst h6
      simp only [if_true] at hf
      match args, hf, hs with
      | h :: L :: ty :: data, hf, hs =>
        simp only [beq_iff_eq] at hf
        by_cases hty : flashType cfg ty = true
        · exact ⟨_, prog_page_flash_bad cfg s h L ty t data rest hty hf ht, rfl, rfl, rfl, rfl,
            rfl⟩
        · have hee : cfg.SUPPORT_EEPROM = true ∧ ty = 0x45 := by
            cases hse : cfg.SUPPORT_EEPROM
            · simp [flashType, hse] at hty
            · have hF : ty ≠ 0x46 := by simpa [flashType, hse] using hty
              simpa [strayType, hse, hF] using hs
          obtain ⟨hee, rfl⟩ := hee
          exact ⟨_, prog_page_eeprom_bad cfg s h L t data rest hee hf ht, rfl, rfl, rfl, rfl,
            rfl⟩
    rw [if_neg h6] at hf
    by_cases h7 : ch = STK_READ_PAGE
    · subst h7
      simp only [if_true, beq_iff_eq] at hf
      obtain ⟨h, L, ty, rfl⟩ := List.length_eq_three.mp hf
      exact ⟨_, read_page_bad cfg s h L ty t rest ht, rfl, rfl, rfl, rfl, rfl⟩
    rw [if_neg h7] at hf
    simp only [beq_iff_eq, List.length_eq_zero] at hf
    subst hf
    by_cases h8 : ch = STK_READ_SIGN
    · subst h8
      exact ⟨_, read_sign_bad cfg s t rest ht, rfl, rfl, rfl, rfl, rfl⟩
    by_cases h9 : ch = STK_LEAVE_PROGMODE
    · subst h9
      exact ⟨_, leave_progmode_bad cfg s t rest ht, rfl, rfl, rfl, rfl, rfl⟩
    have hk : ch ∉ knownCommands := by
      simp [knownCommands, h1, h2, h3, h4, h5, h6, h7, h8, h9]
    exact ⟨_, unknown_command_bad cfg s ch t rest hk ht, rfl, rfl, rfl, rfl, by simp [h9]⟩

/-! ## Erase placement, address arithmetic and self-programming targets -/

/-- The copy loop issues page-fills only. -/
theorem fills_only_fill (buff : Nat → Byte) :
    ∀ (n bufPtr addrPtr : Nat) (e : Event), e ∈ fills buff n bufPtr addrPtr →
      ∃ z w, e = Event.fill z w := by
  intro n
  induction n with
  | zero => intro bufPtr addrPtr e he; simp [fills] at he
  | succ n ih =>
    intro bufPtr addrPtr e he
    simp only [fills, List.mem_cons] at he
    rcases he with he | he
    · exact ⟨_, _, he⟩
    · exact ih _ _ e he

theorem eeAddr_eq : ∀ (n a : Nat), a < 65536 → eeAddr n a = (a + n) % 65536 := by
  intro n
  induction n with
  | zero => intro a ha; simp [eeAddr, Nat.mod_eq_of_lt ha]
  | succ n ih =>
    intro a ha
    rw [eeAddr, ih _ (Nat.mod_lt _ (by decide))]
    omega

theorem eeReadOut_length (ee : Nat → Byte) : ∀ (n a : Nat), (eeReadOut ee n a).length = n := by
  intro n
  induction n with
  | zero => intro a; rfl
  | succ n ih => intro a; simp [eeReadOut, ih]

theorem noSpm_append (a b : List Event) (ha : noSpm a) (hb : noSpm b) : noSpm (a ++ b) := by
  intro e he
  rcases List.mem_append.mp he with h | h
  · exact ha e h
  · exact hb e h

theorem noSpm_rx (l : List Byte) : noSpm (l.map Event.rx) := by
  intro e he
  obtain ⟨b, _, rfl⟩ := List.mem_map.mp he
  rfl

theorem noSpm_tx (l : List Byte) : noSpm (l.map Event.tx) := by
  intro e he
  obtain ⟨b, _, rfl⟩ := List.mem_map.mp he
  rfl

theorem noSpm_eeWrites (buff : Nat → Byte) :
    ∀ (n addrPtr bufPtr : Nat), noSpm (eeWrites buff n addrPtr bufPtr) := by
  intro n
  induction n with
  | zero => intro _ _ e he; simp [eeWrites] at he
  | succ n ih =>
    intro addrPtr bufPtr e he
    simp only [eeWrites, List.mem_cons] at he
    rcases he with rfl | rfl | he
    · rfl
    · rfl
    · exact ih _ _ e he

theorem noSpm_eeReads (ee : Nat → Byte) : ∀ (n a : Nat), noSpm (eeReads ee n a) := by
  intro n
  induction n with
  | zero => intro _ e he; simp [eeReads] at he
  | succ n ih =>
    intro a e he
    simp only [eeReads, List.mem_cons] at he
    rcases he with rfl | rfl | he
    · rfl
    · rfl
    · exact ih _ e he

/-- The `i`-th page-fill of the copy loop is issued at `addrPtr + 2 i`
(modulo `2^16`). -/
theorem fills_target (buff : Nat → Byte) :
    ∀ (n bufPtr addrPtr : Nat) (e : Event), addrPtr < 65536 →
      e ∈ fills buff n bufPtr addrPtr →
      ∃ i w, i < n ∧ e = Event.fill ((addrPtr + 2 * i) % 65536) w := by
  intro n
  induction n with
  | zero => intro bufPtr addrPtr e _ he; simp [fills] at he
  | succ n ih =>
    intro bufPtr addrPtr e ha he
    simp only [fills, List.mem_cons] at he
    rcases he with rfl | he
    · exact ⟨0, buffWord buff bufPtr, by omega, by simp [Nat.mod_eq_of_lt ha]⟩
    · obtain ⟨i, w, hi, rfl⟩ := ih _ _ e (Nat.mod_lt _ (by decide)) he
      refine ⟨i + 1, w, by omega, ?_⟩
      congr 1
      omega

theorem noSpm_elim (cfg : Config) (s : State) (frame : List Byte) (evs : List Event)
    (h : noSpm evs) :
    ∀ e ∈ evs, ∀ z, spmTarget e = some z →
      flashProg cfg frame = true ∧ zAddr cfg s z < zAddr cfg s s.address + cfg.SPM_PAGESIZE := by
  intro e he z hz
  rw [h e he] at hz
  cases hz

theorem zAddr_mod_le (cfg : Config) (s : State) (a i : Nat) :
    zAddr cfg s ((a + i) % 65536) ≤ zAddr cfg s a + i := by
  unfold zAddr
  split <;> omega

/-- The operations of a flash PROG_PAGE target addresses below
Address + SPM_PAGESIZE (a page-fill may target an address below Address, when
the 16-bit `addrPtr` wraps). -/
theorem flash_prog_targets (cfg : Config) (s : State) (buff : Nat → Byte) (hw : s.wf)
    (hok : pageSizeOk cfg) (pre mid rr : List Event) (hpre : noSpm pre) (hmid : noSpm mid)
    (hrr : noSpm rr) (b1 b2 : Prop) [Decidable b1] [Decidable b2] :
    ∀ e ∈ pre ++ (if b1 then [Event.erase s.address] else []) ++ mid
              ++ (if b2 then [Event.erase s.address] else [])
              ++ [Event.rx CRC_EOP, Event.tx STK_INSYNC, Event.spmBusyWait]
              ++ fills buff (passes (cfg.SPM_PAGESIZE / 2 % 256)) 0 s.address
              ++ [Event.write s.address, Event.spmBusyWait] ++ rr,
      ∀ z, spmTarget e = some z → zAddr cfg s z < zAddr cfg s s.address + cfg.SPM_PAGESIZE := by
  obtain ⟨hps, h256, hev, _, _⟩ := page_facts cfg hok 0 (by decide) (Nat.zero_mod _)
  have hpass : passes (cfg.SPM_PAGESIZE / 2 % 256) = cfg.SPM_PAGESIZE / 2 := by
    unfold passes
    split <;> omega
  have hself : zAddr cfg s s.address < zAddr cfg s s.address + cfg.SPM_PAGESIZE := by omega
  intro e he z hz
  simp only [List.mem_append, List.mem_cons, List.mem_singleton, List.not_mem_nil,
    or_false] at he
  rcases he with ((((((he | he) | he) | he) | he) | he) | he) | he
  · rw [hpre e he] at hz; cases hz
  · split at he
    · simp only [List.mem_singleton] at he
      subst he
      simp only [spmTarget, Option.some.injEq] at hz
      subst hz
      exact hself
    · simp at he
  · rw [hmid e he] at hz; cases hz
  · split at he
    · simp only [List.mem_singleton] at he
      subst he
      simp only [spmTarget, Option.some.injEq] at hz
      subst hz
      exact hself
    · simp at he
  · rcases he with rfl | rfl | rfl <;> simp [spmTarget] at hz
  · obtain ⟨i, w, hi, rfl⟩ := fills_target buff _ 0 s.address e hw.1 he
    simp only [spmTarget, Option.some.injEq] at hz
    subst hz
    have := zAddr_mod_le cfg s s.address (2 * i)
    omega
  · rcases he with rfl | rfl
    · simp only [spmTarget, Option.some.injEq] at hz
      subst hz
      exact hself
    · simp [spmTarget] at hz
  · rw [hrr e he] at hz; cases hz

/-- Every well-framed command with the terminator `0x20` (stray memory types
apart) returns, consumes its bytes, keeps the registers within their width,
and issues self-programming operations only if it is a flash PROG_PAGE, and
then only at addresses below Address + SPM_PAGESIZE. -/
theorem framed_spm (cfg : Config) (s : State) (frame rest : List Byte) (hw : s.wf)
    (hok : pageSizeOk cfg) (hf : framed frame = true) (hs : strayType cfg frame = false) :
    ∃ (s1 : State) (evs : List Event),
      command cfg (feed s (frame ++ CRC_EOP :: rest)) = Res.ok () s1
      ∧ s1.input = rest ∧ s1.wf ∧ s1.trace = s.trace ++ evs
      ∧ ∀ e ∈ evs, ∀ z, spmTarget e = some z →
          flashProg cfg frame = true
          ∧ zAddr cfg s z < zAddr cfg s s.address + cfg.SPM_PAGESIZE := by
  cases frame with
  | nil => simp [framed] at hf
  | cons ch args =>
    simp only [framed] at hf
    by_cases h1 : ch = STK_GET_PARAMETER
    · subst h1
      simp only [if_true, beq_iff_eq] at hf
      obtain ⟨p, rfl⟩ := List.length_eq_one.mp hf
      refine ⟨_, _, get_parameter_ok cfg s p rest, rfl, hw, rfl, noSpm_elim cfg s _ _ ?_⟩
      simp [noSpm, spmTarget]
    rw [if_neg h1] at hf
    by_cases h2 : ch = STK_SET_DEVICE
    · subst h2
      simp only [if_true, beq_iff_eq] at hf
      refine ⟨_, [Event.rx STK_SET_DEVICE] ++ args.map Event.rx
                  ++ [Event.rx CRC_EOP, Event.tx STK_INSYNC, Event.tx STK_OK],
        command_getNch cfg s STK_SET_DEVICE 20 args rest ?_ (by decide) (by decide) hf,
        rfl, hw, by simp, noSpm_elim cfg s _ _ ?_⟩
      · simp [dispatch, STK_SET_DEVICE, STK_GET_PARAMETER]
      · exact noSpm_append _ _ (noSpm_append _ _ (by simp [noSpm, spmTarget]) (noSpm_rx _))
          (by simp [noSpm, spmTarget])
    rw [if_neg h2] at hf
    by_cases h3 : ch = STK_SET_DEVICE_EXT
    · subst h3
      simp only [if_true, beq_iff_eq] at hf
      refine ⟨_, [Event.rx STK_SET_DEVICE_EXT] ++ args.map Event.rx
                  ++ [Event.rx CRC_EOP, Event.tx STK_INSYNC, Event.tx STK_OK],
        command_getNch cfg s STK_SET_DEVICE_EXT 5 args rest ?_ (by decide) (by decide) hf,
        rfl, hw, by simp, noSpm_elim cfg s _ _ ?_⟩
      · simp [dispatch, STK_SET_DEVICE_EXT, STK_SET_DEVICE, STK_GET_PARAMETER]
      · exact noSpm_append _ _ (noSpm_append _ _ (by simp [noSpm, spmTarget]) (noSpm_rx _))
          (by simp [noSpm, spmTarget])
    rw [if_neg h3] at hf
    by_cases h4 : ch = STK_LOAD_ADDRESS
    · subst h4
      simp only [if_true, beq_iff_eq] at hf
      obtain ⟨lo, hi, rfl⟩ := List.length_eq_two.mp hf
      refine ⟨_, _, load_address_ok cfg s lo hi rest, rfl, ?_, rfl, noSpm_elim cfg s _ _ ?_⟩
      · refine ⟨Nat.mod_lt _ (by decide), ?_⟩
        show (if cfg.RAMPZ = true then _ else s.rampz) < 256
        split
        · split <;> decide
        · exact hw.2
      · simp [noSpm, spmTarget]
    rw [if_neg h4] at hf
    by_cases h5 : ch = STK_UNIVERSAL
    · subst h5
      simp only [if_true, beq_iff_eq] at hf
      refine ⟨_, [Event.rx STK_UNIVERSAL] ++ args.map Event.rx
                  ++ [Event.rx CRC_EOP, Event.tx STK_INSYNC, Event.tx 0x00, Event.tx STK_OK],
        universal_ok cfg s args rest hf, rfl, hw, by simp, noSpm_elim cfg s _ _ ?_⟩
      exact noSpm_append _ _ (noSpm_append _ _ (by simp [noSpm, spmTarget]) (noSpm_rx _))
          (by simp [noSpm, spmTarget])
    rw [if_neg h5] at hf
    by_cases h6 : ch = STK_PROG_PAGE
    · subst h6
      simp only [if_true] at hf
      match args, hf, hs with
      | h :: L :: ty :: data, hf, hs =>
        simp only [beq_iff_eq] at hf
        by_cases hty : flashType cfg ty = true
        · refine ⟨_, [Event.rx STK_PROG_PAGE, Event.rx h, Event.rx L, Event.rx ty]
              ++ (if s.address < cfg.NRWWSTART then [Event.erase s.address] else [])
              ++ data.map Event.rx
              ++ (if cfg.NRWWSTART ≤ s.address then [Event.erase s.address] else [])
              ++ [Event.rx CRC_EOP, Event.tx STK_INSYNC, Event.spmBusyWait]
              ++ fills (stored data 0 s.buff) (passes (cfg.SPM_PAGESIZE / 2 % 256)) 0 s.address
              ++ [Event.write s.address, Event.spmBusyWait]
              ++ ((if cfg.RWWSRE then [Event.rwwEnable] else []) ++ [Event.tx STK_OK]),
            prog_page_flash_ok cfg s h L ty data rest hty hf, rfl, hw, by simp, ?_⟩
          intro e he z hz
          refine ⟨by simp [flashProg, hty], ?_⟩
          refine flash_prog_targets cfg s _ hw hok _ _ _ ?_ (noSpm_rx data) ?_ _ _ e he z hz
          · simp [noSpm, spmTarget]
          · cases cfg.RWWSRE <;> simp [noSpm, spmTarget]
        · have hee : cfg.SUPPORT_EEPROM = true ∧ ty = 0x45 := by
            cases hse : cfg.SUPPORT_EEPROM
            · simp [flashType, hse] at hty
            · have hF : ty ≠ 0x46 := by simpa [flashType, hse] using hty
              simpa [strayType, hse, hF] using hs
          obtain ⟨hee, rfl⟩ := hee
          refine ⟨_, [Event.rx STK_PROG_PAGE, Event.rx h, Event.rx L, Event.rx 0x45]
              ++ data.map Event.rx
              ++ [Event.rx CRC_EOP, Event.tx STK_INSYNC]
              ++ eeWrites (stored data 0 s.buff) (data.length % 256) s.address 0
              ++ [Event.tx STK_OK],
            prog_page_eeprom_ok cfg s h L data rest hee hf, rfl, hw, by simp,
            noSpm_elim cfg s _ _ ?_⟩
          exact noSpm_append _ _ (noSpm_append _ _ (noSpm_append _ _ (noSpm_append _ _
            (by simp [noSpm, spmTarget]) (noSpm_rx _)) (by simp [noSpm, spmTarget]))
            (noSpm_eeWrites _ _ _ _)) (by simp [noSpm, spmTarget])
    rw [if_neg h6] at hf
    by_cases h7 : ch = STK_READ_PAGE
    · subst h7
      simp only [if_true, beq_iff_eq] at hf
      obtain ⟨h, L, ty, rfl⟩ := List.length_eq_three.mp hf
      by_cases hty : flashType cfg ty = true
      · refine ⟨_, [Event.rx STK_READ_PAGE, Event.rx h, Event.rx L, Event.rx ty,
                    Event.rx CRC_EOP, Event.tx STK_INSYNC]
              ++ ((List.range (passes L.val)).map (fun i => s.flash (flashAddr cfg s i))).map
                    Event.tx
              ++ [Event.tx STK_OK],
          read_page_flash_ok cfg s hw h L ty rest hty, rfl, advance_wf cfg s _ hw,
          by simp [advance, List.map_map, Function.comp_def], noSpm_elim cfg s _ _ ?_⟩
        exact noSpm_append _ _ (noSpm_append _ _ (by simp [noSpm, spmTarget]) (noSpm_tx _))
          (by simp [noSpm, spmTarget])
      · by_cases hE : ty = 0x45
        · subst hE
          have hee : cfg.SUPPORT_EEPROM = true := by
            simp only [flashType, Bool.or_eq_true, Bool.not_eq_true', decide_eq_true_eq,
              not_or] at hty
            simpa using hty.1
          refine ⟨_, [Event.rx STK_READ_PAGE, Event.rx h, Event.rx L, Event.rx 0x45,
                      Event.rx CRC_EOP, Event.tx STK_INSYNC]
                ++ eeReads s.eeprom L.val s.address
                ++ [Event.tx STK_OK],
            read_page_eeprom_ok cfg s h L rest hee, rfl, ?_, by simp, noSpm_elim cfg s _ _ ?_⟩
          · refine ⟨?_, hw.2⟩
            show eeAddr L.val s.address < 65536
            rw [eeAddr_eq _ _ hw.1]
            exact Nat.mod_lt _ (by decide)
          · exact noSpm_append _ _ (noSpm_append _ _ (by simp [noSpm, spmTarget])
              (noSpm_eeReads _ _ _)) (by simp [noSpm, spmTarget])
        · refine ⟨_, _, read_page_other_ok cfg s h L ty rest (by simpa using hty) hE, rfl, hw,
            rfl, noSpm_elim cfg s _ _ ?_⟩
          simp [noSpm, spmTarget]
    rw [if_neg h7] at hf
    simp only [beq_iff_eq, List.length_eq_zero] at hf
    subst hf
    by_cases h8 : ch = STK_READ_SIGN
    · subst h8
      refine ⟨_, _, read_sign_ok cfg s rest, rfl, hw, rfl, noSpm_elim cfg s _ _ ?_⟩
      simp [noSpm, spmTarget]
    by_cases h9 : ch = STK_LEAVE_PROGMODE
    · subst h9
      refine ⟨_, _, leave_progmode_ok cfg s rest, rfl, hw, rfl, noSpm_elim cfg s _ _ ?_⟩
      simp [noSpm, spmTarget]
    have hk : ch ∉ knownCommands := by
      simp [knownCommands, h1, h2, h3, h4, h5, h6, h7, h8, h9]
    refine ⟨_, _, unknown_command_ok cfg s ch rest hk, rfl, hw, rfl, noSpm_elim cfg s _ _ ?_⟩
    simp [noSpm, spmTarget]

theorem commands_succ (cfg : Config) (n : Nat) (s : State) :
    commands cfg (n + 1) s = match command cfg s with
      | Res.ok _ s1 => commands cfg n s1
      | Res.hang s1 => Res.hang s1
      | Res.starve s1 => Res.starve s1 := by
  rw [commands, bind_apply]
  cases command cfg s <;> rfl

theorem commands_snoc (cfg : Config) :
    ∀ (k : Nat) (s : State),
      commands cfg (k + 1) s = match commands cfg k s with
        | Res.ok _ s1 => command cfg s1
        | Res.hang s1 => Res.hang s1
        | Res.starve s1 => Res.starve s1 := by
  intro k
  induction k with
  | zero =>
    intro s
    simp only [commands, bind_apply, pure_apply]
    cases command cfg s <;> rfl
  | succ k ih =>
    intro s
    rw [commands_succ cfg (k + 1) s, commands_succ cfg k s]
    cases command cfg s with
    | ok a s1 => exact ih s1
    | hang s1 => rfl
    | starve s1 => rfl

/-- A sequence of accepted commands is processed command by command: after
`k` of them the engine is at the start of the rest of the stream. -/
theorem accepted_prefix (cfg : Config) (rest : List Byte) (hok : pageSizeOk cfg) :
    ∀ (k : Nat) (frames : List (List Byte)) (s : State), s.wf →
      (∀ f ∈ frames, framed f = true ∧ strayType cfg f = false) → k ≤ frames.length →
      ∃ sk : State, commands cfg k (feed s (accepted frames ++ rest)) = Res.ok () sk
        ∧ sk.wf ∧ sk.input = accepted (frames.drop k) ++ rest := by
  intro k
  induction k with
  | zero =>
    intro frames s hw _ _
    exact ⟨feed s (accepted frames ++ rest), rfl, hw, rfl⟩
  | succ k ih =>
    intro frames s hw hf hk
    cases frames with
    | nil => simp at hk
    | cons f fs =>
      obtain ⟨s1, evs, hc, hin, hw1, _, _⟩ :=
        framed_spm cfg s f (accepted fs ++ rest) hw hok (hf f (List.mem_cons_self _ _)).1
          (hf f (List.mem_cons_self _ _)).2
      have hfs : ∀ g ∈ fs, framed g = true ∧ strayType cfg g = false :=
        fun g hg => hf g (List.mem_cons_of_mem _ hg)
      obtain ⟨sk, hck, hwk, hink⟩ := ih fs s1 hw1 hfs (by simpa using hk)
      refine ⟨sk, ?_, hwk, by simpa using hink⟩
      have heq : accepted (f :: fs) ++ rest = f ++ CRC_EOP :: (accepted fs ++ rest) := by
        simp [accepted]
      rw [heq, commands_succ_ok cfg k _ s1 hc, ← feed_self s1 _ hin]
      exact hck

/-- The operations of command number `k` of an accepted sequence, and the
state it starts in. -/
theorem accepted_step (cfg : Config) (rest : List Byte) (hok : pageSizeOk cfg)
    (frames : List (List Byte)) (s : State) (hw : s.wf)
    (hf : ∀ f ∈ frames, framed f = true ∧ strayType cfg f = false)
    (k : Nat) (hk : k < frames.length) :
    ∀ e ∈ issued cfg s (accepted frames ++ rest) k, ∀ z, spmTarget e = some z →
      flashProg cfg (frames.get ⟨k, hk⟩) = true
      ∧ zAddr cfg (stateAfter cfg s (accepted frames ++ rest) k) z
          < zAddr cfg (stateAfter cfg s (accepted frames ++ rest) k)
              (stateAfter cfg s (accepted frames ++ rest) k).address + cfg.SPM_PAGESIZE := by
  obtain ⟨sk, hck, hwk, hink⟩ := accepted_prefix cfg rest hok k frames s hw hf (by omega)
  have hdrop : frames.drop k = frames.get ⟨k, hk⟩ :: frames.drop (k + 1) := by
    exact List.drop_eq_getElem_cons hk
  rw [hdrop] at hink
  have hin2 : sk.input = frames.get ⟨k, hk⟩ ++ CRC_EOP :: (accepted (frames.drop (k + 1)) ++ rest) := by
    rw [hink]
    simp [accepted]
  obtain ⟨s1, evs, hc, _, _, htr, hev⟩ :=
    framed_spm cfg sk (frames.get ⟨k, hk⟩) (accepted (frames.drop (k + 1)) ++ rest) hwk hok
      (hf _ (List.get_mem _ _ _)).1 (hf _ (List.get_mem _ _ _)).2
  rw [← hin2, feed_self sk _ rfl] at hc
  have hk1 : commands cfg (k + 1) (feed s (accepted frames ++ rest)) = Res.ok () s1 := by
    rw [commands_snoc, hck]
    exact hc
  have hs0 : stateAfter cfg s (accepted frames ++ rest) k = sk := by
    simp [stateAfter, hck, Res.state]
  have hs1 : stateAfter cfg s (accepted frames ++ rest) (k + 1) = s1 := by
    simp [stateAfter, hk1, Res.state]
  have hiss : issued cfg s (accepted frames ++ rest) k = evs := by
    simp [issued, hs0, hs1, htr]
  rw [hiss, hs0]
  exact hev

/-! ## Radio receive: lemmas -/

theorem radio_getch_serve (fifo : List Packet) (v : Radio.Rx) (h : v.pkt_len ≠ 0) :
    Radio.getch fifo v = some ((Radio.takeByte v).1, (Radio.takeByte v).2, fifo) := by
  cases fifo <;> simp [Radio.getch, h]

theorem radio_getch_duplicate (v : Radio.Rx) (q : Byte) (payload : List Byte)
    (more : List Packet) (hidle : v.pkt_len = 0) (hseq : v.seqn = q) :
    Radio.getch ((q :: payload) :: more) v
      = Radio.getch more
          { v with wdr := v.wdr + 1,
                   pkt_buf := (Radio.nrf24_rx_read (q :: payload) v.pkt_buf).1,
                   pkt_start := 1, pkt_len := 0 } := by
  have h0 : (Radio.nrf24_rx_read (q :: payload) v.pkt_buf).1 0 = v.seqn := by
    simp [Radio.nrf24_rx_read, hseq]
  rw [Radio.getch]
  simp only [hidle, ne_eq, not_true_eq_false, if_false]
  by_cases hl : (Radio.nrf24_rx_read (q :: payload) v.pkt_buf).2 = 0
  · simp only [hl, if_true]
  · simp only [hl, if_false, h0, if_true]

theorem radio_getch_new (v : Radio.Rx) (r b : Byte) (pl : List Byte) (more : List Packet)
    (hidle : v.pkt_len = 0) (hseq : v.seqn ≠ r) (hlen : pl.length < 31) :
    Radio.getch ((r :: b :: pl) :: more) v
      = some (b, { v with wdr := v.wdr + 1,
                          pkt_buf := (Radio.nrf24_rx_read (r :: b :: pl) v.pkt_buf).1,
                          pkt_start := 2, pkt_len := pl.length, seqn := r }, more) := by
  have h0 : (Radio.nrf24_rx_read (r :: b :: pl) v.pkt_buf).1 0 = r := by
    simp [Radio.nrf24_rx_read]
  have h1 : (Radio.nrf24_rx_read (r :: b :: pl) v.pkt_buf).1 1 = b := by
    simp [Radio.nrf24_rx_read]
  have h2 : (Radio.nrf24_rx_read (r :: b :: pl) v.pkt_buf).2 = pl.length + 2 := by
    simp only [Radio.nrf24_rx_read, List.length_cons]
    omega
  have hne : ¬ r = v.seqn := fun h => hseq h.symm
  rw [Radio.getch]
  simp only [hidle, ne_eq, not_true_eq_false, if_false, h2, h0, hne, Radio.takeByte, h1]
  have e1 : ¬ pl.length + 2 = 0 := by omega
  have e2 : ((pl.length + 2 + 255) % 256 + 255) % 256 = pl.length := by omega
  simp [e1, e2]

theorem radio_serve_all (fifo : List Packet) :
    ∀ (k : Nat) (v : Radio.Rx), v.pkt_len = k → v.pkt_start + k < 256 →
      Radio.getchN k fifo v
        = some ((List.range k).map (fun i => v.pkt_buf (v.pkt_start + i)),
                { v with pkt_start := v.pkt_start + k, pkt_len := 0 }, fifo) := by
  intro k
  induction k with
  | zero =>
    intro v hk _
    cases v
    simp only at hk
    subst hk
    simp [Radio.getchN]
  | succ k ih =>
    intro v hk hb
    have hne : v.pkt_len ≠ 0 := by omega
    have e1 : (v.pkt_start + 1) % 256 = v.pkt_start + 1 := by omega
    have e2 : (v.pkt_len + 255) % 256 = k := by omega
    rw [Radio.getchN, radio_getch_serve fifo v hne]
    simp only [Radio.takeByte, e1, e2]
    rw [ih _ rfl (by simp only; omega)]
    simp only [List.range_succ_eq_map, List.map_cons, List.map_map, Nat.add_zero]
    refine congrArg some (Prod.ext ?_ (Prod.ext ?_ rfl))
    · simp only [List.cons.injEq, true_and]
      apply List.map_congr_left
      intro i _
      simp only [Function.comp, Nat.succ_eq_add_one]
      congr 1
      omega
    · simp only
      congr 1
      omega

theorem radio_read_payload (r b : Byte) (pl : List Byte) (buf : Nat → Byte) :
    (List.range pl.length).map (fun i => (Radio.nrf24_rx_read (r :: b :: pl) buf).1 (2 + i)) = pl := by
  apply List.ext_getElem
  · simp
  · intro i h1 h2
    simp only [List.length_map, List.length_range] at h1
    simp only [List.getElem_map, List.getElem_range, Radio.nrf24_rx_read, List.length_cons]
    have hlt : 2 + i < pl.length + 1 + 1 := by omega
    rw [if_pos hlt]
    have : 2 + i = i + 1 + 1 := by omega
    rw [this]
    simp [List.getD_cons_succ, List.getElem?_eq_getElem h2]

/-- A packet with a new sequence byte and at least one payload byte: the
payload bytes are returned by the next calls of `getch`, in packet order, and
the buffer is then empty, so that the call after them reads the radio again. -/
theorem radio_new_packet_served (v : Radio.Rx) (r b : Byte) (pl : List Byte)
    (more : List Packet) (hidle : v.pkt_len = 0) (hseq : v.seqn ≠ r) (hlen : pl.length < 31) :
    Radio.getchN (pl.length + 1) ((r :: b :: pl) :: more) v
      = some (b :: pl,
              { v with wdr := v.wdr + 1,
                       pkt_buf := (Radio.nrf24_rx_read (r :: b :: pl) v.pkt_buf).1,
                       pkt_start := 2 + pl.length, pkt_len := 0, seqn := r }, more) := by
  rw [Radio.getchN, radio_getch_new v r b pl more hidle hseq hlen]
  simp only
  rw [radio_serve_all more pl.length _ rfl (by simp only; omega)]
  simp only [radio_read_payload]

theorem radio_agree_idle (fifo : List Packet) :
    ∀ (v w : Radio.Rx), v.pkt_len = 0 → Radio.agree v w → Radio.payloaded fifo →
      (Radio.getch fifo v = none ∧ Radio.getch fifo w = none)
      ∨ ∃ b v1 w1 f1, Radio.getch fifo v = some (b, v1, f1)
          ∧ Radio.getch fifo w = some (b, w1, f1) ∧ Radio.agree v1 w1 ∧ Radio.payloaded f1 := by
  induction fifo with
  | nil =>
    intro v w hv ha _
    have hw : w.pkt_len = 0 := by rw [← ha.1]; exact hv
    left
    simp [Radio.getch, hv, hw]
  | cons p fifo ih =>
    intro v w hv ha hp
    have hw : w.pkt_len = 0 := by rw [← ha.1]; exact hv
    have hp1 := hp p (List.mem_cons_self _ _)
    have hp2 : Radio.payloaded fifo := fun x hx => hp x (List.mem_cons_of_mem _ hx)
    obtain ⟨r, b, pl, rfl⟩ : ∃ r b pl, p = r :: b :: pl := by
      match p, hp1 with
      | r :: b :: pl, _ => exact ⟨r, b, pl, rfl⟩
    have hlen : pl.length < 31 := by
      have := hp1.2
      simp only [List.length_cons] at this
      omega
    by_cases hs : v.seqn = r
    · have hs2 : w.seqn = r := by rw [← ha.2.1]; exact hs
      rw [radio_getch_duplicate v r (b :: pl) fifo hv hs,
        radio_getch_duplicate w r (b :: pl) fifo hw hs2]
      exact ih _ _ rfl ⟨rfl, ha.2.1, fun h => absurd rfl h⟩ hp2
    · have hs2 : w.seqn ≠ r := by rw [← ha.2.1]; exact hs
      right
      refine ⟨b, _, _, fifo, radio_getch_new v r b pl fifo hv hs hlen,
        radio_getch_new w r b pl fifo hw hs2 hlen, ⟨rfl, rfl, ?_⟩, hp2⟩
      intro _
      refine ⟨rfl, by simp only; omega, ?_⟩
      intro i hi
      simp only at hi
      have hlt : 2 + i < (r :: b :: pl).length := by
        simp only [List.length_cons]
        omega
      simp only [Radio.nrf24_rx_read, hlt, if_true]

theorem radio_agree_step (fifo : List Packet) (v w : Radio.Rx) (ha : Radio.agree v w)
    (hp : Radio.payloaded fifo) :
    (Radio.getch fifo v = none ∧ Radio.getch fifo w = none)
    ∨ ∃ b v1 w1 f1, Radio.getch fifo v = some (b, v1, f1)
        ∧ Radio.getch fifo w = some (b, w1, f1) ∧ Radio.agree v1 w1 ∧ Radio.payloaded f1 := by
  by_cases hv : v.pkt_len = 0
  · exact radio_agree_idle fifo v w hv ha hp
  · have hw : w.pkt_len ≠ 0 := by rw [← ha.1]; exact hv
    obtain ⟨hst, hb, hbuf⟩ := ha.2.2 hv
    right
    refine ⟨(Radio.takeByte v).1, (Radio.takeByte v).2, (Radio.takeByte w).2, fifo,
      radio_getch_serve fifo v hv, ?_, ?_, hp⟩
    · rw [radio_getch_serve fifo w hw]
      have h0 := hbuf 0 (by omega)
      simp only [Nat.add_zero] at h0
      rw [hst] at h0
      simp only [Radio.takeByte, h0, hst]
    · have hl := ha.1
      refine ⟨by simp only [Radio.takeByte, hl], ha.2.1, ?_⟩
      intro hne
      simp only [Radio.takeByte] at hne ⊢
      have e1 : (v.pkt_start + 1) % 256 = v.pkt_start + 1 := by omega
      have e2 : (v.pkt_len + 255) % 256 = v.pkt_len - 1 := by omega
      refine ⟨by rw [hst], by omega, ?_⟩
      intro i hi
      rw [e1]
      have := hbuf (1 + i) (by omega)
      rw [← Nat.add_assoc] at this
      exact this

theorem radio_agree_run :
    ∀ (n : Nat) (fifo : List Packet) (v w : Radio.Rx), Radio.agree v w → Radio.payloaded fifo →
      Radio.returned (Radio.getchN n fifo v) = Radio.returned (Radio.getchN n fifo w) := by
  intro n
  induction n with
  | zero =>
    intro fifo v w _ _
    rfl
  | succ n ih =>
    intro fifo v w ha hp
    rcases radio_agree_step fifo v w ha hp with ⟨h1, h2⟩ | ⟨b, v1, w1, f1, h1, h2, ha1, hp1⟩
    · simp [Radio.getchN, h1, h2]
    · have := ih f1 v1 w1 ha1 hp1
      simp only [Radio.getchN, h1, h2]
      cases h3 : Radio.getchN n f1 v1 <;> cases h4 : Radio.getchN n f1 w1 <;>
        simp [Radio.returned, h3, h4] at this ⊢
      exact this

/-- A packet whose leading byte equals the recorded sequence byte: the call
goes on exactly as on the packets that follow, from static variables in which
no byte is left to serve and the recorded sequence byte is unchanged; with no
packet following it returns nothing and keeps polling; and when the packets
that follow carry a sequence byte and 1 to 31 payload bytes, the bytes returned
to the caller by any number of `getch` calls are the ones returned had the
packet never arrived. -/
theorem radio_duplicate_skipped (v : Radio.Rx) (q : Byte) (payload : List Byte)
    (more : List Packet) (hidle : v.pkt_len = 0) (hseq : v.seqn = q) :
    Radio.getch ((q :: payload) :: more) v
      = Radio.getch more
          { v with wdr := v.wdr + 1,
                   pkt_buf := (Radio.nrf24_rx_read (q :: payload) v.pkt_buf).1,
                   pkt_start := 1, pkt_len := 0 }
    ∧ Radio.getch [q :: payload] v = none
    ∧ ∀ n, Radio.payloaded more →
        Radio.returned (Radio.getchN n ((q :: payload) :: more) v)
          = Radio.returned (Radio.getchN n more v) := by
  refine ⟨radio_getch_duplicate v q payload more hidle hseq, ?_, ?_⟩
  · rw [radio_getch_duplicate v q payload [] hidle hseq]
    simp [Radio.getch]
  · intro n hp
    cases n with
    | zero => rfl
    | succ n =>
      have h1 : Radio.getchN (n + 1) ((q :: payload) :: more) v
          = Radio.getchN (n + 1) more
              { v with wdr := v.wdr + 1,
                       pkt_buf := (Radio.nrf24_rx_read (q :: payload) v.pkt_buf).1,
                       pkt_start := 1, pkt_len := 0 } := by
        rw [Radio.getchN, radio_getch_duplicate v q payload more hidle hseq, Radio.getchN]
      rw [h1]
      apply radio_agree_run
      · exact ⟨hidle.symm, rfl, fun h => absurd rfl h⟩
      · exact hp

/-! ## Radio transmit: lemmas -/

theorem radio_retry_keeps (ack : Nat → Bool) :
    ∀ (fuel cnt : Nat) (t : Radio.Tx),
      (Radio.retry ack fuel cnt t).pkt_len = t.pkt_len
      ∧ (Radio.retry ack fuel cnt t).pkt_buf = t.pkt_buf := by
  intro fuel
  induction fuel with
  | zero =>
    intro cnt t
    exact ⟨rfl, rfl⟩
  | succ fuel ih =>
    intro cnt t
    rw [Radio.retry]
    simp only
    split_ifs with h1 h2
    · exact ⟨rfl, rfl⟩
    · exact ⟨rfl, rfl⟩
    · exact ⟨(ih _ _).1, (ih _ _).2⟩

theorem radio_retry_all_fail (ack : Nat → Bool) (hno : ∀ k, ack k = false) :
    ∀ (fuel cnt : Nat) (t : Radio.Tx), 0 < cnt → cnt < 256 → cnt ≤ fuel →
      (Radio.retry ack fuel cnt t).log = t.log ++ Radio.attempts (cnt - 1) t.packet
      ∧ (Radio.retry ack fuel cnt t).waits = t.waits + (cnt - 1) := by
  intro fuel
  induction fuel with
  | zero =>
    intro cnt t h0 _ hf
    omega
  | succ fuel ih =>
    intro cnt t h0 h1 hf
    have e : (cnt + 255) % 256 = cnt - 1 := by omega
    rw [Radio.retry]
    simp only [e, hno]
    by_cases hc : cnt - 1 = 0
    · simp [hc, Radio.attempts]
    · obtain ⟨m, hm⟩ : ∃ m, cnt - 1 = m + 1 := ⟨cnt - 2, by omega⟩
      rw [if_neg hc]
      simp only [Bool.false_eq_true, if_false]
      obtain ⟨hl, hw⟩ := ih (cnt - 1)
        { pkt_len := t.pkt_len, pkt_buf := t.pkt_buf, waits := t.waits + 1,
          log := t.log ++ [Radio.TxEvent.delay 4]
                  ++ [Radio.TxEvent.tx (Radio.Tx.packet
                        { t with log := t.log ++ [Radio.TxEvent.delay 4] })] }
        (by omega) (by omega) (by omega)
      refine ⟨?_, ?_⟩
      · rw [hl, hm]
        simp [Radio.attempts, Radio.Tx.packet]
      · rw [hw]
        simp only
        omega

theorem radio_retry_first_ack (ack : Nat → Bool) :
    ∀ (k fuel cnt : Nat) (t : Radio.Tx), k + 1 < cnt → cnt < 256 → cnt ≤ fuel →
      (∀ j, j < k → ack (t.waits + j) = false) → ack (t.waits + k) = true →
      (Radio.retry ack fuel cnt t).log = t.log ++ Radio.attempts (k + 1) t.packet := by
  intro k
  induction k with
  | zero =>
    intro fuel cnt t h0 h1 hf _ hk
    obtain ⟨fuel, rfl⟩ : ∃ f, fuel = f + 1 := ⟨fuel - 1, by omega⟩
    have e : (cnt + 255) % 256 = cnt - 1 := by omega
    have hc : ¬ cnt - 1 = 0 := by omega
    simp only [Nat.add_zero] at hk
    rw [Radio.retry]
    simp only [e, hc, if_false, hk, if_true]
    simp [Radio.attempts, Radio.Tx.packet]
  | succ k ih =>
    intro fuel cnt t h0 h1 hf hj hk
    obtain ⟨fuel, rfl⟩ : ∃ f, fuel = f + 1 := ⟨fuel - 1, by omega⟩
    have e : (cnt + 255) % 256 = cnt - 1 := by omega
    have hc : ¬ cnt - 1 = 0 := by omega
    have h0f : ack t.waits = false := by
      have := hj 0 (by omega)
      simpa using this
    rw [Radio.retry]
    simp only [e, hc, if_false, h0f, Bool.false_eq_true]
    rw [ih fuel (cnt - 1) _ (by omega) (by omega) (by omega)]
    · simp [Radio.attempts, Radio.Tx.packet]
    · intro j hjk
      have := hj (j + 1) (by omega)
      simp only
      rw [Nat.add_assoc, Nat.add_comm 1 j]
      exact this
    · simp only
      rw [Nat.add_assoc, Nat.add_comm 1 k]
      exact hk

theorem radio_putch_flush (ack : Nat → Bool) (ch : Byte) (t : Radio.Tx)
    (hfl : Radio.flushes ch t) :
    Radio.putch ack ch t
      = { Radio.retry ack 256 128
            { t with pkt_buf := fun i => if i = t.pkt_len then ch else t.pkt_buf i,
                     pkt_len := (t.pkt_len + 1) % 256 } with
          pkt_len := 1,
          pkt_buf := fun i =>
            if i = 0 then
              toByte (((Radio.retry ack 256 128
                { t with pkt_buf := fun i => if i = t.pkt_len then ch else t.pkt_buf i,
                         pkt_len := (t.pkt_len + 1) % 256 }).pkt_buf 0).val + 1)
            else
              (Radio.retry ack 256 128
                { t with pkt_buf := fun i => if i = t.pkt_len then ch else t.pkt_buf i,
                         pkt_len := (t.pkt_len + 1) % 256 }).pkt_buf i } := by
  have h : ch = STK_OK ∨ (t.pkt_len + 1) % 256 = Radio.pkt_max_len := hfl
  rw [Radio.putch]
  simp only [h, if_true]

theorem radio_sent_append (a b : List Radio.TxEvent) :
    Radio.sent (a ++ b) = Radio.sent a ++ Radio.sent b := by
  induction a with
  | nil => rfl
  | cons e a ih =>
    cases e with
    | delay ms => simpa [Radio.sent] using ih
    | tx p => simpa [Radio.sent] using ih

theorem radio_sent_attempts (p : Packet) :
    ∀ n, Radio.sent (Radio.attempts n p) = List.replicate n p := by
  intro n
  induction n with
  | zero => rfl
  | succ n ih => simp [Radio.attempts, Radio.sent, ih, List.replicate_succ]

/-- A flush on which no attempt is acknowledged. -/
theorem radio_flush_all_fail (ack : Nat → Bool) (ch : Byte) (t : Radio.Tx)
    (hfl : Radio.flushes ch t) (hno : ∀ k, ack k = false) :
    (Radio.putch ack ch t).log = t.log ++ Radio.attempts 127 (Radio.flushed ch t)
    ∧ (Radio.putch ack ch t).waits = t.waits + 127 := by
  rw [radio_putch_flush ack ch t hfl]
  obtain ⟨hl, hw⟩ := radio_retry_all_fail ack hno 256 128
    { t with pkt_buf := fun i => if i = t.pkt_len then ch else t.pkt_buf i,
             pkt_len := (t.pkt_len + 1) % 256 } (by omega) (by omega) (by omega)
  exact ⟨hl, hw⟩

/-! ## The copy loop as a list of page-fills -/

theorem buffWord_eq (buff : Nat → Byte) (i : Nat) :
    buffWord buff i = (buff i).val + 256 * (buff (i + 1)).val := by
  have h0 := (buff i).isLt
  have h1 := (buff (i + 1)).isLt
  have hor : (buff i).val ||| (buff (i + 1)).val <<< 8
      = 2 ^ 8 * (buff (i + 1)).val + (buff i).val := by
    rw [Nat.lor_comm, Nat.shiftLeft_eq, Nat.mul_comm]
    exact (Nat.mul_add_lt_is_or (by simp [h0]) _).symm
  rw [buffWord, hor]
  omega

theorem fills_eq_range (buff : Nat → Byte) :
    ∀ (n k a : Nat),
      fills buff n (2 * k) ((a + 2 * k) % 65536)
        = (List.range n).map (fun i => fillAt buff a (k + i)) := by
  intro n
  induction n with
  | zero => intro k a; rfl
  | succ n ih =>
    intro k a
    have e1 : ((a + 2 * k) % 65536 + 2) % 65536 = (a + 2 * (k + 1)) % 65536 := by omega
    rw [fills, e1, show 2 * k + 2 = 2 * (k + 1) by omega, ih (k + 1) a, List.range_succ_eq_map]
    simp only [List.map_cons, List.map_map, Nat.add_zero, fillAt, buffWord_eq]
    refine congrArg₂ List.cons rfl ?_
    apply List.map_congr_left
    intro i _
    simp only [Function.comp, Nat.succ_eq_add_one]
    rw [show k + 1 + i = k + (i + 1) by omega]

theorem fills_eq_fillAt (buff : Nat → Byte) (n a : Nat) (ha : a < 65536) :
    fills buff n 0 a = (List.range n).map (fillAt buff a) := by
  have h := fills_eq_range buff n 0 a
  simp only [Nat.mul_zero, Nat.add_zero, Nat.zero_add, Nat.mod_eq_of_lt ha] at h
  exact h

theorem passes_half_page (cfg : Config) (hok : pageSizeOk cfg) :
    passes (cfg.SPM_PAGESIZE / 2 % 256) = cfg.SPM_PAGESIZE / 2 := by
  have h : cfg.SPM_PAGESIZE ∈ [2, 4, 8, 16, 32, 64, 128, 256] := hok
  simp only [List.mem_cons, List.mem_singleton, List.not_mem_nil, or_false] at h
  rcases h with h | h | h | h | h | h | h | h <;> rw [h] <;> decide

/-- An EEPROM PROG_PAGE that stages 256 data bytes. -/
theorem prog_page_eeprom_256 (cfg : Config) (s : State) (h : Byte) (data rest : List Byte)
    (hee : cfg.SUPPORT_EEPROM = true) (hlen : data.length = 256) :
    (command cfg (feed s
        (STK_PROG_PAGE :: h :: 0x00 :: 0x45 :: (data ++ CRC_EOP :: rest)))).returned = true
    ∧ (command cfg (feed s
        (STK_PROG_PAGE :: h :: 0x00 :: 0x45 :: (data ++ CRC_EOP :: rest)))).state.input = rest
    ∧ (command cfg (feed s
        (STK_PROG_PAGE :: h :: 0x00 :: 0x45 :: (data ++ CRC_EOP :: rest)))).state.output
        = s.output ++ [STK_INSYNC, STK_OK]
    ∧ (command cfg (feed s
        (STK_PROG_PAGE :: h :: 0x00 :: 0x45 :: (data ++ CRC_EOP :: rest)))).state.buff
        = stored data 0 s.buff
    ∧ (command cfg (feed s
        (STK_PROG_PAGE :: h :: 0x00 :: 0x45 :: (data ++ CRC_EOP :: rest)))).state.eeprom
        = s.eeprom
    ∧ ∀ a v, Event.eeWrite a v ∉ List.drop s.trace.length
        (command cfg (feed s
          (STK_PROG_PAGE :: h :: 0x00 :: 0x45 :: (data ++ CRC_EOP :: rest)))).state.trace := by
  have hl : data.length = passes (0x00 : Byte).val := by
    rw [hlen]
    decide
  have h0 : data.length % 256 = 0 := by omega
  rw [prog_page_eeprom_ok cfg s h 0x00 data rest hee hl]
  simp only [Res.returned, Res.state, h0, eeStored, eeWrites, List.append_nil, List.append_assoc,
    List.drop_left, true_and]
  intro a v hm
  simp at hm

/-! ## The boot after a watchdog reset of the engine -/

theorem main_boot_fast (radio : Bool) (b : Boot) (h : fastPath b) :
    main_boot radio b
      = Started.app { b with MCUSR := 0, marker := 0, WDTCSR := WATCHDOG_OFF,
                             r2 := b.reset_cause } := by
  have h' : b.MCUSR &&& 2 ^ WDRF ≠ 0 ∧ b.marker = 0xdeadbeef := h
  simp only [main_boot]
  rw [if_pos h']
  rfl

theorem main_boot_slow (radio : Bool) (b : Boot) (h : ¬ fastPath b) :
    main_boot radio b
      = (if radio then Started.engine else Started.stuck)
          { b with MCUSR := 0, reset_cause := b.MCUSR, marker := MARKER_SENTINEL,
                   WDTCSR := WATCHDOG_2S } := by
  have h' : ¬ (b.MCUSR &&& 2 ^ WDRF ≠ 0 ∧ b.marker = 0xdeadbeef) := h
  simp only [main_boot]
  rw [if_neg h']
  cases radio <;> rfl

theorem watchdog_flag_latched (x : Nat) : (x ||| 2 ^ WDRF) &&& 2 ^ WDRF ≠ 0 := by
  intro h
  have h1 : ((x ||| 2 ^ WDRF) &&& 2 ^ WDRF).testBit WDRF = true := by
    simp [Nat.testBit_and, Nat.testBit_or, Nat.testBit_two_pow_self]
  rw [h] at h1
  simp at h1

theorem fastPath_resetFrom (s : State) (b : Boot) :
    fastPath (resetFrom s b) ↔ s.marker = MARKER_SENTINEL := by
  simp only [fastPath, resetFrom, watchdogFires]
  constructor
  · intro h
    exact h.2
  · intro h
    exact ⟨watchdog_flag_latched _, h⟩

/-- A PROG_PAGE of a `SUPPORT_EEPROM` build with a memory type that is neither
`'F'` nor `'E'`, in full: the data is staged, the terminator is not read. -/
theorem prog_page_stray_ok (cfg : Config) (s : State) (h L ty : Byte) (data rest : List Byte)
    (hee : cfg.SUPPORT_EEPROM = true) (hF : ty ≠ 0x46) (hE : ty ≠ 0x45)
    (hlen : data.length = passes L.val) :
    command cfg (feed s (STK_PROG_PAGE :: h :: L :: ty :: (data ++ rest)))
      = Res.ok ()
          { s with
            input := rest
            output := s.output ++ [STK_OK]
            marker := 0
            buff := stored data 0 s.buff
            trace := s.trace
              ++ [Event.rx STK_PROG_PAGE, Event.rx h, Event.rx L, Event.rx ty]
              ++ data.map Event.rx
              ++ [Event.tx STK_OK] } := by
  have hp : passes L.val ≤ 256 := by
    unfold passes; split <;> omega
  have hty : flashType cfg ty = false := by
    simp [flashType, hee, hF]
  simp only [command, bind_apply, getch, feed, modify_apply, dispatch_prog_page, progPage,
    current_apply, hty, if_true, pure_apply, Bool.false_eq_true, if_false, hE]
  rw [doWhileDec_eq_whileDec _ 256 L.val 0 L.isLt hp, ← hlen, stage_loop data 0 _ rest]
  · simp [putch_apply]
  · rfl

theorem stored_above (data : List Byte) :
    ∀ (j : Nat) (buff : Nat → Byte) (i : Nat), j + data.length ≤ i →
      stored data j buff i = buff i := by
  induction data with
  | nil => intro j buff i _; rfl
  | cons d ds ih =>
    intro j buff i hi
    simp only [List.length_cons] at hi
    rw [stored, ih (j + 1) _ i (by omega)]
    have : i ≠ j := by omega
    simp [this]

/-- The Page Buffer after any PROG_PAGE that finds its data bytes, and the
bytes left on the channel. -/
theorem prog_page_staged (cfg : Config) (s : State) (h L ty t : Byte) (data rest : List Byte)
    (hlen : data.length = passes L.val) :
    (command cfg (feed s
        (STK_PROG_PAGE :: h :: L :: ty :: (data ++ t :: rest)))).state.buff = stored data 0 s.buff
    ∧ (command cfg (feed s
        (STK_PROG_PAGE :: h :: L :: ty :: (data ++ t :: rest)))).state.input
        = (if strayType cfg (STK_PROG_PAGE :: h :: L :: ty :: data) = true then t :: rest
           else rest) := by
  by_cases hty : flashType cfg ty = true
  · have hs : strayType cfg (STK_PROG_PAGE :: h :: L :: ty :: data) = false := by
      simp only [flashType, Bool.or_eq_true, Bool.not_eq_true', decide_eq_true_eq] at hty
      rcases hty with hty | hty <;> simp [strayType, hty]
    rw [hs]
    by_cases ht : t = CRC_EOP
    · subst ht
      rw [prog_page_flash_ok cfg s h L ty data rest hty hlen]
      exact ⟨rfl, rfl⟩
    · rw [prog_page_flash_bad cfg s h L ty t data rest hty hlen ht]
      exact ⟨rfl, rfl⟩
  · have hee : cfg.SUPPORT_EEPROM = true := by
      cases he : cfg.SUPPORT_EEPROM
      · simp [flashType, he] at hty
      · rfl
    have hF : ty ≠ 0x46 := by
      intro hF
      simp [flashType, hF] at hty
    by_cases hE : ty = 0x45
    · subst hE
      have hs : strayType cfg (STK_PROG_PAGE :: h :: L :: 0x45 :: data) = false := by
        simp [strayType]
      rw [hs]
      by_cases ht : t = CRC_EOP
      · subst ht
        rw [prog_page_eeprom_ok cfg s h L data rest hee hlen]
        exact ⟨rfl, rfl⟩
      · rw [prog_page_eeprom_bad cfg s h L t data rest hee hlen ht]
        exact ⟨rfl, rfl⟩
    · have hs : strayType cfg (STK_PROG_PAGE :: h :: L :: ty :: data) = true := by
        simp [strayType, hee, hF, hE]
      rw [hs, prog_page_stray_ok cfg s h L ty data (t :: rest) hee hF hE hlen]
      exact ⟨rfl, rfl⟩

theorem spmOps_append (a b : List Event) : spmOps (a ++ b) = spmOps a ++ spmOps b := by
  simp [spmOps]

theorem spmOps_rx (l : List Byte) : spmOps (l.map Event.rx) = [] := by
  induction l with
  | nil => rfl
  | cons b l ih =>
    simp only [List.map_cons, spmOps, List.filter_cons, spmTarget, Option.isSome_none,
      Bool.false_eq_true, if_false]
    exact ih

/-! ## Radio transmit: the buffer bound -/

theorem radio_retry_log (ack : Nat → Bool) :
    ∀ (fuel cnt : Nat) (t : Radio.Tx), 0 < cnt → cnt < 256 → cnt ≤ fuel →
      ∃ k, k ≤ cnt - 1 ∧ (1 < cnt → 1 ≤ k)
        ∧ (Radio.retry ack fuel cnt t).log = t.log ++ Radio.attempts k t.packet := by
  intro fuel
  induction fuel with
  | zero =>
    intro cnt t h0 _ hf
    omega
  | succ fuel ih =>
    intro cnt t h0 h1 hf
    have e : (cnt + 255) % 256 = cnt - 1 := by omega
    rw [Radio.retry]
    simp only [e]
    by_cases hc : cnt - 1 = 0
    · refine ⟨0, by omega, by omega, ?_⟩
      simp [hc, Radio.attempts]
    · rw [if_neg hc]
      by_cases hak : ack t.waits = true
      · refine ⟨1, by omega, fun _ => Nat.le_refl 1, ?_⟩
        simp [hak, Radio.attempts, Radio.Tx.packet]
      · obtain ⟨k, hk1, _, hk3⟩ := ih (cnt - 1)
          { pkt_len := t.pkt_len, pkt_buf := t.pkt_buf, waits := t.waits + 1,
            log := t.log ++ [Radio.TxEvent.delay 4]
                    ++ [Radio.TxEvent.tx (Radio.Tx.packet
                          { t with log := t.log ++ [Radio.TxEvent.delay 4] })] }
          (by omega) (by omega) (by omega)
        refine ⟨k + 1, by omega, fun _ => by omega, ?_⟩
        simp only [hak, Bool.false_eq_true, if_false]
        rw [hk3]
        simp [Radio.attempts, Radio.Tx.packet]

theorem radio_putch_keep (ack : Nat → Bool) (ch : Byte) (t : Radio.Tx)
    (hfl : ¬ Radio.flushes ch t) :
    Radio.putch ack ch t
      = { t with pkt_buf := fun i => if i = t.pkt_len then ch else t.pkt_buf i,
                 pkt_len := (t.pkt_len + 1) % 256 } := by
  have h : ¬ (ch = STK_OK ∨ (t.pkt_len + 1) % 256 = Radio.pkt_max_len) := hfl
  rw [Radio.putch]
  simp only [h, if_false]

theorem radio_flushed_length (ch : Byte) (t : Radio.Tx) (h : t.pkt_len ≤ 31) :
    (Radio.flushed ch t).length = t.pkt_len + 1 := by
  simp only [Radio.flushed, Radio.Tx.packet, List.length_map, List.length_range]
  omega

theorem radio_flush_sent (ack : Nat → Bool) (ch : Byte) (t : Radio.Tx)
    (hfl : Radio.flushes ch t) :
    ∃ k, 1 ≤ k ∧ k ≤ 127
      ∧ Radio.sent (Radio.putch ack ch t).log
          = Radio.sent t.log ++ List.replicate k (Radio.flushed ch t) := by
  obtain ⟨k, hk1, hk2, hk3⟩ := radio_retry_log ack 256 128
    { t with pkt_buf := fun i => if i = t.pkt_len then ch else t.pkt_buf i,
             pkt_len := (t.pkt_len + 1) % 256 } (by omega) (by omega) (by omega)
  refine ⟨k, hk2 (by omega), by omega, ?_⟩
  rw [radio_putch_flush ack ch t hfl]
  simp only
  rw [hk3, radio_sent_append, radio_sent_attempts]
  rfl

theorem radio_putch_bounded (ack : Nat → Bool) (ch : Byte) (t : Radio.Tx)
    (hb : Radio.Tx.bounded t) : Radio.Tx.bounded (Radio.putch ack ch t) := by
  obtain ⟨hl, hs⟩ := hb
  by_cases hfl : Radio.flushes ch t
  · obtain ⟨k, _, _, hk⟩ := radio_flush_sent ack ch t hfl
    refine ⟨?_, ?_⟩
    · rw [radio_putch_flush ack ch t hfl]
      simp
    · intro p hp
      rw [hk] at hp
      rcases List.mem_append.mp hp with hp | hp
      · exact hs p hp
      · rw [(List.mem_replicate.mp hp).2, radio_flushed_length ch t hl]
        omega
  · have hne : ¬ (ch = STK_OK ∨ (t.pkt_len + 1) % 256 = Radio.pkt_max_len) := hfl
    rw [radio_putch_keep ack ch t hfl]
    refine ⟨?_, hs⟩
    simp only [Radio.pkt_max_len, not_or] at hne
    simp only
    omega

theorem radio_putchs_bounded (ack : Nat → Bool) :
    ∀ (bytes : List Byte) (t : Radio.Tx), Radio.Tx.bounded t →
      Radio.Tx.bounded (Radio.putchs ack bytes t) := by
  intro bytes
  induction bytes with
  | nil => intro t hb; exact hb
  | cons b bs ih =>
    intro t hb
    rw [Radio.putchs]
    exact ih _ (radio_putch_bounded ack b t hb)

theorem radio_init_bounded : Radio.Tx.bounded Radio.Tx.init := by
  refine ⟨by decide, ?_⟩
  intro p hp
  simp [Radio.Tx.init, Radio.sent] at hp

/-! ## Radio receive: the buffer bound -/

theorem radio_bounded_idle (fifo : List Packet) :
    ∀ (v : Radio.Rx), v.pkt_len = 0 → Radio.payloaded fifo →
      Radio.getch fifo v = none
      ∨ ∃ u f1, Radio.getch fifo v = some ((Radio.takeByte u).1, (Radio.takeByte u).2, f1)
          ∧ u.pkt_start = 1 ∧ 1 ≤ u.pkt_len ∧ u.pkt_len ≤ 31
          ∧ (∃ p ∈ fifo, u.pkt_len + 1 = p.length)
          ∧ Radio.payloaded f1 := by
  induction fifo with
  | nil =>
    intro v hv _
    left
    simp [Radio.getch, hv]
  | cons p fifo ih =>
    intro v hv hp
    have hp1 := hp p (List.mem_cons_self _ _)
    have hp2 : Radio.payloaded fifo := fun x hx => hp x (List.mem_cons_of_mem _ hx)
    obtain ⟨r, b, pl, rfl⟩ : ∃ r b pl, p = r :: b :: pl := by
      match p, hp1 with
      | r :: b :: pl, _ => exact ⟨r, b, pl, rfl⟩
    have hlen : pl.length < 31 := by
      have := hp1.2
      simp only [List.length_cons] at this
      omega
    by_cases hs : v.seqn = r
    · rw [radio_getch_duplicate v r (b :: pl) fifo hv hs]
      rcases ih { v with wdr := v.wdr + 1,
                         pkt_buf := (Radio.nrf24_rx_read (r :: b :: pl) v.pkt_buf).1,
                         pkt_start := 1, pkt_len := 0 } rfl hp2
        with h | ⟨u, f1, h1, h2, h3, h4, ⟨q, hq, hq2⟩, h6⟩
      · left
        exact h
      · right
        exact ⟨u, f1, h1, h2, h3, h4, ⟨q, List.mem_cons_of_mem _ hq, hq2⟩, h6⟩
    · right
      refine ⟨{ v with wdr := v.wdr + 1,
                       pkt_buf := (Radio.nrf24_rx_read (r :: b :: pl) v.pkt_buf).1,
                       pkt_start := 1, pkt_len := pl.length + 1, seqn := r }, fifo, ?_, rfl,
        by simp only; omega, by simp only; omega,
        ⟨r :: b :: pl, List.mem_cons_self _ _, by simp⟩, hp2⟩
      rw [radio_getch_new v r b pl fifo hv hs hlen]
      have e : (pl.length + 1 + 255) % 256 = pl.length := by omega
      simp [Radio.takeByte, Radio.nrf24_rx_read, e]

/-- One call of `getch` from bounded static variables, the radio holding
packets of 2 to 32 bytes: it waits, or it serves the byte at an index from 1 to
31 with at least one byte left to count down. -/
theorem radio_bounded_step (fifo : List Packet) (v : Radio.Rx) (hb : Radio.Rx.bounded v)
    (hp : Radio.payloaded fifo) :
    Radio.getch fifo v = none
    ∨ ∃ u f1, Radio.getch fifo v = some ((Radio.takeByte u).1, (Radio.takeByte u).2, f1)
        ∧ 1 ≤ u.pkt_start ∧ u.pkt_start ≤ 31 ∧ 1 ≤ u.pkt_len ∧ u.pkt_start + u.pkt_len ≤ 32
        ∧ (v.pkt_len ≠ 0 → u = v)
        ∧ (v.pkt_len = 0 → u.pkt_start = 1 ∧ ∃ p ∈ fifo, u.pkt_len + 1 = p.length)
        ∧ Radio.Rx.bounded (Radio.takeByte u).2 ∧ Radio.payloaded f1 := by
  have hnext : ∀ u : Radio.Rx, 1 ≤ u.pkt_start → 1 ≤ u.pkt_len → u.pkt_start + u.pkt_len ≤ 32 →
      Radio.Rx.bounded (Radio.takeByte u).2 := by
    intro u h1 h2 h3
    right
    simp only [Radio.takeByte]
    omega
  by_cases hv : v.pkt_len = 0
  · rcases radio_bounded_idle fifo v hv hp with h | ⟨u, f1, h1, h2, h3, h4, h5, h6⟩
    · left
      exact h
    · right
      exact ⟨u, f1, h1, by omega, by omega, h3, by omega, fun h => absurd hv h,
        fun _ => ⟨h2, h5⟩, hnext u (by omega) h3 (by omega), h6⟩
  · right
    rcases hb with hb | ⟨hb1, hb2⟩
    · exact absurd hb hv
    · exact ⟨v, fifo, radio_getch_serve fifo v hv, hb1, by omega, by omega, hb2, fun _ => rfl,
        fun h => absurd h hv, hnext v hb1 (by omega) hb2, hp⟩

theorem radio_bounded_run :
    ∀ (n : Nat) (fifo : List Packet) (v : Radio.Rx) (bs : List Byte) (v1 : Radio.Rx)
      (f1 : List Packet), Radio.Rx.bounded v → Radio.payloaded fifo →
      Radio.getchN n fifo v = some (bs, v1, f1) → Radio.Rx.bounded v1 ∧ Radio.payloaded f1 := by
  intro n
  induction n with
  | zero =>
    intro fifo v bs v1 f1 hb hp hrun
    simp only [Radio.getchN, Option.some.injEq, Prod.mk.injEq] at hrun
    obtain ⟨_, h2, h3⟩ := hrun
    subst h2
    subst h3
    exact ⟨hb, hp⟩
  | succ n ih =>
    intro fifo v bs v1 f1 hb hp hrun
    rcases radio_bounded_step fifo v hb hp with h | ⟨u, f2, h1, _, _, _, _, _, _, hb2, hp2⟩
    · simp [Radio.getchN, h] at hrun
    · simp only [Radio.getchN, h1] at hrun
      cases h3 : Radio.getchN n f2 (Radio.takeByte u).2 with
      | none => simp [h3] at hrun
      | some r =>
        obtain ⟨bs2, v2, f3⟩ := r
        simp only [h3, Option.some.injEq, Prod.mk.injEq] at hrun
        obtain ⟨_, h5, h6⟩ := hrun
        subst h5
        subst h6
        exact ih f2 _ bs2 _ _ hb2 hp2 h3

end Optiboot

namespace Optiboot

/-! # The claims -/

/-! ## C1: LOAD_ADDRESS -/

/-- C1, as stated, fails: the word address `0x8000` (`lo = 0x00`, `hi = 0x80`)
leaves Address at 0, while `((hi<<8)|lo) * 2` is `0x10000`. -/
theorem load_address_carry_lost :
    (command atmega328p (fresh [STK_LOAD_ADDRESS, 0x00, 0x80, CRC_EOP])).state.address = 0
      ∧ (command atmega328p (fresh [STK_LOAD_ADDRESS, 0x00, 0x80, CRC_EOP])).state.address
          ≠ (0x80 <<< 8 ||| 0x00) * 2 := by
  decide

/-- C1 (amended): for every pair of input bytes `(lo, hi)`, processing
LOAD_ADDRESS, `lo`, `hi` and the terminator `0x20` returns normally and leaves
Address equal to `((hi<<8)|lo) * 2` reduced modulo `2^16`. -/
theorem load_address_mod (cfg : Config) (s : State) (lo hi : Byte) (rest : List Byte) :
    (command cfg (feed s (STK_LOAD_ADDRESS :: lo :: hi :: CRC_EOP :: rest))).returned = true
      ∧ (command cfg (feed s (STK_LOAD_ADDRESS :: lo :: hi :: CRC_EOP :: rest))).state.address
        = ((hi.val <<< 8 ||| lo.val) * 2) % 65536 := by
  cases hr : cfg.RAMPZ <;>
  simp [command, dispatch, loadAddress, getch, verifySpace, putch, feed, STK_LOAD_ADDRESS,
    STK_GET_PARAMETER, STK_SET_DEVICE, STK_SET_DEVICE_EXT, CRC_EOP, hr, Res.state,
    Res.returned, word_shift]

/-! ## C2: write, then read back -/

/-- C2: round trip.  For every page-aligned Address and every payload `data` of
exactly `SPM_PAGESIZE` bytes, a flash PROG_PAGE carrying `data` with a correct
terminator, immediately followed by a flash READ_PAGE of the same length,
answers the write with INSYNC, OK and the read with INSYNC, the bytes of
`data` in order, OK; both commands are consumed in full. -/
theorem prog_read_round_trip (cfg : Config) (s : State) (h1 h2 ty : Byte)
    (data rest : List Byte)
    (hok : pageSizeOk cfg) (hs : s.wf) (hal : s.address % cfg.SPM_PAGESIZE = 0)
    (hlen : data.length = cfg.SPM_PAGESIZE) (hty : flashType cfg ty = true) :
    (commands cfg 2 (feed s
        (STK_PROG_PAGE :: h1 :: toByte cfg.SPM_PAGESIZE :: ty :: (data ++ CRC_EOP ::
          STK_READ_PAGE :: h2 :: toByte cfg.SPM_PAGESIZE :: ty :: CRC_EOP :: rest)))).returned
        = true
    ∧ (commands cfg 2 (feed s
        (STK_PROG_PAGE :: h1 :: toByte cfg.SPM_PAGESIZE :: ty :: (data ++ CRC_EOP ::
          STK_READ_PAGE :: h2 :: toByte cfg.SPM_PAGESIZE :: ty :: CRC_EOP :: rest)))).state.output
        = s.output ++ [STK_INSYNC, STK_OK] ++ [STK_INSYNC] ++ data ++ [STK_OK]
    ∧ (commands cfg 2 (feed s
        (STK_PROG_PAGE :: h1 :: toByte cfg.SPM_PAGESIZE :: ty :: (data ++ CRC_EOP ::
          STK_READ_PAGE :: h2 :: toByte cfg.SPM_PAGESIZE :: ty :: CRC_EOP :: rest)))).state.input
        = rest := by
  obtain ⟨ha, hr⟩ := hs
  obtain ⟨hps, h256, hev, hfit, hdiv⟩ := page_facts cfg hok s.address ha hal
  have hL : passes (toByte cfg.SPM_PAGESIZE).val = cfg.SPM_PAGESIZE := by
    simp only [passes, toByte]
    split <;> omega
  -- the write
  obtain ⟨s1, hc1, hin1, hout1, hfl1, had1, hrz1⟩ : ∃ s1 : State,
      command cfg (feed s
        (STK_PROG_PAGE :: h1 :: toByte cfg.SPM_PAGESIZE :: ty :: (data ++ CRC_EOP ::
          STK_READ_PAGE :: h2 :: toByte cfg.SPM_PAGESIZE :: ty :: CRC_EOP :: rest)))
        = Res.ok () s1
      ∧ s1.input = STK_READ_PAGE :: h2 :: toByte cfg.SPM_PAGESIZE :: ty :: CRC_EOP :: rest
      ∧ s1.output = s.output ++ [STK_INSYNC, STK_OK]
      ∧ s1.flash = (fun p =>
              if samePage cfg p (zAddr cfg s s.address)
              then wordByte (filled cfg (stored data 0 s.buff)
                      (passes (cfg.SPM_PAGESIZE / 2 % 256)) 0 s.address s.pagebuf
                      (p % cfg.SPM_PAGESIZE / 2)) p
              else s.flash p)
      ∧ s1.address = s.address ∧ s1.rampz = s.rampz :=
    ⟨_, prog_page_flash_ok cfg s h1 (toByte cfg.SPM_PAGESIZE) ty data _ hty (by rw [hL, hlen]),
      rfl, rfl, rfl, rfl, rfl⟩
  have hw1 : s1.wf := ⟨by rw [had1]; exact ha, by rw [hrz1]; exact hr⟩
  -- the read
  have hc2 := read_page_flash_ok cfg s1 hw1 h2 (toByte cfg.SPM_PAGESIZE) ty rest hty
  rw [feed_self s1 _ hin1] at hc2
  rw [commands_succ_ok cfg 1 _ s1 hc1, commands_succ_ok cfg 0 _ _ hc2]
  simp only [commands, pure_apply, Res.returned, Res.state, true_and, and_true, hout1, hL]
  -- the bytes read back
  have he : zAddr cfg s s.address % cfg.SPM_PAGESIZE = 0 := by
    unfold zAddr
    split
    · obtain ⟨q, hq⟩ := Nat.dvd_of_mod_eq_zero hdiv
      rw [hq, ← Nat.mul_assoc, Nat.mul_comm s.rampz, Nat.mul_assoc, Nat.mul_add_mod, hal]
    · exact hal
  have hread : ∀ i, i < cfg.SPM_PAGESIZE → flashAddr cfg s1 i = zAddr cfg s s.address + i := by
    intro i hi
    unfold flashAddr zAddr
    rw [had1, hrz1]
    split <;> omega
  have hdata : (List.range cfg.SPM_PAGESIZE).map (fun i => s1.flash (flashAddr cfg s1 i)) = data := by
    apply List.ext_getElem
    · simp [hlen]
    · intro i hi1 hi2
      have hi : i < cfg.SPM_PAGESIZE := by simpa using hi1
      simp only [List.getElem_map, List.getElem_range, hread i hi, hfl1]
      obtain ⟨hsame, hbyte⟩ := written_byte cfg (stored data 0 s.buff) s.address
        (zAddr cfg s s.address) s.pagebuf i hps h256 hev hal hfit he hi
      rw [if_pos hsame, hbyte]
      have := stored_get data 0 s.buff i hi2
      simpa using this
  rw [hdata]

/-- C2 at a concrete input: one 128-byte page of `0x5A` written to and read
back from address 0 of a blank ATmega328P. -/
theorem prog_read_round_trip_witness :
    pageSizeOk atmega328p ∧ (fresh []).wf
    ∧ (fresh []).address % atmega328p.SPM_PAGESIZE = 0
    ∧ (List.replicate 128 (0x5A : Byte)).length = atmega328p.SPM_PAGESIZE
    ∧ flashType atmega328p 0x46 = true
    ∧ (commands atmega328p 2 (feed (fresh [])
        (STK_PROG_PAGE :: 0x00 :: toByte atmega328p.SPM_PAGESIZE :: 0x46 ::
          (List.replicate 128 (0x5A : Byte) ++ CRC_EOP ::
          STK_READ_PAGE :: 0x00 :: toByte atmega328p.SPM_PAGESIZE :: 0x46 :: CRC_EOP
            :: [])))).state.output
        = (fresh []).output ++ [STK_INSYNC, STK_OK] ++ [STK_INSYNC]
            ++ List.replicate 128 (0x5A : Byte) ++ [STK_OK] :=
  ⟨by decide, by decide, by decide, List.length_replicate 128 0x5A, by decide,
   (prog_read_round_trip atmega328p (fresh []) 0x00 0x00 0x46 (List.replicate 128 0x5A) []
      (by decide) (by decide) (by decide) (List.length_replicate 128 0x5A) (by decide)).2.1⟩

/-! ## C3: a wrong terminator -/

/-- C3 fails on an image built with `SUPPORT_EEPROM`: a PROG_PAGE whose
memory-type byte is neither `'F'` nor `'E'` (here `'X'`), with one data byte
followed by `0x21` instead of the terminator, returns normally and writes OK;
the wrong byte is left unread and the radio is not put in idle mode. -/
theorem bad_terminator_still_ok :
    (command atmega328pEeprom
        (feed (fresh []) [STK_PROG_PAGE, 0x00, 0x01, 0x58, 0xAA, 0x21])).returned = true
    ∧ (command atmega328pEeprom
        (feed (fresh []) [STK_PROG_PAGE, 0x00, 0x01, 0x58, 0xAA, 0x21])).state.output = [STK_OK]
    ∧ (command atmega328pEeprom
        (feed (fresh []) [STK_PROG_PAGE, 0x00, 0x01, 0x58, 0xAA, 0x21])).state.input = [0x21]
    ∧ (command atmega328pEeprom
        (feed (fresh []) [STK_PROG_PAGE, 0x00, 0x01, 0x58, 0xAA, 0x21])).state.radioIdle = false := by
  decide

/-! ## C4: the shape of a reply -/

/-- C4 fails on an image built with `SUPPORT_EEPROM`: a well-framed PROG_PAGE
whose memory-type byte is neither `'F'` nor `'E'` (here `'X'`) is answered
with OK alone, without INSYNC, and its terminator is left unread. -/
theorem unknown_type_no_insync :
    (command atmega328pEeprom
        (feed (fresh []) [STK_PROG_PAGE, 0x00, 0x01, 0x58, 0xAA, CRC_EOP])).returned = true
    ∧ (command atmega328pEeprom
        (feed (fresh []) [STK_PROG_PAGE, 0x00, 0x01, 0x58, 0xAA, CRC_EOP])).state.output = [STK_OK]
    ∧ (command atmega328pEeprom
        (feed (fresh []) [STK_PROG_PAGE, 0x00, 0x01, 0x58, 0xAA, CRC_EOP])).state.input = [CRC_EOP] := by
  decide

/-! ## C5: GET_PARAMETER -/

/-- C5: for every parameter byte `p`, GET_PARAMETER, `p` and the terminator
`0x20` are answered with exactly INSYNC, `v`, OK, where `v` is
`OPTIBOOT_MAJVER` for `p = 0x81`, `OPTIBOOT_MINVER` for `p = 0x82` and `0x03`
otherwise; the three bytes are consumed and Address is unchanged. -/
theorem get_parameter_reply (cfg : Config) (s : State) (p : Byte) (rest : List Byte) :
    (command cfg (feed s (STK_GET_PARAMETER :: p :: CRC_EOP :: rest))).returned = true
    ∧ (command cfg (feed s (STK_GET_PARAMETER :: p :: CRC_EOP :: rest))).state.output
        = s.output ++ [STK_INSYNC,
            if p = 0x81 then OPTIBOOT_MAJVER else if p = 0x82 then OPTIBOOT_MINVER else 0x03,
            STK_OK]
    ∧ (command cfg (feed s (STK_GET_PARAMETER :: p :: CRC_EOP :: rest))).state.input = rest
    ∧ (command cfg (feed s (STK_GET_PARAMETER :: p :: CRC_EOP :: rest))).state.address
        = s.address := by
  by_cases h1 : p = 0x82
  · subst h1
    simp [command, dispatch, getParameter, getch, verifySpace, putch, feed, Res.state, Res.returned,
      STK_GET_PARAMETER, CRC_EOP]
  · by_cases h2 : p = 0x81
    · subst h2
      simp [command, dispatch, getParameter, getch, verifySpace, putch, feed, Res.state, Res.returned,
        STK_GET_PARAMETER, CRC_EOP]
    · simp [command, dispatch, getParameter, getch, verifySpace, putch, feed, Res.state, Res.returned,
        STK_GET_PARAMETER, CRC_EOP, h1, h2]

/-! ## C6: READ_SIGN -/

/-- C6: whatever the state of the engine, READ_SIGN and the terminator `0x20`
are answered with exactly INSYNC, `SIGNATURE_0`, `SIGNATURE_1`, `SIGNATURE_2`,
OK, and Address is unchanged. -/
theorem read_sign_reply (cfg : Config) (s : State) (rest : List Byte) :
    (command cfg (feed s (STK_READ_SIGN :: CRC_EOP :: rest))).returned = true
    ∧ (command cfg (feed s (STK_READ_SIGN :: CRC_EOP :: rest))).state.output
        = s.output ++ [STK_INSYNC, cfg.SIGNATURE_0, cfg.SIGNATURE_1, cfg.SIGNATURE_2, STK_OK]
    ∧ (command cfg (feed s (STK_READ_SIGN :: CRC_EOP :: rest))).state.input = rest
    ∧ (command cfg (feed s (STK_READ_SIGN :: CRC_EOP :: rest))).state.address = s.address := by
  simp [command, dispatch, readSign, getch, verifySpace, putch, feed, Res.state, Res.returned,
      STK_GET_PARAMETER, STK_SET_DEVICE, STK_SET_DEVICE_EXT, STK_LOAD_ADDRESS, STK_UNIVERSAL,
      STK_PROG_PAGE, STK_READ_PAGE, STK_READ_SIGN, CRC_EOP]

/-! ## C7: flash READ_PAGE -/

/-- C7, as stated, fails for the length byte 0: a flash READ_PAGE with
`L = 0` sends 256 data bytes (258 bytes in all, not INSYNC, OK) and moves
Address from 0 to 256. -/
theorem read_page_zero_length :
    (command atmega328p
        (feed (fresh []) [STK_READ_PAGE, 0x00, 0x00, 0x46, CRC_EOP])).state.output.length = 258
      ∧ (command atmega328p
        (feed (fresh []) [STK_READ_PAGE, 0x00, 0x00, 0x46, CRC_EOP])).state.output
          ≠ [STK_INSYNC, STK_OK]
      ∧ (command atmega328p
        (feed (fresh []) [STK_READ_PAGE, 0x00, 0x00, 0x46, CRC_EOP])).state.address = 256 := by
  rw [read_page_flash_ok atmega328p (fresh []) (by decide) 0x00 0x00 0x46 [] (by decide)]
  have hp : passes (0x00 : Byte).val = 256 := by decide
  have ha : (advance atmega328p (fresh []) 256).address = 256 := by decide
  simp only [hp, Res.state, ha]
  refine ⟨?_, ?_, trivial⟩
  · simp only [fresh, List.length_append, List.length_map, List.length_range, List.length_cons,
      List.length_nil]
  · intro hc
    have hl := congrArg List.length hc
    simp only [fresh, List.length_append, List.length_map, List.length_range, List.length_cons,
      List.length_nil] at hl
    omega

/-- C7 (amended): for every length byte `L` and every 16-bit Address, a flash
READ_PAGE with length low byte `L` and terminator `0x20` is answered with
INSYNC, then `passes L` data bytes (`L` of them, or 256 when `L = 0`), the
`i`-th being the program-memory byte `i` places after the one the pointer
designates, then OK; Address ends at the old Address plus that count modulo
`2^16`. -/
theorem read_page_flash_reply (cfg : Config) (s : State) (h L ty : Byte) (rest : List Byte)
    (hs : s.wf) (hty : flashType cfg ty = true) :
    (command cfg (feed s (STK_READ_PAGE :: h :: L :: ty :: CRC_EOP :: rest))).returned = true
    ∧ (command cfg (feed s (STK_READ_PAGE :: h :: L :: ty :: CRC_EOP :: rest))).state.input = rest
    ∧ (command cfg (feed s (STK_READ_PAGE :: h :: L :: ty :: CRC_EOP :: rest))).state.output
        = s.output ++ [STK_INSYNC]
            ++ (List.range (passes L.val)).map (fun i => s.flash (flashAddr cfg s i))
            ++ [STK_OK]
    ∧ (command cfg (feed s (STK_READ_PAGE :: h :: L :: ty :: CRC_EOP :: rest))).state.address
        = (s.address + passes L.val) % 65536 := by
  rw [read_page_flash_ok cfg s hs h L ty rest hty]
  simp [Res.returned, Res.state, advance, flashAddr_mod]

/-- C7 (amended) at a concrete input: three bytes read from a blank device. -/
theorem read_page_flash_reply_witness :
    (fresh []).wf ∧ flashType atmega328pEeprom 0x46 = true
    ∧ (command atmega328pEeprom (feed (fresh []) [STK_READ_PAGE, 0x00, 0x03, 0x46, CRC_EOP])).state.output
        = [STK_INSYNC, 0xFF, 0xFF, 0xFF, STK_OK]
    ∧ (command atmega328pEeprom (feed (fresh []) [STK_READ_PAGE, 0x00, 0x03, 0x46, CRC_EOP])).state.address
        = 3 :=
  ⟨by decide, by decide,
   (read_page_flash_reply atmega328pEeprom (fresh []) 0x00 0x03 0x46 [] (by decide) (by decide)).2.2.1,
   (read_page_flash_reply atmega328pEeprom (fresh []) 0x00 0x03 0x46 [] (by decide) (by decide)).2.2.2⟩

/-! ## C8: command codes without a branch -/

/-- C8: a command code without a branch of its own, followed by the
terminator `0x20`, consumes exactly those two bytes, is answered with exactly
INSYNC, OK, and changes none of Address, `RAMPZ`, Page Buffer, program memory,
temporary write buffer, EEPROM or watchdog configuration. -/
theorem unknown_command_noop (cfg : Config) (s : State) (ch : Byte) (rest : List Byte)
    (h : ch ∉ knownCommands) :
    (command cfg (feed s (ch :: CRC_EOP :: rest))).returned = true
    ∧ (command cfg (feed s (ch :: CRC_EOP :: rest))).state.input = rest
    ∧ (command cfg (feed s (ch :: CRC_EOP :: rest))).state.output = s.output ++ [STK_INSYNC, STK_OK]
    ∧ (command cfg (feed s (ch :: CRC_EOP :: rest))).state.address = s.address
    ∧ (command cfg (feed s (ch :: CRC_EOP :: rest))).state.rampz = s.rampz
    ∧ (command cfg (feed s (ch :: CRC_EOP :: rest))).state.buff = s.buff
    ∧ (command cfg (feed s (ch :: CRC_EOP :: rest))).state.flash = s.flash
    ∧ (command cfg (feed s (ch :: CRC_EOP :: rest))).state.pagebuf = s.pagebuf
    ∧ (command cfg (feed s (ch :: CRC_EOP :: rest))).state.eeprom = s.eeprom
    ∧ (command cfg (feed s (ch :: CRC_EOP :: rest))).state.wdtcsr = s.wdtcsr := by
  simp only [knownCommands, List.mem_cons, List.mem_singleton, not_or, List.not_mem_nil,
    not_false_eq_true, and_true] at h
  obtain ⟨h1, h2, h3, h4, h5, h6, h7, h8, h9⟩ := h
  simp [command, dispatch, getch, verifySpace, putch, feed, Res.state, Res.returned, CRC_EOP,
    h1, h2, h3, h4, h5, h6, h7, h8, h9]

/-- C8 at a concrete input: the command code `0x50` (ENTER_PROGMODE). -/
theorem unknown_command_noop_witness :
    (0x50 : Byte) ∉ knownCommands
    ∧ (command atmega328p (feed (fresh []) [0x50, CRC_EOP])).state.output = [STK_INSYNC, STK_OK]
    ∧ (command atmega328p (feed (fresh []) [0x50, CRC_EOP])).state.address = 0 :=
  ⟨by decide,
   (unknown_command_noop atmega328p (fresh []) 0x50 [] (by decide)).2.2.1,
   (unknown_command_noop atmega328p (fresh []) 0x50 [] (by decide)).2.2.2.1⟩

/-! ## C9: SET_DEVICE, SET_DEVICE_EXT, UNIVERSAL -/

/-- C9: SET_DEVICE, SET_DEVICE_EXT and UNIVERSAL consume 20, 5 and 4 parameter
bytes of any value and then the terminator `0x20`; the first two are answered
with exactly INSYNC, OK, the third with exactly INSYNC, `0x00`, OK; Address,
Page Buffer, program memory and EEPROM are unchanged. -/
theorem set_device_universal_reply (cfg : Config) (s : State) (p20 p5 p4 rest : List Byte)
    (h20 : p20.length = 20) (h5 : p5.length = 5) (h4 : p4.length = 4) :
    ((command cfg (feed s (STK_SET_DEVICE :: (p20 ++ CRC_EOP :: rest)))).returned = true
      ∧ (command cfg (feed s (STK_SET_DEVICE :: (p20 ++ CRC_EOP :: rest)))).state.input = rest
      ∧ (command cfg (feed s (STK_SET_DEVICE :: (p20 ++ CRC_EOP :: rest)))).state.output
          = s.output ++ [STK_INSYNC, STK_OK]
      ∧ sameMemory s (command cfg (feed s (STK_SET_DEVICE :: (p20 ++ CRC_EOP :: rest)))).state)
    ∧ ((command cfg (feed s (STK_SET_DEVICE_EXT :: (p5 ++ CRC_EOP :: rest)))).returned = true
      ∧ (command cfg (feed s (STK_SET_DEVICE_EXT :: (p5 ++ CRC_EOP :: rest)))).state.input = rest
      ∧ (command cfg (feed s (STK_SET_DEVICE_EXT :: (p5 ++ CRC_EOP :: rest)))).state.output
          = s.output ++ [STK_INSYNC, STK_OK]
      ∧ sameMemory s (command cfg (feed s (STK_SET_DEVICE_EXT :: (p5 ++ CRC_EOP :: rest)))).state)
    ∧ ((command cfg (feed s (STK_UNIVERSAL :: (p4 ++ CRC_EOP :: rest)))).returned = true
      ∧ (command cfg (feed s (STK_UNIVERSAL :: (p4 ++ CRC_EOP :: rest)))).state.input = rest
      ∧ (command cfg (feed s (STK_UNIVERSAL :: (p4 ++ CRC_EOP :: rest)))).state.output
          = s.output ++ [STK_INSYNC, 0x00, STK_OK]
      ∧ sameMemory s (command cfg (feed s (STK_UNIVERSAL :: (p4 ++ CRC_EOP :: rest)))).state) := by
  refine ⟨?_, ?_, ?_⟩
  · rw [command_getNch cfg s STK_SET_DEVICE 20 p20 rest (by simp [dispatch, STK_SET_DEVICE, STK_GET_PARAMETER]) (by decide) (by decide) h20]
    simp [Res.returned, Res.state, sameMemory]
  · rw [command_getNch cfg s STK_SET_DEVICE_EXT 5 p5 rest (by simp [dispatch, STK_SET_DEVICE_EXT, STK_SET_DEVICE, STK_GET_PARAMETER]) (by decide) (by decide) h5]
    simp [Res.returned, Res.state, sameMemory]
  · simp only [command, bind_apply, getch, feed, modify_apply]
    have hd : dispatch cfg STK_UNIVERSAL = universal := by
      simp [dispatch, STK_UNIVERSAL, STK_LOAD_ADDRESS, STK_SET_DEVICE_EXT, STK_SET_DEVICE, STK_GET_PARAMETER]
    rw [hd]
    simp only [universal, bind_apply]
    rw [getNch_ok 4 (by decide) (by decide) p4 h4 _ rest rfl]
    simp [putch, Res.returned, Res.state, sameMemory]

/-- C9 at a concrete input: parameter bytes all zero. -/
theorem set_device_universal_reply_witness :
    (List.replicate 20 (0 : Byte)).length = 20 ∧ (List.replicate 5 (0 : Byte)).length = 5
    ∧ (List.replicate 4 (0 : Byte)).length = 4
    ∧ (command atmega328p (feed (fresh [])
        (STK_SET_DEVICE :: (List.replicate 20 (0 : Byte) ++ CRC_EOP :: [])))).state.output
        = (fresh []).output ++ [STK_INSYNC, STK_OK]
    ∧ (command atmega328p (feed (fresh [])
        (STK_UNIVERSAL :: (List.replicate 4 (0 : Byte) ++ CRC_EOP :: [])))).state.output
        = (fresh []).output ++ [STK_INSYNC, 0x00, STK_OK] :=
  ⟨by decide, by decide, by decide,
   (set_device_universal_reply atmega328p (fresh []) (List.replicate 20 0) (List.replicate 5 0)
      (List.replicate 4 0) [] (by decide) (by decide) (by decide)).1.2.2.1,
   (set_device_universal_reply atmega328p (fresh []) (List.replicate 20 0) (List.replicate 5 0)
      (List.replicate 4 0) [] (by decide) (by decide) (by decide)).2.2.2.2.1⟩

/-! ## C10: LEAVE_PROGMODE -/

/-- C10: LEAVE_PROGMODE followed by the terminator `0x20` leaves the Reset
Marker at `0xdeadbeef` and the watchdog configured for 16 ms, is answered with
exactly INSYNC, OK, and leaves Address, program memory and EEPROM
unchanged. -/
theorem leave_progmode_reply (cfg : Config) (s : State) (rest : List Byte) :
    (command cfg (feed s (STK_LEAVE_PROGMODE :: CRC_EOP :: rest))).returned = true
    ∧ (command cfg (feed s (STK_LEAVE_PROGMODE :: CRC_EOP :: rest))).state.marker = 0xdeadbeef
    ∧ (command cfg (feed s (STK_LEAVE_PROGMODE :: CRC_EOP :: rest))).state.wdtcsr = WATCHDOG_16MS
    ∧ (command cfg (feed s (STK_LEAVE_PROGMODE :: CRC_EOP :: rest))).state.output
        = s.output ++ [STK_INSYNC, STK_OK]
    ∧ (command cfg (feed s (STK_LEAVE_PROGMODE :: CRC_EOP :: rest))).state.input = rest
    ∧ (command cfg (feed s (STK_LEAVE_PROGMODE :: CRC_EOP :: rest))).state.address = s.address
    ∧ (command cfg (feed s (STK_LEAVE_PROGMODE :: CRC_EOP :: rest))).state.flash = s.flash
    ∧ (command cfg (feed s (STK_LEAVE_PROGMODE :: CRC_EOP :: rest))).state.eeprom = s.eeprom := by
  simp [command, dispatch, leaveProgmode, watchdogConfig, getch, verifySpace, putch, feed,
      Res.state, Res.returned, MARKER_SENTINEL,
      STK_GET_PARAMETER, STK_SET_DEVICE, STK_SET_DEVICE_EXT, STK_LOAD_ADDRESS, STK_UNIVERSAL,
      STK_PROG_PAGE, STK_READ_PAGE, STK_READ_SIGN, STK_LEAVE_PROGMODE, CRC_EOP]

/-! ## C11: placement of the page-erase -/

/-- C11: in every flash PROG_PAGE (whatever byte follows the data), the
operations of the command are the four header reads, then the page-erase at
Address followed by the reads of the data bytes when Address < NRWWSTART, or
the reads of the data bytes followed by the page-erase at Address when
Address >= NRWWSTART, then a remainder that contains no page-erase. -/
theorem erase_placement (cfg : Config) (s : State) (h L ty t : Byte) (data rest : List Byte)
    (hty : flashType cfg ty = true) (hlen : data.length = passes L.val) :
    ∃ post : List Event,
      (∀ z, Event.erase z ∉ post)
      ∧ (command cfg (feed s (STK_PROG_PAGE :: h :: L :: ty :: (data ++ t :: rest)))).state.trace
        = s.trace ++ [Event.rx STK_PROG_PAGE, Event.rx h, Event.rx L, Event.rx ty]
          ++ (if s.address < cfg.NRWWSTART
              then Event.erase s.address :: data.map Event.rx
              else data.map Event.rx ++ [Event.erase s.address])
          ++ post := by
  by_cases ht : t = CRC_EOP
  · subst ht
    refine ⟨[Event.rx CRC_EOP, Event.tx STK_INSYNC, Event.spmBusyWait]
              ++ fills (stored data 0 s.buff) (passes (cfg.SPM_PAGESIZE / 2 % 256)) 0 s.address
              ++ [Event.write s.address, Event.spmBusyWait]
              ++ (if cfg.RWWSRE then [Event.rwwEnable] else [])
              ++ [Event.tx STK_OK], ?_, ?_⟩
    · intro z hz
      simp only [List.mem_append, List.mem_cons, List.mem_singleton, List.not_mem_nil,
        or_false, false_or] at hz
      rcases hz with (((hz | hz) | hz) | hz) | hz
      · simp at hz
      · obtain ⟨z1, w, hf⟩ := fills_only_fill _ _ _ _ _ hz
        simp at hf
      · simp at hz
      · split at hz <;> simp at hz
      · simp at hz
    · rw [prog_page_flash_ok cfg s h L ty data rest hty hlen]
      by_cases hlo : s.address < cfg.NRWWSTART
      · have hge : ¬ cfg.NRWWSTART ≤ s.address := by omega
        simp [Res.state, hlo, hge]
      · have hge : cfg.NRWWSTART ≤ s.address := by omega
        simp [Res.state, hlo, hge]
  · refine ⟨[Event.rx t, Event.radioIdle, Event.wdtcsr (2 ^ WDCE ||| 2 ^ WDE),
              Event.wdtcsr WATCHDOG_16MS], ?_, ?_⟩
    · intro z hz
      simp at hz
    · rw [prog_page_flash_bad cfg s h L ty t data rest hty hlen ht]
      by_cases hlo : s.address < cfg.NRWWSTART
      · have hge : ¬ cfg.NRWWSTART ≤ s.address := by omega
        simp [Res.state, hlo, hge]
      · have hge : cfg.NRWWSTART ≤ s.address := by omega
        simp [Res.state, hlo, hge]

/-- C11 at a concrete input: one data byte for address 0 of an ATmega328P. -/
theorem erase_placement_witness :
    flashType atmega328p 0x46 = true ∧ [(0xAA : Byte)].length = passes (0x01 : Byte).val
    ∧ ∃ post : List Event,
      (∀ z, Event.erase z ∉ post)
      ∧ (command atmega328p (feed (fresh [])
          (STK_PROG_PAGE :: 0x00 :: 0x01 :: 0x46 :: ([0xAA] ++ CRC_EOP :: [])))).state.trace
        = (fresh []).trace ++ [Event.rx STK_PROG_PAGE, Event.rx 0x00, Event.rx 0x01, Event.rx 0x46]
          ++ (if (fresh []).address < atmega328p.NRWWSTART
              then Event.erase (fresh []).address :: [(0xAA : Byte)].map Event.rx
              else [(0xAA : Byte)].map Event.rx ++ [Event.erase (fresh []).address])
          ++ post :=
  ⟨by decide, by decide,
   erase_placement atmega328p (fresh []) 0x00 0x01 0x46 CRC_EOP [0xAA] [] (by decide) (by decide)⟩

/-! ## C12: a packet that repeats the recorded sequence byte -/

/-- C12 fails when a packet of one byte follows the repeated packet.  Packet
`01 11` is accepted and its payload byte returned; the repeat `01 22` is
skipped by `pkt_len = 0; continue;`, but `nrf24_rx_read` has already copied it
into `pkt_buf`; the packet `02` then brings `pkt_len` to 0 after the sequence
byte is counted off, and `ch = pkt_buf[pkt_start++]` returns `22`, a byte of the
discarded packet, to the caller.  With no packet after the repeat the second
call returns nothing, as the claim requires. -/
theorem duplicate_byte_returned :
    (Radio.getchN 1 [[0x01, 0x11], [0x01, 0x22], [0x02]] Radio.Rx.init).map
        (fun r => (r.1, r.2.1.seqn, r.2.1.pkt_len, r.2.2))
      = some ([0x11], 0x01, 0, [[0x01, 0x22], [0x02]])
    ∧ Radio.returned (Radio.getchN 2 [[0x01, 0x11], [0x01, 0x22], [0x02]] Radio.Rx.init)
      = some [0x11, 0x22]
    ∧ (Radio.getchN 2 [[0x01, 0x11], [0x01, 0x22], [0x02]] Radio.Rx.init).map
        (fun r => (r.2.1.seqn, r.2.1.pkt_len, r.2.2))
      = some (0x02, 255, [])
    ∧ Radio.returned (Radio.getchN 2 [[0x01, 0x11], [0x01, 0x22]] Radio.Rx.init) = none := by
  decide

/-! ## C13: a packet with a new sequence byte is served byte by byte -/

/-- C13 fails for a packet of one byte (n = 1, a sequence byte and no
payload).  After packet `01 AA BB` is served, the packet `02` makes the next
`getch` return `AA`, the byte left at index 1 of the buffer, although the
packet has no payload; the count of bytes left wraps to 255, so that the call
after it returns `BB` from the buffer and not `41` from the packet `03 41`,
which stays unread in the radio. -/
theorem one_byte_packet_serves_stale :
    Radio.returned (Radio.getchN 2 [[0x01, 0xAA, 0xBB], [0x02], [0x03, 0x41]] Radio.Rx.init)
      = some [0xAA, 0xBB]
    ∧ (Radio.getchN 3 [[0x01, 0xAA, 0xBB], [0x02], [0x03, 0x41]] Radio.Rx.init).map
        (fun r => (r.1, r.2.1.pkt_len, r.2.1.pkt_start, r.2.2))
      = some ([0xAA, 0xBB, 0xAA], 255, 2, [[0x03, 0x41]])
    ∧ Radio.returned (Radio.getchN 4 [[0x01, 0xAA, 0xBB], [0x02], [0x03, 0x41]] Radio.Rx.init)
      = some [0xAA, 0xBB, 0xAA, 0xBB] := by
  decide

/-! ## C14: a flush that is never acknowledged -/

/-- C14, as stated, fails: with no attempt acknowledged, the flush of the reply
byte `STK_OK` from the initial state hands the packet to `nrf24_tx` 127 times,
not 128: `cnt` starts at 128 and `while (--cnt)` decrements before the first
pass. -/
theorem flush_makes_127_attempts :
    (Radio.sent (Radio.putch (fun _ => false) STK_OK Radio.Tx.init).log).length = 127
    ∧ (Radio.sent (Radio.putch (fun _ => false) STK_OK Radio.Tx.init).log).length ≠ 128 := by
  have h := (radio_flush_all_fail (fun _ => false) STK_OK Radio.Tx.init (Or.inl rfl)
    (fun _ => rfl)).1
  rw [h, radio_sent_append, radio_sent_attempts]
  simp [Radio.sent, Radio.Tx.init]

/-- C14 (amended): if `nrf24_tx_result_wait` reports failure on every attempt,
one flush calls `nrf24_tx` exactly 127 times, each call preceded by the delay
of 4 ms and each with the same packet, calls `nrf24_tx_result_wait` 127 times,
and then returns with the buffer reset to the sequence byte alone. -/
theorem flush_gives_up (ack : Nat → Bool) (ch : Byte) (t : Radio.Tx)
    (hfl : Radio.flushes ch t) (hno : ∀ k, ack k = false) :
    (Radio.putch ack ch t).log = t.log ++ Radio.attempts 127 (Radio.flushed ch t)
    ∧ Radio.sent (Radio.putch ack ch t).log
        = Radio.sent t.log ++ List.replicate 127 (Radio.flushed ch t)
    ∧ (Radio.putch ack ch t).waits = t.waits + 127
    ∧ (Radio.putch ack ch t).pkt_len = 1 := by
  obtain ⟨hl, hw⟩ := radio_flush_all_fail ack ch t hfl hno
  refine ⟨hl, ?_, hw, ?_⟩
  · rw [hl, radio_sent_append, radio_sent_attempts]
  · rw [radio_putch_flush ack ch t hfl]

/-- C14 (amended) at the flush of `STK_INSYNC STK_OK` written from the initial
state. -/
theorem flush_gives_up_witness :
    Radio.flushes STK_OK (Radio.putch (fun _ => false) STK_INSYNC Radio.Tx.init)
    ∧ (∀ k : Nat, (fun _ => false : Nat → Bool) k = false)
    ∧ Radio.flushed STK_OK (Radio.putch (fun _ => false) STK_INSYNC Radio.Tx.init)
        = [STK_INSYNC, STK_OK]
    ∧ ((Radio.putch (fun _ => false) STK_OK
          (Radio.putch (fun _ => false) STK_INSYNC Radio.Tx.init)).log
        = (Radio.putch (fun _ => false) STK_INSYNC Radio.Tx.init).log
          ++ Radio.attempts 127
              (Radio.flushed STK_OK (Radio.putch (fun _ => false) STK_INSYNC Radio.Tx.init))
      ∧ Radio.sent (Radio.putch (fun _ => false) STK_OK
          (Radio.putch (fun _ => false) STK_INSYNC Radio.Tx.init)).log
        = Radio.sent (Radio.putch (fun _ => false) STK_INSYNC Radio.Tx.init).log
          ++ List.replicate 127
              (Radio.flushed STK_OK (Radio.putch (fun _ => false) STK_INSYNC Radio.Tx.init))
      ∧ (Radio.putch (fun _ => false) STK_OK
          (Radio.putch (fun _ => false) STK_INSYNC Radio.Tx.init)).waits
        = (Radio.putch (fun _ => false) STK_INSYNC Radio.Tx.init).waits + 127
      ∧ (Radio.putch (fun _ => false) STK_OK
          (Radio.putch (fun _ => false) STK_INSYNC Radio.Tx.init)).pkt_len = 1) :=
  ⟨by decide, fun _ => rfl, by decide,
   flush_gives_up (fun _ => false) STK_OK (Radio.putch (fun _ => false) STK_INSYNC Radio.Tx.init)
     (by decide) (fun _ => rfl)⟩

/-! ## C15: the buffer after a flush -/

/-- C15: after a flush, acknowledged or not, the transmit buffer has length 1
and its byte 0 is the first byte of the flushed packet plus 1 modulo 256; and
if attempt number `k + 1` is the first one acknowledged, the flush consists of
exactly `k + 1` transmissions of the packet, each after the delay, with none
after the acknowledged one. -/
theorem flush_advances_sequence (ack : Nat → Bool) (ch : Byte) (t : Radio.Tx)
    (hfl : Radio.flushes ch t) :
    (Radio.putch ack ch t).pkt_len = 1
    ∧ (∀ b, (Radio.flushed ch t).head? = some b →
        (Radio.putch ack ch t).pkt_buf 0 = toByte (b.val + 1))
    ∧ ∀ k, k < 127 → (∀ j, j < k → ack (t.waits + j) = false) → ack (t.waits + k) = true →
        (Radio.putch ack ch t).log = t.log ++ Radio.attempts (k + 1) (Radio.flushed ch t) := by
  refine ⟨?_, ?_, ?_⟩
  · rw [radio_putch_flush ack ch t hfl]
  · intro b hb
    rw [radio_putch_flush ack ch t hfl]
    simp only [if_true, (radio_retry_keeps ack 256 128 _).2]
    have hpos : (t.pkt_len + 1) % 256 ≠ 0 := by
      intro h0
      simp [Radio.flushed, Radio.Tx.packet, h0] at hb
    obtain ⟨m, hm⟩ : ∃ m, (t.pkt_len + 1) % 256 = m + 1 :=
      ⟨(t.pkt_len + 1) % 256 - 1, by omega⟩
    simp only [Radio.flushed, Radio.Tx.packet, hm, List.range_succ_eq_map, List.map_cons,
      List.head?_cons, Option.some.injEq] at hb
    rw [← hb]
  · intro k hk hj hak
    rw [radio_putch_flush ack ch t hfl]
    exact radio_retry_first_ack ack k 256 128
      { t with pkt_buf := fun i => if i = t.pkt_len then ch else t.pkt_buf i,
               pkt_len := (t.pkt_len + 1) % 256 } (by omega) (by omega) (by omega) hj hak

/-- C15 at the flush of `STK_INSYNC STK_OK` acknowledged at the first
attempt, after an earlier flush. -/
theorem flush_advances_sequence_witness :
    Radio.flushes STK_OK (Radio.putchs (fun _ => true) [STK_INSYNC, STK_OK, STK_INSYNC] Radio.Tx.init)
    ∧ (Radio.flushed STK_OK
        (Radio.putchs (fun _ => true) [STK_INSYNC, STK_OK, STK_INSYNC] Radio.Tx.init)).head?
        = some 0x15
    ∧ ((Radio.putch (fun _ => true) STK_OK
          (Radio.putchs (fun _ => true) [STK_INSYNC, STK_OK, STK_INSYNC] Radio.Tx.init)).pkt_len = 1
      ∧ (∀ b, (Radio.flushed STK_OK
            (Radio.putchs (fun _ => true) [STK_INSYNC, STK_OK, STK_INSYNC] Radio.Tx.init)).head?
              = some b →
          (Radio.putch (fun _ => true) STK_OK
            (Radio.putchs (fun _ => true) [STK_INSYNC, STK_OK, STK_INSYNC] Radio.Tx.init)).pkt_buf 0
            = toByte (b.val + 1))
      ∧ ∀ k, k < 127 →
          (∀ j, j < k → (fun _ => true : Nat → Bool)
            ((Radio.putchs (fun _ => true) [STK_INSYNC, STK_OK, STK_INSYNC] Radio.Tx.init).waits + j)
              = false) →
          (fun _ => true : Nat → Bool)
            ((Radio.putchs (fun _ => true) [STK_INSYNC, STK_OK, STK_INSYNC] Radio.Tx.init).waits + k)
              = true →
          (Radio.putch (fun _ => true) STK_OK
            (Radio.putchs (fun _ => true) [STK_INSYNC, STK_OK, STK_INSYNC] Radio.Tx.init)).log
            = (Radio.putchs (fun _ => true) [STK_INSYNC, STK_OK, STK_INSYNC] Radio.Tx.init).log
              ++ Radio.attempts (k + 1)
                  (Radio.flushed STK_OK
                    (Radio.putchs (fun _ => true) [STK_INSYNC, STK_OK, STK_INSYNC]
                      Radio.Tx.init))) :=
  ⟨by decide, by decide,
   flush_advances_sequence (fun _ => true) STK_OK
     (Radio.putchs (fun _ => true) [STK_INSYNC, STK_OK, STK_INSYNC] Radio.Tx.init) (by decide)⟩

/-! ## C16: the packets handed to the radio -/

/-- C16 fails for the first packet: `pkt_len` is initially 0, where every flush
leaves it at 1, so the first packet has no sequence byte.  The replies
`STK_INSYNC STK_OK`, written twice from the initial state and acknowledged at
once, go out as the packets `14 10` and `15 14 10`: the payloads, all bytes
after the first of each packet, are `10 14 10`, one byte short of the four
bytes written. -/
theorem first_packet_lacks_sequence_byte :
    Radio.sent (Radio.putchs (fun _ => true) [STK_INSYNC, STK_OK] Radio.Tx.init).log
      = [[0x14, 0x10]]
    ∧ Radio.sent (Radio.putchs (fun _ => true) [STK_INSYNC, STK_OK, STK_INSYNC, STK_OK]
        Radio.Tx.init).log = [[0x14, 0x10], [0x15, 0x14, 0x10]]
    ∧ Radio.payloads (Radio.sent (Radio.putchs (fun _ => true)
        [STK_INSYNC, STK_OK, STK_INSYNC, STK_OK] Radio.Tx.init).log) = [0x10, 0x14, 0x10]
    ∧ Radio.payloads (Radio.sent (Radio.putchs (fun _ => true)
        [STK_INSYNC, STK_OK, STK_INSYNC, STK_OK] Radio.Tx.init).log)
      ≠ [STK_INSYNC, STK_OK, STK_INSYNC, STK_OK] := by
  decide

/-! ## C17: the two boot paths -/

/-- C17, as stated, fails: a power-on boot of a board whose radio chip is not
found saves the flags and arms the marker, but never enters the protocol
engine: it stops in the `while (1);` after `radio_init()`. -/
theorem boot_without_radio_stuck :
    ¬ fastPath powerOn
    ∧ (main_boot false powerOn).isEngine = false
    ∧ main_boot false powerOn
        = Started.stuck { powerOn with MCUSR := 0, reset_cause := 1, marker := MARKER_SENTINEL,
                                       WDTCSR := WATCHDOG_2S } := by
  decide

/-- C17 (amended): at boot the reset-cause register is read and cleared.  If
the watchdog flag is set and the Reset Marker is `0xdeadbeef`, the marker is
set to 0 and `appStart` is called with the saved reset cause: the watchdog is
switched off, the protocol loop is never entered.  In every other case the
flags just read are saved as `reset_cause`, the marker is set to `0xdeadbeef`,
the watchdog is set to 2 s, and execution enters the protocol engine if the
radio chip is found and stays in `while (1);` if it is not. -/
theorem boot_paths (radio : Bool) (b : Boot) :
    (fastPath b →
      main_boot radio b
        = Started.app { b with MCUSR := 0, marker := 0, WDTCSR := WATCHDOG_OFF,
                               r2 := b.reset_cause })
    ∧ (¬ fastPath b →
      main_boot radio b
        = (if radio then Started.engine else Started.stuck)
            { b with MCUSR := 0, reset_cause := b.MCUSR, marker := MARKER_SENTINEL,
                     WDTCSR := WATCHDOG_2S }) := by
  constructor
  · intro h
    have h' : b.MCUSR &&& 2 ^ WDRF ≠ 0 ∧ b.marker = 0xdeadbeef := h
    simp only [main_boot]
    rw [if_pos h']
    rfl
  · intro h
    have h' : ¬ (b.MCUSR &&& 2 ^ WDRF ≠ 0 ∧ b.marker = 0xdeadbeef) := h
    simp only [main_boot]
    rw [if_neg h']
    cases radio <;> rfl

/-- Both boot paths of C17 occur: a watchdog reset with the marker armed takes
the fast path, a power-on boot with the radio present enters the protocol
engine. -/
theorem boot_paths_witness :
    fastPath { powerOn with MCUSR := 8, marker := MARKER_SENTINEL, reset_cause := 1 }
    ∧ main_boot true { powerOn with MCUSR := 8, marker := MARKER_SENTINEL, reset_cause := 1 }
        = Started.app { MCUSR := 0, marker := 0, reset_cause := 1, WDTCSR := WATCHDOG_OFF, r2 := 1 }
    ∧ ¬ fastPath powerOn
    ∧ main_boot true powerOn
        = Started.engine { MCUSR := 0, marker := MARKER_SENTINEL, reset_cause := 1,
                           WDTCSR := WATCHDOG_2S, r2 := 0 } :=
  ⟨by decide,
   (boot_paths true { powerOn with MCUSR := 8, marker := MARKER_SENTINEL, reset_cause := 1 }).1
     (by decide),
   by decide,
   (boot_paths true powerOn).2 (by decide)⟩

/-! ## C18: hand-over of the reset cause after a watchdog reset -/

/-- C18: boot with reset-cause flags `f` on a path that is not the fast path,
and let a watchdog reset occur before any command byte has been received (the
RAM is as the boot code left it).  The next boot, whether or not the radio is
found, calls `appStart`: it ends in the application with the watchdog off
(`WDTCSR = WATCHDOG_OFF`), with `f` in `r2`, and with the Reset Marker back at
0, the protocol engine not entered. -/
theorem watchdog_reset_hands_over (radio radio2 : Bool) (b : Boot) (hslow : ¬ fastPath b) :
    (main_boot radio2 (watchdogFires (main_boot radio b).state)).isApp = true
    ∧ (main_boot radio2 (watchdogFires (main_boot radio b).state)).isEngine = false
    ∧ (main_boot radio2 (watchdogFires (main_boot radio b).state)).state.r2 = b.MCUSR
    ∧ (main_boot radio2 (watchdogFires (main_boot radio b).state)).state.WDTCSR = WATCHDOG_OFF
    ∧ (main_boot radio2 (watchdogFires (main_boot radio b).state)).state.marker = 0 := by
  have h1 : (main_boot radio b).state
      = { b with MCUSR := 0, reset_cause := b.MCUSR, marker := 0xdeadbeef,
                 WDTCSR := WATCHDOG_2S } := by
    have h' : ¬ (b.MCUSR &&& 2 ^ WDRF ≠ 0 ∧ b.marker = 0xdeadbeef) := hslow
    simp only [main_boot]
    rw [if_neg h']
    cases radio <;> rfl
  have h2 : main_boot radio2 (watchdogFires (main_boot radio b).state)
      = Started.app { b with MCUSR := 0, reset_cause := b.MCUSR, marker := 0,
                             WDTCSR := WATCHDOG_OFF, r2 := b.MCUSR } := by
    rw [h1]
    have h' : (0 ||| 2 ^ WDRF) &&& 2 ^ WDRF ≠ 0 ∧ True := by decide
    simp only [main_boot, watchdogFires]
    rw [if_pos h']
    rfl
  rw [h2]
  exact ⟨rfl, rfl, rfl, rfl, rfl⟩

/-- C18 at a power-on boot: the power-on flag reaches `r2` after the watchdog
reset. -/
theorem watchdog_reset_hands_over_witness :
    ¬ fastPath powerOn
    ∧ (main_boot true (watchdogFires (main_boot true powerOn).state)).isApp = true
    ∧ (main_boot true (watchdogFires (main_boot true powerOn).state)).isEngine = false
    ∧ (main_boot true (watchdogFires (main_boot true powerOn).state)).state.r2 = powerOn.MCUSR
    ∧ (main_boot true (watchdogFires (main_boot true powerOn).state)).state.WDTCSR = WATCHDOG_OFF
    ∧ (main_boot true (watchdogFires (main_boot true powerOn).state)).state.marker = 0 :=
  ⟨by decide, watchdog_reset_hands_over true true powerOn (by decide)⟩

/-! ## C19: targets of the self-programming operations -/

/-- C19, as stated, fails: the engine accepts LOAD_ADDRESS with the word
address `0x4000` followed by a flash PROG_PAGE, and then issues a page-erase
at byte address `0x8000`, which is not below the 32768 bytes of program memory
of the ATmega328P. -/
theorem erase_beyond_program_memory :
    (commands atmega328p 2 (feed (fresh [])
        (accepted [[STK_LOAD_ADDRESS, 0x00, 0x40],
                   [STK_PROG_PAGE, 0x00, 0x01, 0x46, 0xAA]]))).returned = true
    ∧ Event.erase 0x8000 ∈ (commands atmega328p 2 (feed (fresh [])
        (accepted [[STK_LOAD_ADDRESS, 0x00, 0x40],
                   [STK_PROG_PAGE, 0x00, 0x01, 0x46, 0xAA]]))).state.trace
    ∧ ¬ (0x8000 < atmega328pFlashSize) := by
  obtain ⟨s1, h1, hin, hadr⟩ : ∃ s1 : State,
      command atmega328p (feed (fresh [])
        (STK_LOAD_ADDRESS :: 0x00 :: 0x40 :: CRC_EOP ::
          (STK_PROG_PAGE :: 0x00 :: 0x01 :: 0x46 :: ([0xAA] ++ CRC_EOP :: [])))) = Res.ok () s1
      ∧ s1.input = STK_PROG_PAGE :: 0x00 :: 0x01 :: 0x46 :: ([0xAA] ++ CRC_EOP :: [])
      ∧ s1.address = 0x8000 :=
    ⟨_, load_address_ok atmega328p (fresh []) 0x00 0x40 _, rfl, by decide⟩
  obtain ⟨s2, h2, hmem⟩ : ∃ s2 : State,
      command atmega328p s1 = Res.ok () s2 ∧ Event.erase 0x8000 ∈ s2.trace := by
    have h2 := prog_page_flash_ok atmega328p s1 0x00 0x01 0x46 [0xAA] [] (by decide) (by decide)
    rw [feed_self s1 _ hin] at h2
    refine ⟨_, h2, ?_⟩
    have hge : atmega328p.NRWWSTART ≤ 32768 := by decide
    simp [hadr, hge]
  have hacc : accepted [[STK_LOAD_ADDRESS, 0x00, 0x40], [STK_PROG_PAGE, 0x00, 0x01, 0x46, 0xAA]]
      = STK_LOAD_ADDRESS :: 0x00 :: 0x40 :: CRC_EOP ::
        (STK_PROG_PAGE :: 0x00 :: 0x01 :: 0x46 :: ([0xAA] ++ CRC_EOP :: [])) := by
    simp [accepted]
  have hrun : commands atmega328p 2 (feed (fresh [])
        (accepted [[STK_LOAD_ADDRESS, 0x00, 0x40],
                   [STK_PROG_PAGE, 0x00, 0x01, 0x46, 0xAA]])) = Res.ok () s2 := by
    rw [hacc, commands_succ_ok atmega328p 1 _ s1 h1, commands_succ_ok atmega328p 0 _ _ h2]
    rfl
  rw [hrun]
  exact ⟨rfl, hmem, by decide⟩

/-- C19 (amended): in every sequence of accepted commands (well-framed, each
followed by the terminator `0x20`) in which every flash PROG_PAGE starts with
Address + SPM_PAGESIZE no greater than the size of program memory, every
page-erase, page-fill and page-write a command issues is at an address below
that size.  The engine itself never compares Address with the size. -/
theorem spm_below_size (cfg : Config) (size : Nat) (frames : List (List Byte)) (s : State)
    (rest : List Byte) (hok : pageSizeOk cfg) (hw : s.wf)
    (hf : ∀ f ∈ frames, framed f = true ∧ strayType cfg f = false)
    (hfit : ∀ (k : Nat) (hk : k < frames.length), flashProg cfg (frames.get ⟨k, hk⟩) = true →
      zAddr cfg (stateAfter cfg s (accepted frames ++ rest) k)
          (stateAfter cfg s (accepted frames ++ rest) k).address + cfg.SPM_PAGESIZE ≤ size) :
    ∀ k, k < frames.length → ∀ e ∈ issued cfg s (accepted frames ++ rest) k,
      ∀ z, spmTarget e = some z →
        zAddr cfg (stateAfter cfg s (accepted frames ++ rest) k) z < size := by
  intro k hk e he z hz
  obtain ⟨hfp, hlt⟩ := accepted_step cfg rest hok frames s hw hf k hk e he z hz
  have := hfit k hk hfp
  omega

/-- C19 (amended) at a concrete input: LOAD_ADDRESS to byte address `0x2000`,
then a flash PROG_PAGE, on an ATmega328P. -/
theorem spm_below_size_witness :
    pageSizeOk atmega328p ∧ (fresh []).wf
    ∧ (∀ f ∈ [[STK_LOAD_ADDRESS, 0x00, 0x10], [STK_PROG_PAGE, 0x00, 0x01, 0x46, 0xAA]],
        framed f = true ∧ strayType atmega328p f = false)
    ∧ (∀ (k : Nat)
        (hk : k < [[STK_LOAD_ADDRESS, 0x00, 0x10], [STK_PROG_PAGE, 0x00, 0x01, 0x46, 0xAA]].length),
        flashProg atmega328p
          ([[STK_LOAD_ADDRESS, 0x00, 0x10], [STK_PROG_PAGE, 0x00, 0x01, 0x46, 0xAA]].get ⟨k, hk⟩)
          = true →
        zAddr atmega328p
          (stateAfter atmega328p (fresh [])
            (accepted [[STK_LOAD_ADDRESS, 0x00, 0x10], [STK_PROG_PAGE, 0x00, 0x01, 0x46, 0xAA]]
              ++ []) k)
          (stateAfter atmega328p (fresh [])
            (accepted [[STK_LOAD_ADDRESS, 0x00, 0x10], [STK_PROG_PAGE, 0x00, 0x01, 0x46, 0xAA]]
              ++ []) k).address + atmega328p.SPM_PAGESIZE ≤ atmega328pFlashSize)
    ∧ ∀ k, k < [[STK_LOAD_ADDRESS, 0x00, 0x10], [STK_PROG_PAGE, 0x00, 0x01, 0x46, 0xAA]].length →
        ∀ e ∈ issued atmega328p (fresh [])
            (accepted [[STK_LOAD_ADDRESS, 0x00, 0x10], [STK_PROG_PAGE, 0x00, 0x01, 0x46, 0xAA]]
              ++ []) k,
          ∀ z, spmTarget e = some z →
            zAddr atmega328p
              (stateAfter atmega328p (fresh [])
                (accepted [[STK_LOAD_ADDRESS, 0x00, 0x10], [STK_PROG_PAGE, 0x00, 0x01, 0x46, 0xAA]]
                  ++ []) k) z < atmega328pFlashSize :=
  ⟨by decide, by decide, by decide, by decide,
   spm_below_size atmega328p atmega328pFlashSize
     [[STK_LOAD_ADDRESS, 0x00, 0x10], [STK_PROG_PAGE, 0x00, 0x01, 0x46, 0xAA]] (fresh []) []
     (by decide) (by decide) (by decide) (by decide)⟩

/-! ## C20: Address after the page commands -/

/-- C20, as stated, fails: a flash PROG_PAGE that stages one data byte at
Address 0 leaves Address at 0, not at 1. -/
theorem prog_page_address_stays :
    (command atmega328p (feed (fresh [])
        (STK_PROG_PAGE :: 0x00 :: 0x01 :: 0x46 :: ([0xAA] ++ CRC_EOP :: [])))).returned = true
    ∧ (command atmega328p (feed (fresh [])
        (STK_PROG_PAGE :: 0x00 :: 0x01 :: 0x46 :: ([0xAA] ++ CRC_EOP :: [])))).state.address = 0
    ∧ (command atmega328p (feed (fresh [])
        (STK_PROG_PAGE :: 0x00 :: 0x01 :: 0x46 :: ([0xAA] ++ CRC_EOP :: [])))).state.address
        ≠ ((fresh []).address + [(0xAA : Byte)].length) % 65536 := by
  rw [prog_page_flash_ok atmega328p (fresh []) 0x00 0x01 0x46 [0xAA] [] (by decide) (by decide)]
  simp [Res.returned, Res.state, fresh]

/-- C20 (amended): a PROG_PAGE (flash or EEPROM) that stages its data bytes
and completes with terminator `0x20` leaves Address as it was; a READ_PAGE
with terminator `0x20` that sends `N` data bytes leaves Address at the old
Address plus `N` modulo `2^16`. -/
theorem address_after_page_commands (cfg : Config) (s : State) (h L ty : Byte)
    (data rest : List Byte) (hw : s.wf) (hlen : data.length = passes L.val)
    (hs : strayType cfg (STK_PROG_PAGE :: h :: L :: ty :: data) = false) :
    ((command cfg (feed s (STK_PROG_PAGE :: h :: L :: ty :: (data ++ CRC_EOP :: rest)))).returned
        = true
      ∧ (command cfg (feed s
          (STK_PROG_PAGE :: h :: L :: ty :: (data ++ CRC_EOP :: rest)))).state.address = s.address)
    ∧ ∃ payload : List Byte,
        (command cfg (feed s (STK_READ_PAGE :: h :: L :: ty :: CRC_EOP :: rest))).returned = true
        ∧ (command cfg (feed s (STK_READ_PAGE :: h :: L :: ty :: CRC_EOP :: rest))).state.output
            = s.output ++ STK_INSYNC :: (payload ++ [STK_OK])
        ∧ (command cfg (feed s (STK_READ_PAGE :: h :: L :: ty :: CRC_EOP :: rest))).state.address
            = (s.address + payload.length) % 65536 := by
  by_cases hty : flashType cfg ty = true
  · refine ⟨?_, (List.range (passes L.val)).map (fun i => s.flash (flashAddr cfg s i)), ?_⟩
    · rw [prog_page_flash_ok cfg s h L ty data rest hty hlen]
      simp [Res.returned, Res.state]
    · rw [read_page_flash_ok cfg s hw h L ty rest hty]
      simp [Res.returned, Res.state, advance, flashAddr_mod]
  · have hee : cfg.SUPPORT_EEPROM = true ∧ ty = 0x45 := by
      cases hse : cfg.SUPPORT_EEPROM
      · simp [flashType, hse] at hty
      · have hF : ty ≠ 0x46 := by simpa [flashType, hse] using hty
        simpa [strayType, hse, hF] using hs
    obtain ⟨hee, rfl⟩ := hee
    refine ⟨?_, eeReadOut s.eeprom L.val s.address, ?_⟩
    · rw [prog_page_eeprom_ok cfg s h L data rest hee hlen]
      simp [Res.returned, Res.state]
    · rw [read_page_eeprom_ok cfg s h L rest hee]
      simp [Res.returned, Res.state, eeAddr_eq _ _ hw.1, eeReadOut_length]

/-- C20 (amended) at a concrete input: one byte written to, then read from,
address 0 of a blank ATmega328P. -/
theorem address_after_page_commands_witness :
    (fresh []).wf ∧ [(0xAA : Byte)].length = passes (0x01 : Byte).val
    ∧ strayType atmega328p (STK_PROG_PAGE :: 0x00 :: 0x01 :: 0x46 :: [0xAA]) = false
    ∧ (command atmega328p (feed (fresh [])
          (STK_PROG_PAGE :: 0x00 :: 0x01 :: 0x46 :: ([0xAA] ++ CRC_EOP :: [])))).state.address
        = (fresh []).address :=
  ⟨by decide, by decide, by decide,
   (address_after_page_commands atmega328p (fresh []) 0x00 0x01 0x46 [0xAA] [] (by decide)
      (by decide) (by decide)).1.2⟩

/-! ## C21: the page-fill algorithm -/

/-- C21: in every flash PROG_PAGE with terminator `0x20`, once the terminator
is read and INSYNC sent, the engine waits for self-programming to be idle,
then issues exactly `SPM_PAGESIZE / 2` page-fills, number `i` with the 16-bit
operand `Address + 2 * i` and the word `buff[2i] + 256 * buff[2i+1]` of the
staged Page Buffer, then one page-write at Address, then waits again; the
number of data bytes sent does not enter the count.  The operand is
`Address + 2 * i` itself whenever the page window at Address ends within the
16-bit address space. -/
theorem page_fill_sequence (cfg : Config) (s : State) (h L ty : Byte) (data rest : List Byte)
    (hok : pageSizeOk cfg) (hw : s.wf) (hty : flashType cfg ty = true)
    (hlen : data.length = passes L.val) :
    (command cfg (feed s (STK_PROG_PAGE :: h :: L :: ty :: (data ++ CRC_EOP :: rest)))).state.trace
      = s.trace
        ++ [Event.rx STK_PROG_PAGE, Event.rx h, Event.rx L, Event.rx ty]
        ++ (if s.address < cfg.NRWWSTART then [Event.erase s.address] else [])
        ++ data.map Event.rx
        ++ (if cfg.NRWWSTART ≤ s.address then [Event.erase s.address] else [])
        ++ [Event.rx CRC_EOP, Event.tx STK_INSYNC, Event.spmBusyWait]
        ++ (List.range (cfg.SPM_PAGESIZE / 2)).map (fillAt (stored data 0 s.buff) s.address)
        ++ [Event.write s.address, Event.spmBusyWait]
        ++ (if cfg.RWWSRE then [Event.rwwEnable] else [])
        ++ [Event.tx STK_OK]
    ∧ (s.address + cfg.SPM_PAGESIZE ≤ 65536 →
        ∀ i, i < cfg.SPM_PAGESIZE / 2 →
          fillAt (stored data 0 s.buff) s.address i
            = Event.fill (s.address + 2 * i)
                ((stored data 0 s.buff (2 * i)).val
                  + 256 * (stored data 0 s.buff (2 * i + 1)).val)) := by
  constructor
  · rw [prog_page_flash_ok cfg s h L ty data rest hty hlen, passes_half_page cfg hok,
      fills_eq_fillAt _ _ _ hw.1]
    rfl
  · intro hfit i hi
    have e : (s.address + 2 * i) % 65536 = s.address + 2 * i := by
      apply Nat.mod_eq_of_lt
      omega
    simp only [fillAt, e]

/-- C21 at a concrete input: one data byte sent to an ATmega328P, 64 page-fills
issued. -/
theorem page_fill_sequence_witness :
    pageSizeOk atmega328p ∧ (fresh []).wf ∧ flashType atmega328p 0x46 = true
    ∧ [(0xAA : Byte)].length = passes (0x01 : Byte).val
    ∧ atmega328p.SPM_PAGESIZE / 2 = 64
    ∧ ((command atmega328p (feed (fresh [])
          (STK_PROG_PAGE :: 0x00 :: 0x01 :: 0x46 :: ([0xAA] ++ CRC_EOP :: [])))).state.trace
        = (fresh []).trace
          ++ [Event.rx STK_PROG_PAGE, Event.rx 0x00, Event.rx 0x01, Event.rx 0x46]
          ++ (if (fresh []).address < atmega328p.NRWWSTART
              then [Event.erase (fresh []).address] else [])
          ++ [(0xAA : Byte)].map Event.rx
          ++ (if atmega328p.NRWWSTART ≤ (fresh []).address
              then [Event.erase (fresh []).address] else [])
          ++ [Event.rx CRC_EOP, Event.tx STK_INSYNC, Event.spmBusyWait]
          ++ (List.range (atmega328p.SPM_PAGESIZE / 2)).map
              (fillAt (stored [0xAA] 0 (fresh []).buff) (fresh []).address)
          ++ [Event.write (fresh []).address, Event.spmBusyWait]
          ++ (if atmega328p.RWWSRE then [Event.rwwEnable] else [])
          ++ [Event.tx STK_OK]
      ∧ ((fresh []).address + atmega328p.SPM_PAGESIZE ≤ 65536 →
          ∀ i, i < atmega328p.SPM_PAGESIZE / 2 →
            fillAt (stored [0xAA] 0 (fresh []).buff) (fresh []).address i
              = Event.fill ((fresh []).address + 2 * i)
                  ((stored [0xAA] 0 (fresh []).buff (2 * i)).val
                    + 256 * (stored [0xAA] 0 (fresh []).buff (2 * i + 1)).val))) :=
  ⟨by decide, by decide, by decide, by decide, by decide,
   page_fill_sequence atmega328p (fresh []) 0x00 0x01 0x46 [0xAA] [] (by decide) (by decide)
     (by decide) (by decide)⟩

/-! ## C22: EEPROM PROG_PAGE -/

/-- C22 fails for N = 256.  An EEPROM PROG_PAGE with length bytes `01 00`
stages 256 data bytes; `length = bufPtr - buff` is then taken in a `uint8_t`,
which makes it 0, so the loop `while (length--)` writes nothing: the engine
consumes the whole command and replies INSYNC, OK, the Page Buffer holds the
data, and the EEPROM is as it was, with no `eeprom_write` issued. -/
theorem eeprom_page_of_256_dropped :
    (command atmega328pEeprom (feed (fresh [])
        (STK_PROG_PAGE :: 0x01 :: 0x00 :: 0x45 ::
          (List.replicate 256 (0xAA : Byte) ++ CRC_EOP :: [])))).returned = true
    ∧ (command atmega328pEeprom (feed (fresh [])
        (STK_PROG_PAGE :: 0x01 :: 0x00 :: 0x45 ::
          (List.replicate 256 (0xAA : Byte) ++ CRC_EOP :: [])))).state.input = []
    ∧ (command atmega328pEeprom (feed (fresh [])
        (STK_PROG_PAGE :: 0x01 :: 0x00 :: 0x45 ::
          (List.replicate 256 (0xAA : Byte) ++ CRC_EOP :: [])))).state.output
        = (fresh []).output ++ [STK_INSYNC, STK_OK]
    ∧ (command atmega328pEeprom (feed (fresh [])
        (STK_PROG_PAGE :: 0x01 :: 0x00 :: 0x45 ::
          (List.replicate 256 (0xAA : Byte) ++ CRC_EOP :: [])))).state.buff
        = stored (List.replicate 256 (0xAA : Byte)) 0 (fresh []).buff
    ∧ (command atmega328pEeprom (feed (fresh [])
        (STK_PROG_PAGE :: 0x01 :: 0x00 :: 0x45 ::
          (List.replicate 256 (0xAA : Byte) ++ CRC_EOP :: [])))).state.eeprom
        = (fresh []).eeprom
    ∧ ∀ a v, Event.eeWrite a v ∉ List.drop (fresh []).trace.length
        (command atmega328pEeprom (feed (fresh [])
          (STK_PROG_PAGE :: 0x01 :: 0x00 :: 0x45 ::
            (List.replicate 256 (0xAA : Byte) ++ CRC_EOP :: [])))).state.trace :=
  prog_page_eeprom_256 atmega328pEeprom (fresh []) 0x01 (List.replicate 256 0xAA) [] rfl
    (List.length_replicate _ _)

/-! ## C23: the Reset Marker at `wait_timeout` -/

/-- C23, as stated, fails for LEAVE_PROGMODE: the branch sets the Reset Marker
to `0xdeadbeef` before it reads the terminator, so with a wrong terminator
(`0x21`) the engine enters `wait_timeout` with the sentinel in place, and the
boot that follows the watchdog reset takes the fast path to the application. -/
theorem leave_progmode_bad_terminator_fast_path :
    (command atmega328p (feed (fresh []) [STK_LEAVE_PROGMODE, 0x21])).returned = false
    ∧ (command atmega328p (feed (fresh []) [STK_LEAVE_PROGMODE, 0x21])).state.radioIdle = true
    ∧ (command atmega328p (feed (fresh []) [STK_LEAVE_PROGMODE, 0x21])).state.marker
        = MARKER_SENTINEL
    ∧ fastPath (resetFrom
        (command atmega328p (feed (fresh []) [STK_LEAVE_PROGMODE, 0x21])).state
        (main_boot true powerOn).state)
    ∧ (main_boot true (resetFrom
        (command atmega328p (feed (fresh []) [STK_LEAVE_PROGMODE, 0x21])).state
        (main_boot true powerOn).state)).isApp = true := by
  rw [leave_progmode_bad atmega328p (fresh []) 0x21 [] (by decide)]
  decide

/-- C23 (amended): every well-framed command (stray memory types apart) whose
terminator byte is wrong ends in `wait_timeout`, radio idle and watchdog at
16 ms.  If the command is not LEAVE_PROGMODE, the Reset Marker is 0 there, so
the boot that follows the watchdog reset does not take the fast path: it never
starts the application and, the radio being found, re-enters the protocol
engine.  If the command is LEAVE_PROGMODE, the Reset Marker is `0xdeadbeef`
there, and the boot that follows takes the fast path to the application. -/
theorem marker_at_wait_timeout (cfg : Config) (s : State) (frame rest : List Byte) (t : Byte)
    (radio : Bool) (b : Boot)
    (hf : framed frame = true) (hs : strayType cfg frame = false) (ht : t ≠ CRC_EOP) :
    ∃ s1 : State,
      command cfg (feed s (frame ++ t :: rest)) = Res.hang s1
      ∧ s1.radioIdle = true ∧ s1.wdtcsr = WATCHDOG_16MS
      ∧ (frame.head? ≠ some STK_LEAVE_PROGMODE →
          s1.marker = 0 ∧ ¬ fastPath (resetFrom s1 b)
          ∧ (main_boot radio (resetFrom s1 b)).isApp = false
          ∧ (main_boot true (resetFrom s1 b)).isEngine = true)
      ∧ (frame.head? = some STK_LEAVE_PROGMODE →
          s1.marker = MARKER_SENTINEL ∧ fastPath (resetFrom s1 b)
          ∧ (main_boot radio (resetFrom s1 b)).isApp = true) := by
  obtain ⟨s1, hc, _, _, hidle, hwd, hm⟩ := framed_bad_terminator cfg s frame rest t hf hs ht
  refine ⟨s1, hc, hidle, hwd, ?_, ?_⟩
  · intro hne
    rw [if_neg hne] at hm
    have hslow : ¬ fastPath (resetFrom s1 b) := by
      rw [fastPath_resetFrom, hm]
      decide
    refine ⟨hm, hslow, ?_, ?_⟩
    · rw [main_boot_slow radio _ hslow]
      cases radio <;> rfl
    · rw [main_boot_slow true _ hslow]
      rfl
  · intro he
    rw [if_pos he] at hm
    have hfast : fastPath (resetFrom s1 b) := (fastPath_resetFrom s1 b).mpr hm
    refine ⟨hm, hfast, ?_⟩
    rw [main_boot_fast radio _ hfast]
    rfl

/-- C23 (amended) at two inputs: GET_PARAMETER and LEAVE_PROGMODE, each with
the wrong terminator `0x21`. -/
theorem marker_at_wait_timeout_witness :
    (framed [STK_GET_PARAMETER, 0x81] = true ∧ strayType atmega328p [STK_GET_PARAMETER, 0x81] = false
      ∧ (0x21 : Byte) ≠ CRC_EOP
      ∧ [STK_GET_PARAMETER, (0x81 : Byte)].head? ≠ some STK_LEAVE_PROGMODE
      ∧ ∃ s1 : State,
          command atmega328p (feed (fresh []) ([STK_GET_PARAMETER, 0x81] ++ 0x21 :: []))
            = Res.hang s1
          ∧ s1.radioIdle = true ∧ s1.wdtcsr = WATCHDOG_16MS
          ∧ ([STK_GET_PARAMETER, (0x81 : Byte)].head? ≠ some STK_LEAVE_PROGMODE →
              s1.marker = 0 ∧ ¬ fastPath (resetFrom s1 (main_boot true powerOn).state)
              ∧ (main_boot true (resetFrom s1 (main_boot true powerOn).state)).isApp = false
              ∧ (main_boot true (resetFrom s1 (main_boot true powerOn).state)).isEngine = true)
          ∧ ([STK_GET_PARAMETER, (0x81 : Byte)].head? = some STK_LEAVE_PROGMODE →
              s1.marker = MARKER_SENTINEL
              ∧ fastPath (resetFrom s1 (main_boot true powerOn).state)
              ∧ (main_boot true (resetFrom s1 (main_boot true powerOn).state)).isApp = true))
    ∧ (framed [STK_LEAVE_PROGMODE] = true ∧ strayType atmega328p [STK_LEAVE_PROGMODE] = false
      ∧ [STK_LEAVE_PROGMODE].head? = some STK_LEAVE_PROGMODE) :=
  ⟨⟨by decide, by decide, by decide, by decide,
    marker_at_wait_timeout atmega328p (fresh []) [STK_GET_PARAMETER, 0x81] [] 0x21 true
      (main_boot true powerOn).state (by decide) (by decide) (by decide)⟩,
   by decide, by decide, by decide⟩

/-! ## C24: the number of data bytes of PROG_PAGE -/

/-- C24: whatever the first length byte `h` and the memory-type byte `ty`, a
PROG_PAGE with second length byte `L` takes `L` data bytes from the channel
when `L` is not 0 and 256 when it is, and stages them from `buff[0]` upward:
after the command `buff[i]` is data byte `i` for every `i` below that number,
the rest of the Page Buffer is as before, and of the bytes that follow the
data only the terminator is consumed (not even that by a PROG_PAGE with a
stray memory type). -/
theorem prog_page_data_count (cfg : Config) (s : State) (h L ty t : Byte)
    (data rest : List Byte) (hlen : data.length = (if L.val = 0 then 256 else L.val)) :
    ∃ s1 : State,
      (command cfg (feed s (STK_PROG_PAGE :: h :: L :: ty :: (data ++ t :: rest)))).state = s1
      ∧ (∀ (i : Nat) (hi : i < data.length), s1.buff i = data.get ⟨i, hi⟩)
      ∧ (∀ i, data.length ≤ i → s1.buff i = s.buff i)
      ∧ s1.input
          = (if strayType cfg (STK_PROG_PAGE :: h :: L :: ty :: data) = true then t :: rest
             else rest) := by
  have hl : data.length = passes L.val := hlen
  obtain ⟨hb, hi⟩ := prog_page_staged cfg s h L ty t data rest hl
  refine ⟨_, rfl, ?_, ?_, hi⟩
  · intro i hlt
    rw [hb]
    have := stored_get data 0 s.buff i hlt
    rw [Nat.zero_add] at this
    exact this
  · intro i hge
    rw [hb]
    exact stored_above data 0 s.buff i (by omega)

/-- C24 at length byte 2 with a stray high byte. -/
theorem prog_page_data_count_witness :
    [(0xAA : Byte), 0xBB].length = (if (0x02 : Byte).val = 0 then 256 else (0x02 : Byte).val)
    ∧ ∃ s1 : State,
        (command atmega328p (feed (fresh [])
          (STK_PROG_PAGE :: 0x07 :: 0x02 :: 0x46 :: ([0xAA, 0xBB] ++ CRC_EOP :: [])))).state = s1
        ∧ (∀ (i : Nat) (hi : i < [(0xAA : Byte), 0xBB].length),
            s1.buff i = [(0xAA : Byte), 0xBB].get ⟨i, hi⟩)
        ∧ (∀ i, [(0xAA : Byte), 0xBB].length ≤ i → s1.buff i = (fresh []).buff i)
        ∧ s1.input
            = (if strayType atmega328p (STK_PROG_PAGE :: 0x07 :: 0x02 :: 0x46 :: [0xAA, 0xBB])
                  = true then CRC_EOP :: [] else []) :=
  ⟨by decide,
   prog_page_data_count atmega328p (fresh []) 0x07 0x02 0x46 CRC_EOP [0xAA, 0xBB] []
     (by decide)⟩

/-! ## C25: flash PROG_PAGE with a wrong terminator -/

/-- C25: a flash PROG_PAGE whose data is followed by a byte other than `0x20`
ends in `wait_timeout` without a reply; the self-programming operations of the
command are exactly one page-erase at Address, with no page-fill and no
page-write, and program memory is left with the page of Address erased (every
byte `0xFF`) and every other byte as before. -/
theorem bad_terminator_leaves_page_erased (cfg : Config) (s : State) (h L ty t : Byte)
    (data rest : List Byte) (hty : flashType cfg ty = true) (hlen : data.length = passes L.val)
    (ht : t ≠ CRC_EOP) :
    ∃ s1 : State,
      command cfg (feed s (STK_PROG_PAGE :: h :: L :: ty :: (data ++ t :: rest))) = Res.hang s1
      ∧ spmOps (s1.trace.drop s.trace.length) = [Event.erase s.address]
      ∧ (∀ p, samePage cfg p (zAddr cfg s s.address) = true → s1.flash p = 0xFF)
      ∧ (∀ p, samePage cfg p (zAddr cfg s s.address) = false → s1.flash p = s.flash p)
      ∧ s1.output = s.output := by
  refine ⟨_, prog_page_flash_bad cfg s h L ty t data rest hty hlen ht, ?_, ?_, ?_, rfl⟩
  · simp only [List.append_assoc, List.drop_left, spmOps_append, spmOps_rx]
    by_cases hlo : s.address < cfg.NRWWSTART
    · have hge : ¬ cfg.NRWWSTART ≤ s.address := by omega
      simp [hlo, hge, spmOps, spmTarget]
    · have hge : cfg.NRWWSTART ≤ s.address := by omega
      simp [hlo, hge, spmOps, spmTarget]
  · intro p hp
    simp only [hp, if_true]
  · intro p hp
    simp only [hp, Bool.false_eq_true, if_false]

/-- C25 at a concrete input: one data byte, then `0x21`. -/
theorem bad_terminator_leaves_page_erased_witness :
    flashType atmega328p 0x46 = true ∧ [(0xAA : Byte)].length = passes (0x01 : Byte).val
    ∧ (0x21 : Byte) ≠ CRC_EOP
    ∧ ∃ s1 : State,
        command atmega328p (feed (fresh [])
          (STK_PROG_PAGE :: 0x00 :: 0x01 :: 0x46 :: ([0xAA] ++ 0x21 :: []))) = Res.hang s1
        ∧ spmOps (s1.trace.drop (fresh []).trace.length) = [Event.erase (fresh []).address]
        ∧ (∀ p, samePage atmega328p p (zAddr atmega328p (fresh []) (fresh []).address) = true →
            s1.flash p = 0xFF)
        ∧ (∀ p, samePage atmega328p p (zAddr atmega328p (fresh []) (fresh []).address) = false →
            s1.flash p = (fresh []).flash p)
        ∧ s1.output = (fresh []).output :=
  ⟨by decide, by decide, by decide,
   bad_terminator_leaves_page_erased atmega328p (fresh []) 0x00 0x01 0x46 0x21 [0xAA] []
     (by decide) (by decide) (by decide)⟩

/-! ## C26: the transmit buffer bound -/

/-- C26: after any sequence of `putch` calls from the initial state, whatever
the acknowledgments, the buffer length at entry to the next `putch` is at most
31, so the byte is stored inside the 32-byte buffer; no packet handed to the
radio so far is longer than 32 bytes; and the next `putch` transmits (one to
127 times, the buffer up to the byte just stored) if the byte is `STK_OK` or
brings the length to 32, and transmits nothing, keeping the byte in the buffer,
otherwise. -/
theorem transmit_buffer_bounded (ack : Nat → Bool) (bytes : List Byte) (ch : Byte) :
    (Radio.putchs ack bytes Radio.Tx.init).pkt_len ≤ 31
    ∧ (∀ p ∈ Radio.sent (Radio.putchs ack bytes Radio.Tx.init).log, p.length ≤ 32)
    ∧ ((ch = STK_OK ∨ (Radio.putchs ack bytes Radio.Tx.init).pkt_len + 1 = 32) →
        (Radio.flushed ch (Radio.putchs ack bytes Radio.Tx.init)).length
          = (Radio.putchs ack bytes Radio.Tx.init).pkt_len + 1
        ∧ ∃ k, 1 ≤ k ∧ k ≤ 127
          ∧ Radio.sent (Radio.putch ack ch (Radio.putchs ack bytes Radio.Tx.init)).log
              = Radio.sent (Radio.putchs ack bytes Radio.Tx.init).log
                ++ List.replicate k (Radio.flushed ch (Radio.putchs ack bytes Radio.Tx.init)))
    ∧ (¬ (ch = STK_OK ∨ (Radio.putchs ack bytes Radio.Tx.init).pkt_len + 1 = 32) →
        (Radio.putch ack ch (Radio.putchs ack bytes Radio.Tx.init)).log
          = (Radio.putchs ack bytes Radio.Tx.init).log
        ∧ (Radio.putch ack ch (Radio.putchs ack bytes Radio.Tx.init)).pkt_len
          = (Radio.putchs ack bytes Radio.Tx.init).pkt_len + 1) := by
  obtain ⟨hl, hs⟩ := radio_putchs_bounded ack bytes Radio.Tx.init radio_init_bounded
  have e : ((Radio.putchs ack bytes Radio.Tx.init).pkt_len + 1) % 256
      = (Radio.putchs ack bytes Radio.Tx.init).pkt_len + 1 := by omega
  refine ⟨hl, hs, ?_, ?_⟩
  · intro h
    have hfl : Radio.flushes ch (Radio.putchs ack bytes Radio.Tx.init) := by
      simp only [Radio.flushes, Radio.pkt_max_len, e]
      exact h
    exact ⟨radio_flushed_length ch _ hl, radio_flush_sent ack ch _ hfl⟩
  · intro h
    have hfl : ¬ Radio.flushes ch (Radio.putchs ack bytes Radio.Tx.init) := by
      simp only [Radio.flushes, Radio.pkt_max_len, e]
      exact h
    rw [radio_putch_keep ack ch _ hfl]
    exact ⟨rfl, e⟩

/-- C26 at the replies `STK_INSYNC STK_OK STK_INSYNC`, followed by `STK_OK`. -/
theorem transmit_buffer_bounded_witness :
    (Radio.putchs (fun _ => true) [STK_INSYNC, STK_OK, STK_INSYNC] Radio.Tx.init).pkt_len = 2
    ∧ Radio.sent (Radio.putchs (fun _ => true) [STK_INSYNC, STK_OK, STK_INSYNC]
        Radio.Tx.init).log = [[0x14, 0x10]]
    ∧ (Radio.flushed STK_OK (Radio.putchs (fun _ => true) [STK_INSYNC, STK_OK, STK_INSYNC]
        Radio.Tx.init)).length = 3
    ∧ ∃ k, 1 ≤ k ∧ k ≤ 127
        ∧ Radio.sent (Radio.putch (fun _ => true) STK_OK
            (Radio.putchs (fun _ => true) [STK_INSYNC, STK_OK, STK_INSYNC] Radio.Tx.init)).log
          = Radio.sent (Radio.putchs (fun _ => true) [STK_INSYNC, STK_OK, STK_INSYNC]
              Radio.Tx.init).log
            ++ List.replicate k (Radio.flushed STK_OK
                (Radio.putchs (fun _ => true) [STK_INSYNC, STK_OK, STK_INSYNC] Radio.Tx.init)) :=
  ⟨by decide, by decide, by decide,
   ((transmit_buffer_bounded (fun _ => true) [STK_INSYNC, STK_OK, STK_INSYNC] STK_OK).2.2.1
      (Or.inl rfl)).2⟩

/-! ## C27: the receive buffer bound -/

/-- C27: let the radio hold packets of 2 to 32 bytes, and let any number of
`getch` calls have returned since the initial state.  Then the next call
either waits, or returns the byte it reads by `ch = pkt_buf[pkt_start++];
pkt_len--;` from static variables `u` in which the index `pkt_start` is between
1 and 31 and the counter `pkt_len` is at least 1, so that neither decrement of
the counter wraps: `u` is the state at entry when bytes are left to serve, and
otherwise the state after a packet `p` has been read and its sequence byte
counted off (`u.pkt_len + 1 = p.length`, index 1). -/
theorem receive_index_bounded (fifo : List Packet) (n : Nat) (bs : List Byte) (v : Radio.Rx)
    (f : List Packet) (hp : Radio.payloaded fifo)
    (hrun : Radio.getchN n fifo Radio.Rx.init = some (bs, v, f)) :
    Radio.getch f v = none
    ∨ ∃ u f1, Radio.getch f v = some ((Radio.takeByte u).1, (Radio.takeByte u).2, f1)
        ∧ 1 ≤ u.pkt_start ∧ u.pkt_start ≤ 31
        ∧ 1 ≤ u.pkt_len ∧ (Radio.takeByte u).2.pkt_len + 1 = u.pkt_len
        ∧ u.pkt_start + u.pkt_len ≤ 32
        ∧ (v.pkt_len ≠ 0 → u = v)
        ∧ (v.pkt_len = 0 → u.pkt_start = 1 ∧ ∃ p ∈ f, u.pkt_len + 1 = p.length) := by
  have hinit : Radio.Rx.bounded Radio.Rx.init := Or.inl rfl
  obtain ⟨hb, hpf⟩ := radio_bounded_run n fifo Radio.Rx.init bs v f hinit hp hrun
  rcases radio_bounded_step f v hb hpf with h | ⟨u, f1, h1, h2, h3, h4, h5, h6, h7, _, _⟩
  · left
    exact h
  · right
    refine ⟨u, f1, h1, h2, h3, h4, ?_, h5, h6, h7⟩
    simp only [Radio.takeByte]
    omega

/-- C27 at a concrete input: after the two payload bytes of the packet
`01 AA BB` are served, the next call reads the packet `02 41`. -/
theorem receive_index_bounded_witness :
    Radio.payloaded [[0x01, 0xAA, 0xBB], [0x02, 0x41]]
    ∧ ∃ (bs : List Byte) (v : Radio.Rx) (f : List Packet),
        Radio.getchN 2 [[0x01, 0xAA, 0xBB], [0x02, 0x41]] Radio.Rx.init = some (bs, v, f)
        ∧ bs = [0xAA, 0xBB] ∧ f = [[0x02, 0x41]]
        ∧ (Radio.getch f v = none
          ∨ ∃ u f1, Radio.getch f v = some ((Radio.takeByte u).1, (Radio.takeByte u).2, f1)
              ∧ 1 ≤ u.pkt_start ∧ u.pkt_start ≤ 31
              ∧ 1 ≤ u.pkt_len ∧ (Radio.takeByte u).2.pkt_len + 1 = u.pkt_len
              ∧ u.pkt_start + u.pkt_len ≤ 32
              ∧ (v.pkt_len ≠ 0 → u = v)
              ∧ (v.pkt_len = 0 → u.pkt_start = 1 ∧ ∃ p ∈ f, u.pkt_len + 1 = p.length)) :=
  ⟨by decide, _, _, _, rfl, rfl, rfl,
   receive_index_bounded [[0x01, 0xAA, 0xBB], [0x02, 0x41]] 2 _ _ _ (by decide) rfl⟩

end Optiboot
